import Mathlib

/-!
Verification of the activitypds persistence layer: the `SimpleKV` generic
key-value store with mapping indexes (src/stores/simple-kv.ts), the
`OAuthStore` entity adapter built on it (src/stores/oauth.ts), and the
JSON casting helpers (src/db/cast.ts).

The embedding is shallow: the SQLite table backing the store is a list of
rows with unique keys; each adapter method becomes a function
`Store → Option (α × Store)` where `none` models a raised error; JS strings
are Lean strings, JS `Date` objects are their UTC components, and
`JSON.stringify` / `JSON.parse` (with the ISO-date replacer/reviver of
cast.ts) are implemented as an executable printer and parser.
-/

namespace ActivityPDS

/-! ## Dates (cast.ts: toDateISO / fromDateISO / isoDateRegex)

A JS `Date` is modelled by its UTC calendar components. `toDateISO` is
`Date.prototype.toISOString` for dates whose year fits in four digits
(the only dates the regex of cast.ts can recognise). -/

structure JSDate where
  year : Nat
  month : Nat
  day : Nat
  hour : Nat
  minute : Nat
  second : Nat
  ms : Nat
deriving DecidableEq

def digitChar (n : Nat) : Char := Char.ofNat (48 + n)

def isDigitC (c : Char) : Bool := 48 ≤ c.toNat && c.toNat ≤ 57

def digitVal (c : Char) : Nat := c.toNat - 48

def natCharsGo : Nat → Nat → List Char
  | 0, _ => []
  | fuel + 1, n =>
    if n < 10 then [digitChar n]
    else natCharsGo fuel (n / 10) ++ [digitChar (n % 10)]

/-- Decimal digit characters of `n` (the fuel `n + 1` always suffices). -/
def natChars (n : Nat) : List Char := natCharsGo (n + 1) n

/-- Zero-pad the decimal representation of `n` to width `w`. -/
def pad (w : Nat) (n : Nat) : List Char :=
  List.replicate (w - (natChars n).length) '0' ++ natChars n

def toDateISOChars (d : JSDate) : List Char :=
  pad 4 d.year ++ '-' :: pad 2 d.month ++ '-' :: pad 2 d.day ++
    'T' :: pad 2 d.hour ++ ':' :: pad 2 d.minute ++ ':' :: pad 2 d.second ++
    '.' :: pad 3 d.ms ++ ['Z']

def toDateISO (d : JSDate) : String := String.mk (toDateISOChars d)

def digitsToNat (acc : Nat) : List Char → Nat
  | [] => acc
  | c :: cs => digitsToNat (acc * 10 + digitVal c) cs

/-- Combined model of `isoDateRegex.test` plus `fromDateISO = new Date(str)`:
returns the parsed components exactly when the string has the shape
`\d{4}-\d{2}-\d{2}T\d{2}:\d{2}:\d{2}\.\d{3}Z`. -/
def isoParts : List Char → Option JSDate
  | y1 :: y2 :: y3 :: y4 :: s1 :: m1 :: m2 :: s2 :: d1 :: d2 :: s3 ::
      h1 :: h2 :: s4 :: i1 :: i2 :: s5 :: x1 :: x2 :: s6 :: p1 :: p2 :: p3 :: s7 :: rest =>
    if rest.isEmpty && s1 = '-' && s2 = '-' && s3 = 'T' && s4 = ':' && s5 = ':' &&
        s6 = '.' && s7 = 'Z' &&
        isDigitC y1 && isDigitC y2 && isDigitC y3 && isDigitC y4 &&
        isDigitC m1 && isDigitC m2 && isDigitC d1 && isDigitC d2 &&
        isDigitC h1 && isDigitC h2 && isDigitC i1 && isDigitC i2 &&
        isDigitC x1 && isDigitC x2 && isDigitC p1 && isDigitC p2 && isDigitC p3 then
      some ⟨digitsToNat 0 [y1, y2, y3, y4], digitsToNat 0 [m1, m2],
        digitsToNat 0 [d1, d2], digitsToNat 0 [h1, h2], digitsToNat 0 [i1, i2],
        digitsToNat 0 [x1, x2], digitsToNat 0 [p1, p2, p3]⟩
    else none
  | _ => none

/-! ## Encodable values (cast.ts: Encodable)

JS numbers are modelled as integers (the repository only stores integral
numbers); objects are ordered association lists. -/

inductive Val where
  | vstr : String → Val
  | vint : Int → Val
  | vbool : Bool → Val
  | vnull : Val
  | vdate : JSDate → Val
  | varr : List Val → Val
  | vobj : List (String × Val) → Val

def lbraceC : Char := Char.ofNat 123
def rbraceC : Char := Char.ofNat 125

def hexChar (n : Nat) : Char := if n < 10 then digitChar n else Char.ofNat (87 + n)

/-- `JSON.stringify` escaping of a single string character. -/
def escC (c : Char) : List Char :=
  if c = '"' then ['\\', '"']
  else if c = '\\' then ['\\', '\\']
  else if c = Char.ofNat 8 then ['\\', 'b']
  else if c = Char.ofNat 9 then ['\\', 't']
  else if c = Char.ofNat 10 then ['\\', 'n']
  else if c = Char.ofNat 12 then ['\\', 'f']
  else if c = Char.ofNat 13 then ['\\', 'r']
  else if c.toNat < 32 then
    ['\\', 'u', '0', '0', hexChar (c.toNat / 16), hexChar (c.toNat % 16)]
  else [c]

def escStr : List Char → List Char
  | [] => []
  | c :: cs => escC c ++ escStr cs

def intChars (i : Int) : List Char :=
  if i < 0 then '-' :: natChars i.natAbs else natChars i.natAbs

mutual

/-- `JSON.stringify` with the replacer of cast.ts (dates become their ISO
strings; `Date.prototype.toJSON` produces the same text). -/
def emitVal : Val → List Char
  | Val.vstr s => '"' :: (escStr s.data ++ ['"'])
  | Val.vint i => intChars i
  | Val.vbool b => if b then ['t', 'r', 'u', 'e'] else ['f', 'a', 'l', 's', 'e']
  | Val.vnull => ['n', 'u', 'l', 'l']
  | Val.vdate d => '"' :: (escStr (toDateISOChars d) ++ ['"'])
  | Val.varr xs => '[' :: (emitElems xs ++ [']'])
  | Val.vobj fs => lbraceC :: (emitFields fs ++ [rbraceC])

def emitElems : List Val → List Char
  | [] => []
  | [x] => emitVal x
  | x :: y :: xs => emitVal x ++ ',' :: emitElems (y :: xs)

def emitFields : List (String × Val) → List Char
  | [] => []
  | [(k, v)] => '"' :: (escStr k.data ++ '"' :: ':' :: emitVal v)
  | (k, v) :: g :: fs =>
    ('"' :: (escStr k.data ++ '"' :: ':' :: emitVal v)) ++ ',' :: emitFields (g :: fs)

end

/-- cast.ts `toJson`. -/
def toJson (v : Val) : String := String.mk (emitVal v)

/-! ## JSON parsing (cast.ts: fromJson = JSON.parse + ISO-date reviver)

The parser covers the grammar `JSON.stringify` emits (no whitespace, no
fraction/exponent numbers); on other well-formed JSON documents that the
repository never produces it may differ from `JSON.parse` by rejecting,
which is sound for every claim below since stored values are always
`toJson` images. -/

def hexVal (c : Char) : Option Nat :=
  if 48 ≤ c.toNat && c.toNat ≤ 57 then some (c.toNat - 48)
  else if 97 ≤ c.toNat && c.toNat ≤ 102 then some (c.toNat - 87)
  else if 65 ≤ c.toNat && c.toNat ≤ 70 then some (c.toNat - 55)
  else none

def escCode (c : Char) : Option Char :=
  if c = '"' then some '"'
  else if c = '\\' then some '\\'
  else if c = '/' then some '/'
  else if c = 'b' then some (Char.ofNat 8)
  else if c = 'f' then some (Char.ofNat 12)
  else if c = 'n' then some (Char.ofNat 10)
  else if c = 'r' then some (Char.ofNat 13)
  else if c = 't' then some (Char.ofNat 9)
  else none

/-- Parse a JSON string body up to and including the closing quote. -/
def parseStrBody : List Char → Option (List Char × List Char)
  | [] => none
  | c :: rest =>
    if c = '"' then some ([], rest)
    else if c = '\\' then
      match rest with
      | [] => none
      | e :: rest2 =>
        if e = 'u' then
          match rest2 with
          | a :: b :: c2 :: d :: rest3 =>
            match hexVal a, hexVal b, hexVal c2, hexVal d with
            | some va, some vb, some vc, some vd =>
              (parseStrBody rest3).map
                (fun p => (Char.ofNat (((va * 16 + vb) * 16 + vc) * 16 + vd) :: p.1, p.2))
            | _, _, _, _ => none
          | _ => none
        else
          match escCode e with
          | some ch => (parseStrBody rest2).map (fun p => (ch :: p.1, p.2))
          | none => none
    else (parseStrBody rest).map (fun p => (c :: p.1, p.2))

def parseDigits : List Char → List Char × List Char
  | [] => ([], [])
  | c :: rest =>
    if isDigitC c then
      let p := parseDigits rest
      (c :: p.1, p.2)
    else ([], c :: rest)

def parseNat (l : List Char) : Option (Nat × List Char) :=
  match parseDigits l with
  | ([], _) => none
  | (ds, r) => some (digitsToNat 0 ds, r)

mutual

def parseVal : Nat → List Char → Option (Val × List Char)
  | 0, _ => none
  | _ + 1, [] => none
  | fuel + 1, c :: rest =>
    if c = '"' then
      (parseStrBody rest).map (fun p => (Val.vstr (String.mk p.1), p.2))
    else if c = '[' then
      match rest with
      | ']' :: r => some (Val.varr [], r)
      | _ => (parseElems fuel rest).map (fun p => (Val.varr p.1, p.2))
    else if c = lbraceC then
      match rest with
      | [] => none
      | r0 :: r =>
        if r0 = rbraceC then some (Val.vobj [], r)
        else (parseFields fuel (r0 :: r)).map (fun p => (Val.vobj p.1, p.2))
    else if c = 't' then
      match rest with
      | 'r' :: 'u' :: 'e' :: r => some (Val.vbool true, r)
      | _ => none
    else if c = 'f' then
      match rest with
      | 'a' :: 'l' :: 's' :: 'e' :: r => some (Val.vbool false, r)
      | _ => none
    else if c = 'n' then
      match rest with
      | 'u' :: 'l' :: 'l' :: r => some (Val.vnull, r)
      | _ => none
    else if c = '-' then
      (parseNat rest).map (fun p => (Val.vint (-(p.1 : Int)), p.2))
    else if isDigitC c then
      (parseNat (c :: rest)).map (fun p => (Val.vint (p.1 : Int), p.2))
    else none

def parseElems : Nat → List Char → Option (List Val × List Char)
  | 0, _ => none
  | fuel + 1, l =>
    match parseVal fuel l with
    | none => none
    | some (v, rest) =>
      match rest with
      | ',' :: r => (parseElems fuel r).map (fun p => (v :: p.1, p.2))
      | ']' :: r => some ([v], r)
      | _ => none

def parseFields : Nat → List Char → Option (List (String × Val) × List Char)
  | 0, _ => none
  | fuel + 1, l =>
    match l with
    | '"' :: r =>
      match parseStrBody r with
      | none => none
      | some (k, rest) =>
        match rest with
        | ':' :: r2 =>
          match parseVal fuel r2 with
          | none => none
          | some (v, rest2) =>
            match rest2 with
            | [] => none
            | c3 :: r3 =>
              if c3 = ',' then
                (parseFields fuel r3).map (fun p => ((String.mk k, v) :: p.1, p.2))
              else if c3 = rbraceC then some ([(String.mk k, v)], r3)
              else none
        | _ => none
    | _ => none

end

/-- The reviver of cast.ts applied to one parsed string: a string matching
`isoDateRegex` becomes a `Date`. -/
def reviveStr (s : String) : Val :=
  match isoParts s.data with
  | some d => Val.vdate d
  | none => Val.vstr s

mutual

/-- The reviver pass of `JSON.parse(str, reviver)`: every string value
(keys excluded) that matches the ISO date pattern becomes a date. -/
def revive : Val → Val
  | Val.vstr s => reviveStr s
  | Val.varr xs => Val.varr (reviveList xs)
  | Val.vobj fs => Val.vobj (reviveFields fs)
  | v => v

def reviveList : List Val → List Val
  | [] => []
  | x :: xs => revive x :: reviveList xs

def reviveFields : List (String × Val) → List (String × Val)
  | [] => []
  | (k, v) :: fs => (k, revive v) :: reviveFields fs

end

/-- cast.ts `fromJson`: `none` models the raised `TypeError`. -/
def fromJson (s : String) : Option Val :=
  match parseVal (s.data.length + 1) s.data with
  | some (v, []) => some (revive v)
  | _ => none

/-! ## Well-formedness of encodable values

`plainB s`: the string does not match the ISO date regex, so the reviver
leaves it alone. `validDateB d`: the date has in-range components with a
four-digit year, exactly the dates whose ISO string both matches the
regex and re-parses to the same date in JS. -/

def plainB (s : String) : Bool := (isoParts s.data).isNone

def isLeap (y : Nat) : Bool := (y % 4 = 0 && y % 100 ≠ 0) || y % 400 = 0

def daysInMonth (y m : Nat) : Nat :=
  if m = 2 then (if isLeap y then 29 else 28)
  else if m = 4 || m = 6 || m = 9 || m = 11 then 30
  else 31

def validDateB (d : JSDate) : Bool :=
  decide (d.year < 10000) && decide (1 ≤ d.month) && decide (d.month ≤ 12) &&
    decide (1 ≤ d.day) && decide (d.day ≤ daysInMonth d.year d.month) &&
    decide (d.hour ≤ 23) && decide (d.minute ≤ 59) && decide (d.second ≤ 59) &&
    decide (d.ms ≤ 999)

mutual

/-- Values for which the encode/decode round trip is exact: no string
anywhere in the value matches the ISO date pattern, and every date is a
valid in-range date with a four-digit year. -/
def goodB : Val → Bool
  | Val.vstr s => plainB s
  | Val.vdate d => validDateB d
  | Val.varr xs => goodListB xs
  | Val.vobj fs => goodFieldsB fs
  | _ => true

def goodListB : List Val → Bool
  | [] => true
  | x :: xs => goodB x && goodListB xs

def goodFieldsB : List (String × Val) → Bool
  | [] => true
  | (_, v) :: fs => goodB v && goodFieldsB fs

end

mutual

/-- The raw (pre-reviver) parse result of the text `emitVal v` produces:
dates appear as their ISO strings. -/
def rawVal : Val → Val
  | Val.vdate d => Val.vstr (toDateISO d)
  | Val.varr xs => Val.varr (rawList xs)
  | Val.vobj fs => Val.vobj (rawFields fs)
  | v => v

def rawList : List Val → List Val
  | [] => []
  | x :: xs => rawVal x :: rawList xs

def rawFields : List (String × Val) → List (String × Val)
  | [] => []
  | (k, v) :: fs => (k, rawVal v) :: rawFields fs

end

mutual

def sizeVal : Val → Nat
  | Val.varr xs => sizeList xs + 1
  | Val.vobj fs => sizeFields fs + 1
  | _ => 1

def sizeList : List Val → Nat
  | [] => 0
  | x :: xs => sizeVal x + sizeList xs + 1

def sizeFields : List (String × Val) → Nat
  | [] => 0
  | (_, v) :: fs => sizeVal v + sizeFields fs + 1

end

/-! ## SQL LIKE matching

`likeMatch p s`: SQL `LIKE` with `%` (any sequence) and `_` (any single
character) wildcards, used by `getLikeQuery`, `removeMappingByValueQuery`
and `removeExpiredQuery` patterns. -/

def likeMatchGo : Nat → List Char → List Char → Bool
  | 0, _, _ => false
  | _ + 1, [], s => s.isEmpty
  | fuel + 1, c :: p, s =>
    if c = '%' then
      likeMatchGo fuel p s ||
        (match s with
         | [] => false
         | _ :: s2 => likeMatchGo fuel (c :: p) s2)
    else if c = '_' then
      (match s with
       | [] => false
       | _ :: s2 => likeMatchGo fuel p s2)
    else
      (match s with
       | [] => false
       | c2 :: s2 => c = c2 && likeMatchGo fuel p s2)

/-- Every step shortens `p.length + s.length`, so this fuel suffices. -/
def likeMatch (p s : List Char) : Bool :=
  likeMatchGo (p.length + s.length + 1) p s

/-! ## The row store (simple-kv.ts over the simple_kv_store table)

A database state is the list of rows of the table; `dbPut` models
`INSERT OR REPLACE` (delete any row with the same key, then insert);
`dbDeleteKey` models `DELETE WHERE key =`. -/

structure Row where
  key : String
  type : String
  value : String
  expiresAt : Option String
deriving DecidableEq

abbrev Store := List Row

def dbGet (st : Store) (k : String) : Option Row :=
  st.find? (fun r => r.key == k)

def dbPut (st : Store) (r : Row) : Store :=
  st.filter (fun x => !(x.key == r.key)) ++ [r]

def dbDeleteKey (st : Store) (k : String) : Store :=
  st.filter (fun x => !(x.key == k))

/-- A state with no two rows sharing a key (the table's primary key). -/
def WF (st : Store) : Prop := (st.map Row.key).Nodup

def kvKey (tp k : String) : String := tp ++ ":" ++ k

def mappingType (tp rel : String) : String := "mapping_" ++ rel ++ "_to_" ++ tp

def mapKeyOf (rel : String) (k : Option String) : String :=
  match k with
  | some key => rel ++ ":" ++ key
  | none => rel

structure SimpleKVRecord where
  key : String
  type : String
  value : String
  expiresAt : Option (Option JSDate)
deriving DecidableEq

def upToColon : List Char → List Char
  | [] => []
  | c :: cs => if c = ':' then [] else c :: upToColon cs

def afterColon : List Char → Option (List Char)
  | [] => none
  | c :: cs => if c = ':' then some cs else afterColon cs

/-- JS `key.split(":", 2)[1]`: the text strictly between the first and the
second colon (to end of string when there is no second colon); the
`"undefined"` default stands for the JS `undefined` a colon-free key would
produce, which no reachable row key does. -/
def jsSplit2nd (k : String) : String :=
  match afterColon k.data with
  | some rest => String.mk (upToColon rest)
  | none => "undefined"

/-- `rowToRecord`: the record handed back by `get` / `remove`; its
`expiresAt` is `new Date(s)` on a truthy stored string (`none` inside the
option modelling an out-of-format `Invalid Date`). -/
def rowToRecord (r : Row) : SimpleKVRecord :=
  { key := jsSplit2nd r.key
    type := r.type
    value := r.value
    expiresAt := r.expiresAt.map (fun s => isoParts s.data) }

def asStr : Val → Option String
  | Val.vstr s => some s
  | _ => none

/-- Decoding of a multi-valued mapping value: the stored JSON must come
back as an array of strings (anything else would make the caller's
`.concat`/`.filter`/`.map` misbehave, modelled as failure). -/
def decodeStrList (s : String) : Option (List String) :=
  match fromJson s with
  | some (Val.varr vs) => vs.mapM asStr
  | _ => none

def strListVal (l : List String) : Val := Val.varr (l.map Val.vstr)

inductive MapTarget where
  | one : String → MapTarget
  | many : List String → MapTarget

def targetValue : MapTarget → String
  | MapTarget.one s => s
  | MapTarget.many l => toJson (strListVal l)

def obind {α β : Type} (x : Option (α × Store)) (f : α → Store → Option (β × Store)) :
    Option (β × Store) :=
  match x with
  | none => none
  | some (a, st) => f a st

namespace SimpleKV

def getInternal (st : Store) (k : String) : Option (Option SimpleKVRecord × Store) :=
  some ((dbGet st k).map rowToRecord, st)

def get (tp key : String) (withoutPrefix : Bool) (st : Store) :
    Option (Option SimpleKVRecord × Store) :=
  getInternal st (if withoutPrefix then key else kvKey tp key)

def putInternal (st : Store) (tp key : String) (value : Val) (expiresAt : Option JSDate) :
    Option (Unit × Store) :=
  some ((), dbPut st
    { key := kvKey tp key
      type := tp
      value := toJson value
      expiresAt := expiresAt.map toDateISO })

def putMappingInternal (st : Store) (tp rel key : String) (target : MapTarget) :
    Option (Unit × Store) :=
  some ((), dbPut st
    { key := rel ++ ":" ++ key
      type := mappingType tp rel
      value := targetValue target
      expiresAt := none })

def getMappingInternal (st : Store) (rel : String) (key : Option String) :
    Option (Option String × Store) :=
  some ((dbGet st (mapKeyOf rel key)).map Row.value, st)

def getMultiMappingInternal (st : Store) (rel : String) (key : Option String) :
    Option (Option (List String) × Store) :=
  match dbGet st (mapKeyOf rel key) with
  | none => some (none, st)
  | some r =>
    match decodeStrList r.value with
    | none => none
    | some l => some (some l, st)

def removeMappingInternal (st : Store) (rel : String) (key : Option String) :
    Option (Option String × Store) :=
  match dbGet st (mapKeyOf rel key) with
  | none => some (none, st)
  | some r => some (some r.value, dbDeleteKey st (mapKeyOf rel key))

def removeMultiMappingInternal (st : Store) (rel : String) (key : Option String) :
    Option (Option (List String) × Store) :=
  match dbGet st (mapKeyOf rel key) with
  | none => some (none, st)
  | some r =>
    match decodeStrList r.value with
    | none => none
    | some l => some (some l, dbDeleteKey st (mapKeyOf rel key))

/-- `removeMappingByValueQuery`: delete every row whose value equals the
deleted key and whose type is LIKE `mapping_%`. -/
def removeMappingByValue (st : Store) (v : String) : Store :=
  st.filter (fun r => !(r.value == v && likeMatch ("mapping_%".data) r.type.data))

def removeInternal (st : Store) (tp key : String) (addPrefix : Bool) :
    Option (Option SimpleKVRecord × Store) :=
  let full := if addPrefix then kvKey tp key else key
  match dbGet st full with
  | none => some (none, st)
  | some r => some (some (rowToRecord r), removeMappingByValue (dbDeleteKey st full) full)

/-- `getLikeQuery(type, value)`: rows with key LIKE `type:%` and value
LIKE `%value%`. -/
def getLike (st : Store) (tp value : String) : List Row :=
  st.filter (fun r =>
    likeMatch (tp ++ ":%").data r.key.data &&
    likeMatch ('%' :: (value.data ++ ['%'])) r.value.data)

end SimpleKV

/-! ## The OAuth entity adapter (stores/oauth.ts)

JS field access and coercions: absent fields are `undefined`; interpolating
`undefined` into a key template yields the string "undefined"; truthiness
follows JS. `Date#toString` inside a template never occurs in reachable
calls and is approximated by the ISO string. -/

def lookupF : List (String × Val) → String → Option Val
  | [], _ => none
  | (k, v) :: fs, key => if k = key then some v else lookupF fs key

def jsField (v : Val) (k : String) : Option Val :=
  match v with
  | Val.vobj fs => lookupF fs k
  | _ => none

def jsToStr : Val → String
  | Val.vstr s => s
  | Val.vint i => String.mk (intChars i)
  | Val.vbool b => if b then "true" else "false"
  | Val.vnull => "null"
  | Val.vdate d => toDateISO d
  | Val.varr _ => ""
  | Val.vobj _ => "[object Object]"

def jsStrField (v : Val) (k : String) : String :=
  match jsField v k with
  | none => "undefined"
  | some x => jsToStr x

def jsTruthy : Option Val → Bool
  | none => false
  | some Val.vnull => false
  | some (Val.vstr s) => !(s == "")
  | some (Val.vint n) => !(n == 0)
  | some (Val.vbool b) => b
  | some (Val.vdate _) => true
  | some (Val.varr _) => true
  | some (Val.vobj _) => true

def jsTruthyS : Option String → Bool
  | none => false
  | some s => !(s == "")

def jsDateField (v : Val) (k : String) : Option JSDate :=
  match jsField v k with
  | some (Val.vdate d) => some d
  | _ => none

mutual

/-- lodash `merge` (deep merge) restricted to the shapes the adapter
produces: object-with-object and array-with-array merge recursively by
key / index, any other source value wins (the nested assignment rule; the
adapter only ever merges two plain objects at top level). -/
def mergeVal : Val → Val → Val
  | Val.vobj fs, Val.vobj ps =>
    Val.vobj (mergeFields fs ps ++ ps.filter (fun kv => (lookupF fs kv.1).isNone))
  | Val.varr xs, Val.varr ys => Val.varr (mergeArr xs ys)
  | _, s => s

def mergeFields : List (String × Val) → List (String × Val) → List (String × Val)
  | [], _ => []
  | (k, v) :: fs, ps =>
    (k, match lookupF ps k with
        | some sv => mergeVal v sv
        | none => v) :: mergeFields fs ps

def mergeArr : List Val → List Val → List Val
  | xs, [] => xs
  | [], ys => ys
  | x :: xs, y :: ys => mergeVal x y :: mergeArr xs ys

end

/-- JS `Set` iteration order: first occurrences, in order. -/
def jsDedupGo (seen : List String) : List String → List String
  | [] => []
  | a :: l => if a ∈ seen then jsDedupGo seen l else a :: jsDedupGo (a :: seen) l

def jsDedup (l : List String) : List String := jsDedupGo [] l

/-- `new Set(l)` then `.add(s)` then `Array.from`. -/
def jsSetAdd (l : List String) (s : String) : List String :=
  let d := jsDedup l
  if s ∈ d then d else d ++ [s]

structure AccountRow where
  handle : String
  email : Option String
  emailConfirmed : Bool
deriving DecidableEq

structure Account where
  sub : String
  aud : String
  email : Option String
  email_verified : Option Bool
  preferred_username : String
deriving DecidableEq

/-- The world outside the KV table: the SQL `account` table (keyed by
lower-cased handle) and the configured public URL. -/
structure Ctx where
  accounts : String → Option AccountRow
  publicUrl : String

/-- Modelled from the spec: `DID_WEB_PREFIX` lives in src/constants.ts,
which is not among the provided sources; the did:web examples of the data
model fix it as the `did:web:` URI prefix. -/
def DID_WEB_PREFIX : String := "did:web:"

def subToHandle (sub : String) : String :=
  if DID_WEB_PREFIX.isPrefixOf sub then sub.drop DID_WEB_PREFIX.length else sub

/-- JS `String#toLowerCase` on the ASCII range handles are made of. -/
def jsToLower (s : String) : String :=
  String.mk (s.data.map (fun c =>
    if 65 ≤ c.toNat && c.toNat ≤ 90 then Char.ofNat (c.toNat + 32) else c))

/-- account-manager.ts `getAccount`: strips the DID prefix (again) and
looks the handle up lower-cased. -/
def accountManagerGetAccount (ctx : Ctx) (handleOrDid : String) : Option AccountRow :=
  ctx.accounts (jsToLower (subToHandle handleOrDid))

def toAccount (ctx : Ctx) (a : AccountRow) : Account :=
  { sub := DID_WEB_PREFIX ++ a.handle
    aud := ctx.publicUrl
    email := match a.email with
      | some e => if e = "" then none else some e
      | none => none
    email_verified := match a.email with
      | some e => if e = "" then none else some a.emailConfirmed
      | none => none
    preferred_username := a.handle }

structure TokenInfo where
  id : String
  data : Val
  account : Account
  currentRefreshToken : Option String

def getAuthorizedClientsGo (st : Store) : List String → Option (List (String × Val))
  | [] => some []
  | cid :: rest =>
    match dbGet st (kvKey "authorized_clients" cid) with
    | none => getAuthorizedClientsGo st rest
    | some row =>
      match fromJson row.value with
      | none => none
      | some d => (getAuthorizedClientsGo st rest).map (fun l => (cid, d) :: l)

def getAuthorizedClients (sub : String) (st : Store) :
    Option (List (String × Val) × Store) :=
  obind (SimpleKV.getMultiMappingInternal st "sub_clients" (some sub)) fun ids? st =>
  match ids? with
  | none => some ([], st)
  | some ids =>
    match getAuthorizedClientsGo st ids with
    | none => none
    | some l => some (l, st)

/-- `OAuthStore.getAccount`: asserts the account exists (failure = the
thrown assertion), then resolves authorized clients. -/
def getAccountM (ctx : Ctx) (sub : String) (st : Store) :
    Option ((Account × List (String × Val)) × Store) :=
  match accountManagerGetAccount ctx (subToHandle sub) with
  | none => none
  | some acc =>
    obind (getAuthorizedClients sub st) fun cls st =>
    some ((toAccount ctx acc, cls), st)

def readToken (ctx : Ctx) (tokenId : String) (st : Store) :
    Option (Option TokenInfo × Store) :=
  obind (SimpleKV.get "tokens" tokenId false st) fun rec? st =>
  match rec? with
  | none => some (none, st)
  | some rec =>
    match fromJson rec.value with
    | none => none
    | some token =>
      obind (getAccountM ctx (jsStrField token "sub") st) fun acc st =>
      some (some (TokenInfo.mk tokenId token acc.1 none), st)

def createToken (tokenId : String) (data : Val) (refreshToken : Option String)
    (st : Store) : Option (Unit × Store) :=
  obind (SimpleKV.putInternal st "tokens" tokenId data none) fun _ st =>
  obind (SimpleKV.getMultiMappingInternal st "account_tokens"
      (some (jsStrField data "sub"))) fun tokens? st =>
  obind (match tokens? with
    | some tokens =>
      SimpleKV.putMappingInternal st "tokens" "account_tokens" (jsStrField data "sub")
        (MapTarget.many (tokens ++ [tokenId]))
    | none =>
      SimpleKV.putMappingInternal st "tokens" "account_tokens" (jsStrField data "sub")
        (MapTarget.many [tokenId])) fun _ st =>
  obind (if jsTruthy (jsField data "deviceId") then
      obind (SimpleKV.putMappingInternal st "tokens" "token_device" tokenId
        (MapTarget.one (jsStrField data "deviceId"))) fun _ st =>
      obind (SimpleKV.getMultiMappingInternal st "device_tokens"
          (some (jsStrField data "deviceId"))) fun dts? st =>
      match dts? with
      | some dts =>
        SimpleKV.putMappingInternal st "tokens" "device_tokens" (jsStrField data "deviceId")
          (MapTarget.many (dts ++ [tokenId]))
      | none =>
        SimpleKV.putMappingInternal st "tokens" "device_tokens" (jsStrField data "deviceId")
          (MapTarget.many [tokenId])
    else some ((), st)) fun _ st =>
  obind (if jsTruthyS refreshToken then
      SimpleKV.putMappingInternal st "tokens" "refresh_token"
        (refreshToken.getD "") (MapTarget.one tokenId)
    else some ((), st)) fun _ st =>
  (if jsTruthy (jsField data "code") then
      SimpleKV.putMappingInternal st "tokens" "authorization_code" (jsStrField data "code")
        (MapTarget.one tokenId)
    else some ((), st))

def removeKeys (tp : String) : List Row → Store → Option (Unit × Store)
  | [], st => some ((), st)
  | r :: rest, st =>
    obind (SimpleKV.removeInternal st tp r.key false) fun _ st => removeKeys tp rest st

def deleteToken (tokenId : String) (st : Store) : Option (Unit × Store) :=
  obind (SimpleKV.get "tokens" tokenId false st) fun rec? st =>
  match rec? with
  | none => some ((), st)
  | some rec =>
    match fromJson rec.value with
    | none => none
    | some token =>
      obind (if jsTruthy (jsField token "code") then
          obind (SimpleKV.removeMappingInternal st "authorization_code"
            (some (jsStrField token "code"))) fun _ st => some ((), st)
        else some ((), st)) fun _ st =>
      obind (SimpleKV.removeInternal st "tokens" tokenId true) fun _ st =>
      obind (removeKeys "tokens" (SimpleKV.getLike st "refresh_token" tokenId) st)
        fun _ st =>
      obind (SimpleKV.getMultiMappingInternal st "account_tokens"
          (some (jsStrField token "sub"))) fun toks? st =>
      obind (match toks? with
        | some toks =>
          let newTokens := toks.filter (fun t => !(t == tokenId))
          if newTokens.length ≠ 0 then
            SimpleKV.putMappingInternal st "tokens" "account_tokens"
              (jsStrField token "sub") (MapTarget.many newTokens)
          else
            obind (SimpleKV.removeMappingInternal st "account_tokens"
              (some (jsStrField token "sub"))) fun _ st => some ((), st)
        | none => some ((), st)) fun _ st =>
      obind (if jsTruthy (jsField token "deviceId") then
          obind (SimpleKV.getMultiMappingInternal st "account_tokens"
              (some (jsStrField token "deviceId"))) fun dts? st =>
          match dts? with
          | some dts =>
            let newTokens := dts.filter (fun t => !(t == tokenId))
            if newTokens.length ≠ 0 then
              SimpleKV.putMappingInternal st "tokens" "device_tokens"
                (jsStrField token "deviceId") (MapTarget.many newTokens)
            else
              obind (SimpleKV.removeMappingInternal st "device_tokens"
                (some (jsStrField token "deviceId"))) fun _ st => some ((), st)
          | none => some ((), st)
        else some ((), st)) fun _ st =>
      obind (SimpleKV.removeMappingInternal st "token_device" (some tokenId))
        fun _ st => some ((), st)

def rotateToken (tokenId newTokenId newRefreshToken : String) (newData : Val)
    (st : Store) : Option (Unit × Store) :=
  obind (SimpleKV.removeInternal st "tokens" tokenId true) fun ex? st =>
  match ex? with
  | none => some ((), st)
  | some rec =>
    match fromJson rec.value with
    | none => none
    | some token =>
      obind (SimpleKV.putInternal st "tokens" newTokenId (mergeVal token newData)
        (jsDateField newData "expiresAt")) fun _ st =>
      obind (SimpleKV.removeMappingInternal st "token_device" (some tokenId))
        fun dev? st =>
      obind (if jsTruthyS dev? then
          obind (SimpleKV.getMultiMappingInternal st "device_tokens"
            (some (dev?.getD ""))) fun dts? st =>
          match dts? with
          | some dts =>
            SimpleKV.putMappingInternal st "tokens" "device_tokens" (dev?.getD "")
              (MapTarget.many (dts ++ [newTokenId]))
          | none =>
            SimpleKV.putMappingInternal st "tokens" "device_tokens" (dev?.getD "")
              (MapTarget.many [newTokenId])
        else some ((), st)) fun _ st =>
      obind (SimpleKV.getMultiMappingInternal st "account_tokens"
          (some (jsStrField token "sub"))) fun toks? st =>
      obind (match toks? with
        | some toks =>
          let newTokens := toks.filter (fun t => !(t == tokenId)) ++ [newTokenId]
          if newTokens.length ≠ 0 then
            SimpleKV.putMappingInternal st "tokens" "account_tokens"
              (jsStrField token "sub") (MapTarget.many newTokens)
          else
            obind (SimpleKV.removeMappingInternal st "account_tokens"
              (some (jsStrField token "sub"))) fun _ st => some ((), st)
        | none =>
          SimpleKV.putMappingInternal st "tokens" "account_tokens"
            (jsStrField token "sub") (MapTarget.many [newTokenId])) fun _ st =>
      obind (SimpleKV.putMappingInternal st "tokens" "refresh_token" newRefreshToken
        (MapTarget.one newTokenId)) fun _ st =>
      some ((), st)

def readTokensGo (ctx : Ctx) : List String → Store → Option (List (Option TokenInfo) × Store)
  | [], st => some ([], st)
  | t :: rest, st =>
    obind (readToken ctx t st) fun info st =>
    obind (readTokensGo ctx rest st) fun l st =>
    some (info :: l, st)

def listAccountTokens (ctx : Ctx) (sub : String) (st : Store) :
    Option (List TokenInfo × Store) :=
  obind (SimpleKV.getMultiMappingInternal st "account_tokens" (some sub)) fun ids? st =>
  match ids? with
  | none => some ([], st)
  | some ids =>
    obind (readTokensGo ctx ids st) fun infos st =>
    some (infos.filterMap id, st)

def setAuthorizedClient (sub clientId : String) (data : Val) (st : Store) :
    Option (Unit × Store) :=
  obind (SimpleKV.putInternal st "authorized_clients" clientId data none) fun _ st =>
  obind (SimpleKV.getMultiMappingInternal st "sub_clients" (some sub)) fun ex? st =>
  match ex? with
  | some ex =>
    SimpleKV.putMappingInternal st "authorized_clients" "sub_clients" sub
      (MapTarget.many (jsDedup (ex ++ [clientId])))
  | none =>
    SimpleKV.putMappingInternal st "authorized_clients" "sub_clients" sub
      (MapTarget.many [clientId])

def upsertDeviceAccount (deviceId sub : String) (st : Store) : Option (Unit × Store) :=
  obind (SimpleKV.get "account_devices" deviceId false st) fun ex? st =>
  match ex? with
  | some ex =>
    match decodeStrList ex.value with
    | none => none
    | some accs =>
      obind (SimpleKV.putInternal st "account_devices" deviceId
        (strListVal (jsSetAdd accs sub)) none) fun _ st =>
      obind (SimpleKV.getMultiMappingInternal st "sub_devices" none) fun devs? st =>
      match devs? with
      | some devs =>
        SimpleKV.putMappingInternal st "account_devices" "sub_devices" sub
          (MapTarget.many (devs ++ [deviceId]))
      | none =>
        SimpleKV.putMappingInternal st "account_devices" "sub_devices" sub
          (MapTarget.many [deviceId])
  | none => SimpleKV.putInternal st "account_devices" deviceId (strListVal [sub]) none

def consumeRequestCode (code : String) (st : Store) :
    Option (Option (String × Val) × Store) :=
  obind (SimpleKV.removeMappingInternal st "authorization_code_requests" (some code))
    fun rid? st =>
  if jsTruthyS rid? then
    obind (SimpleKV.removeInternal st "authorization_request" (rid?.getD "") true)
      fun req? st =>
    match req? with
    | none => some (none, st)
    | some rec =>
      match fromJson rec.value with
      | none => none
      | some v => some (some (rid?.getD "", v), st)
  else some (none, st)

/-- A two-token state for exercising `listAccountTokens`: the account set
lists t1 (row present) and gone (row absent). -/
def stW6 : Store :=
  [Row.mk "account_tokens:s" "mapping_account_tokens_to_tokens"
     (toJson (strListVal ["t1", "gone"])) none,
   Row.mk "tokens:t1" "tokens" (toJson (Val.vobj [("sub", Val.vstr "s")])) none]

/-- A context that resolves exactly the handle "s". -/
def ctxW6 : Ctx :=
  Ctx.mk (fun h => if h = "s" then some (AccountRow.mk "s" none false) else none)
    "https://pds.example"

/-- A state with one existing account token and one authorized client. -/
def stW5 : Store :=
  [Row.mk "account_tokens:s" "mapping_account_tokens_to_tokens"
     (toJson (strListVal ["t0"])) none,
   Row.mk "sub_clients:s" "mapping_sub_clients_to_authorized_clients"
     (toJson (strListVal ["c0"])) none]

/-- A device-bound one-token state for exercising rotateToken: token
"old" owned by "s" on device "d", with its account_tokens, token_device
and device_tokens mappings, plus an authorized client for "s". -/
def stW1 : Store :=
  [Row.mk "tokens:old" "tokens"
     (toJson (Val.vobj [("sub", Val.vstr "s")])) none,
   Row.mk "account_tokens:s" "mapping_account_tokens_to_tokens"
     (toJson (strListVal ["old"])) none,
   Row.mk "token_device:old" "mapping_token_device_to_account_devices" "d" none,
   Row.mk "device_tokens:d" "mapping_device_tokens_to_tokens"
     (toJson (strListVal ["old"])) none,
   Row.mk "sub_clients:s" "mapping_sub_clients_to_authorized_clients"
     (toJson (strListVal ["c1"])) none,
   Row.mk "authorized_clients:c1" "authorized_clients"
     (toJson (Val.vobj [])) none]

/-- The device_tokens mapping for a device, if present, decodes to a list
of (plain) token ids, so the device branch of rotateToken can read it. -/
def DeviceTokensReadable (st : Store) (d : String) : Prop :=
  dbGet st (mapKeyOf "device_tokens" (some d)) = none ∨
  ∃ dr dts, dbGet st (mapKeyOf "device_tokens" (some d)) = some dr ∧
    dr.value = toJson (strListVal dts) ∧ ∀ x ∈ dts, plainB x = true

/-- The authorized-clients data reachable from a subject decodes: the
sub_clients mapping (if present) is a list of (plain) client ids, and
every present authorized_clients row decodes, so getAccount's client
resolution cannot raise. -/
def ClientsResolvable (st : Store) (subX : String) : Prop :=
  dbGet st (mapKeyOf "sub_clients" (some subX)) = none ∨
  ∃ scr cids, dbGet st (mapKeyOf "sub_clients" (some subX)) = some scr ∧
    scr.value = toJson (strListVal cids) ∧ (∀ c ∈ cids, plainB c = true) ∧
    ∀ c ∈ cids, dbGet st (kvKey "authorized_clients" c) = none ∨
      ∃ r d, dbGet st (kvKey "authorized_clients" c) = some r ∧
        r.value = toJson d ∧ goodB d = true

/-- Rest of input may not start with a digit (true after any JSON
delimiter and at end of input); needed so number parsing stops exactly
where the printer stopped. -/
def delimOk (l : List Char) : Prop := ∀ c, l.head? = some c → isDigitC c = false

/-! ## Lemmas: decimal digits and ISO dates -/

theorem sizeVal_pos (v : Val) : 1 ≤ sizeVal v := by
  cases v <;> simp [sizeVal]

theorem sizeVal_le_sizeList {xs : List Val} {x : Val} (hx : x ∈ xs) :
    sizeVal x ≤ sizeList xs := by
  induction xs with
  | nil => cases hx
  | cons y ys ih =>
    rcases List.mem_cons.mp hx with rfl | h
    · simp [sizeList]; omega
    · have := ih h
      simp [sizeList]; omega

theorem sizeVal_le_sizeFields {fs : List (String × Val)} {kv : String × Val} (hkv : kv ∈ fs) :
    sizeVal kv.2 ≤ sizeFields fs := by
  induction fs with
  | nil => cases hkv
  | cons g gs ih =>
    rcases List.mem_cons.mp hkv with rfl | h
    · obtain ⟨k, v⟩ := kv
      simp [sizeFields]; omega
    · have := ih h
      obtain ⟨k, v⟩ := g
      simp [sizeFields]; omega

/-- Induction principle for `Val` threading through the nested lists. -/
theorem valInd {P : Val → Prop}
    (hstr : ∀ s, P (Val.vstr s)) (hint : ∀ i, P (Val.vint i))
    (hbool : ∀ b, P (Val.vbool b)) (hnull : P Val.vnull)
    (hdate : ∀ d, P (Val.vdate d))
    (harr : ∀ xs, (∀ x ∈ xs, P x) → P (Val.varr xs))
    (hobj : ∀ fs, (∀ kv ∈ fs, P kv.2) → P (Val.vobj fs)) : ∀ v, P v := by
  have key : ∀ n v, sizeVal v ≤ n → P v := by
    intro n
    induction n with
    | zero =>
      intro v h
      have := sizeVal_pos v
      omega
    | succ n ih =>
      intro v h
      cases v with
      | vstr s => exact hstr s
      | vint i => exact hint i
      | vbool b => exact hbool b
      | vnull => exact hnull
      | vdate d => exact hdate d
      | varr xs =>
        refine harr xs fun x hx => ih x ?_
        have h1 := sizeVal_le_sizeList hx
        simp only [sizeVal] at h
        omega
      | vobj fs =>
        refine hobj fs fun kv hkv => ih kv.2 ?_
        have h1 := sizeVal_le_sizeFields hkv
        simp only [sizeVal] at h
        omega
  exact fun v => key (sizeVal v) v le_rfl

theorem toNat_ofNat_lt {n : Nat} (h : n < 55296) : (Char.ofNat n).toNat = n := by
  have hv : n.isValidChar := Or.inl h
  simp [Char.ofNat, hv, Char.ofNatAux, Char.toNat, UInt32.toNat]

theorem digitChar_toNat {n : Nat} (h : n < 10) : (digitChar n).toNat = 48 + n :=
  toNat_ofNat_lt (by omega)

theorem isDigitC_digitChar {n : Nat} (h : n < 10) : isDigitC (digitChar n) = true := by
  simp [isDigitC, digitChar_toNat h]; omega

theorem digitVal_digitChar {n : Nat} (h : n < 10) : digitVal (digitChar n) = n := by
  simp [digitVal, digitChar_toNat h]

theorem natCharsGo_irrel : ∀ n f1 f2, n < f1 → n < f2 → natCharsGo f1 n = natCharsGo f2 n := by
  intro n
  induction n using Nat.strong_induction_on with
  | _ n ih =>
    intro f1 f2 h1 h2
    match f1, f2 with
    | g1 + 1, g2 + 1 =>
      simp only [natCharsGo]
      by_cases h : n < 10
      · simp [h]
      · simp only [if_neg h]
        have hd : n / 10 < n := Nat.div_lt_self (by omega) (by omega)
        rw [ih (n / 10) hd g1 g2 (by omega) (by omega)]

theorem natChars_eq (n : Nat) :
    natChars n = if n < 10 then [digitChar n] else natChars (n / 10) ++ [digitChar (n % 10)] := by
  by_cases h : n < 10
  · simp [natChars, natCharsGo, h]
  · have hd : n / 10 < n := Nat.div_lt_self (by omega) (by omega)
    rw [if_neg h]
    show natCharsGo (n + 1) n = _
    have step : natCharsGo (n + 1) n = natCharsGo n (n / 10) ++ [digitChar (n % 10)] := by
      simp only [natCharsGo, if_neg h]
    rw [step, natCharsGo_irrel (n / 10) n (n / 10 + 1) (by omega) (by omega)]
    rfl

theorem natChars_ne_nil (n : Nat) : natChars n ≠ [] := by
  rw [natChars_eq]
  by_cases h : n < 10 <;> simp [h]

theorem natChars_digits (n : Nat) : ∀ c ∈ natChars n, isDigitC c = true := by
  induction n using Nat.strong_induction_on with
  | _ n ih =>
    rw [natChars_eq]
    by_cases h : n < 10
    · simp [h, isDigitC_digitChar]
    · simp only [if_neg h, List.mem_append, List.mem_singleton]
      rintro c (hc | rfl)
      · exact ih (n / 10) (Nat.div_lt_self (by omega) (by omega)) c hc
      · exact isDigitC_digitChar (Nat.mod_lt _ (by omega))

theorem dtn_nil (acc : Nat) : digitsToNat acc [] = acc := rfl

theorem dtn_cons (acc : Nat) (c : Char) (cs : List Char) :
    digitsToNat acc (c :: cs) = digitsToNat (acc * 10 + digitVal c) cs := rfl

theorem digitsToNat_append (acc : Nat) (xs ys : List Char) :
    digitsToNat acc (xs ++ ys) = digitsToNat (digitsToNat acc xs) ys := by
  induction xs generalizing acc with
  | nil => rfl
  | cons c cs ih => rw [List.cons_append, dtn_cons, dtn_cons, ih]

theorem digitsToNat_natChars (n : Nat) : digitsToNat 0 (natChars n) = n := by
  induction n using Nat.strong_induction_on with
  | _ n ih =>
    rw [natChars_eq]
    by_cases h : n < 10
    · rw [if_pos h, dtn_cons, dtn_nil, digitVal_digitChar h]; omega
    · have hd : n / 10 < n := Nat.div_lt_self (by omega) (by omega)
      rw [if_neg h, digitsToNat_append, ih (n / 10) hd, dtn_cons, dtn_nil,
        digitVal_digitChar (Nat.mod_lt n (show 0 < 10 by omega))]
      omega

theorem natChars_length_le : ∀ (k : Nat) {n : Nat}, n < 10 ^ (k + 1) →
    (natChars n).length ≤ k + 1 := by
  intro k
  induction k with
  | zero =>
    intro n h
    have h10 : n < 10 := by simpa using h
    rw [natChars_eq, if_pos h10]
    simp
  | succ k ih =>
    intro n h
    rw [natChars_eq]
    by_cases hlt : n < 10
    · rw [if_pos hlt]; simp
    · rw [if_neg hlt]
      have hn : n / 10 < 10 ^ (k + 1) := by
        apply Nat.div_lt_of_lt_mul
        calc n < 10 ^ (k + 1 + 1) := h
        _ = 10 * 10 ^ (k + 1) := by ring
      have := ih hn
      simp only [List.length_append, List.length_singleton]
      omega

theorem digitsToNat_zeros (k : Nat) (l : List Char) :
    digitsToNat 0 (List.replicate k '0' ++ l) = digitsToNat 0 l := by
  induction k with
  | zero => rfl
  | succ k ih =>
    rw [List.replicate_succ, List.cons_append, dtn_cons]
    have : 0 * 10 + digitVal '0' = 0 := by decide
    rw [this, ih]

theorem pad_length {w n : Nat} (hw : 0 < w) (h : n < 10 ^ w) : (pad w n).length = w := by
  have hle : (natChars n).length ≤ w := by
    obtain ⟨k, rfl⟩ : ∃ k, w = k + 1 := ⟨w - 1, by omega⟩
    exact natChars_length_le k h
  simp [pad]
  omega

theorem pad_digits (w n : Nat) : ∀ c ∈ pad w n, isDigitC c = true := by
  intro c hc
  simp only [pad, List.mem_append, List.mem_replicate] at hc
  rcases hc with ⟨_, rfl⟩ | hc
  · decide
  · exact natChars_digits n c hc

theorem digitsToNat_pad (w n : Nat) : digitsToNat 0 (pad w n) = n := by
  simp [pad, digitsToNat_zeros, digitsToNat_natChars]

theorem list_len2 {l : List Char} (h : l.length = 2) : ∃ a b, l = [a, b] := by
  match l, h with
  | [a, b], _ => exact ⟨a, b, rfl⟩

theorem list_len3 {l : List Char} (h : l.length = 3) : ∃ a b c, l = [a, b, c] := by
  match l, h with
  | [a, b, c], _ => exact ⟨a, b, c, rfl⟩

theorem list_len4 {l : List Char} (h : l.length = 4) : ∃ a b c d, l = [a, b, c, d] := by
  match l, h with
  | [a, b, c, d], _ => exact ⟨a, b, c, d, rfl⟩

theorem daysInMonth_le (y m : Nat) : daysInMonth y m ≤ 31 := by
  unfold daysInMonth
  split
  · split <;> omega
  · split <;> omega

theorem isoParts_toDateISOChars {d : JSDate} (h : validDateB d = true) :
    isoParts (toDateISOChars d) = some d := by
  simp only [validDateB, Bool.and_eq_true, decide_eq_true_eq] at h
  have hdm : daysInMonth d.year d.month ≤ 31 := daysInMonth_le d.year d.month
  have e4 : (10 : Nat) ^ 4 = 10000 := by norm_num
  have e2 : (10 : Nat) ^ 2 = 100 := by norm_num
  have e3 : (10 : Nat) ^ 3 = 1000 := by norm_num
  obtain ⟨y1, y2, y3, y4, hyE⟩ :=
    list_len4 (pad_length (n := d.year) (by omega) (by rw [e4]; omega))
  obtain ⟨m1, m2, hmE⟩ :=
    list_len2 (pad_length (w := 2) (n := d.month) (by omega) (by rw [e2]; omega))
  obtain ⟨e1, e2x, hdE⟩ :=
    list_len2 (pad_length (w := 2) (n := d.day) (by omega) (by rw [e2]; omega))
  obtain ⟨h1, h2, hhE⟩ :=
    list_len2 (pad_length (w := 2) (n := d.hour) (by omega) (by rw [e2]; omega))
  obtain ⟨i1, i2, hiE⟩ :=
    list_len2 (pad_length (w := 2) (n := d.minute) (by omega) (by rw [e2]; omega))
  obtain ⟨s1, s2, hsE⟩ :=
    list_len2 (pad_length (w := 2) (n := d.second) (by omega) (by rw [e2]; omega))
  obtain ⟨p1, p2, p3, hpE⟩ :=
    list_len3 (pad_length (w := 3) (n := d.ms) (by omega) (by rw [e3]; omega))
  have dig := fun (w n : Nat) => pad_digits w n
  unfold toDateISOChars
  rw [hyE, hmE, hdE, hhE, hiE, hsE, hpE]
  simp only [List.cons_append, List.append_assoc, List.nil_append, List.singleton_append]
  simp only [isoParts, List.isEmpty_nil, Bool.true_and]
  have gy1 := dig 4 d.year y1 (by rw [hyE]; simp)
  have gy2 := dig 4 d.year y2 (by rw [hyE]; simp)
  have gy3 := dig 4 d.year y3 (by rw [hyE]; simp)
  have gy4 := dig 4 d.year y4 (by rw [hyE]; simp)
  have gm1 := dig 2 d.month m1 (by rw [hmE]; simp)
  have gm2 := dig 2 d.month m2 (by rw [hmE]; simp)
  have gd1 := dig 2 d.day e1 (by rw [hdE]; simp)
  have gd2 := dig 2 d.day e2x (by rw [hdE]; simp)
  have gh1 := dig 2 d.hour h1 (by rw [hhE]; simp)
  have gh2 := dig 2 d.hour h2 (by rw [hhE]; simp)
  have gi1 := dig 2 d.minute i1 (by rw [hiE]; simp)
  have gi2 := dig 2 d.minute i2 (by rw [hiE]; simp)
  have gs1 := dig 2 d.second s1 (by rw [hsE]; simp)
  have gs2 := dig 2 d.second s2 (by rw [hsE]; simp)
  have gp1 := dig 3 d.ms p1 (by rw [hpE]; simp)
  have gp2 := dig 3 d.ms p2 (by rw [hpE]; simp)
  have gp3 := dig 3 d.ms p3 (by rw [hpE]; simp)
  simp only [gy1, gy2, gy3, gy4, gm1, gm2, gd1, gd2, gh1, gh2, gi1, gi2, gs1, gs2,
    gp1, gp2, gp3, Bool.and_true, Bool.true_and, if_true]
  have vy : digitsToNat 0 [y1, y2, y3, y4] = d.year := by rw [← hyE]; exact digitsToNat_pad 4 d.year
  have vm : digitsToNat 0 [m1, m2] = d.month := by rw [← hmE]; exact digitsToNat_pad 2 d.month
  have vd : digitsToNat 0 [e1, e2x] = d.day := by rw [← hdE]; exact digitsToNat_pad 2 d.day
  have vh : digitsToNat 0 [h1, h2] = d.hour := by rw [← hhE]; exact digitsToNat_pad 2 d.hour
  have vi : digitsToNat 0 [i1, i2] = d.minute := by rw [← hiE]; exact digitsToNat_pad 2 d.minute
  have vs : digitsToNat 0 [s1, s2] = d.second := by rw [← hsE]; exact digitsToNat_pad 2 d.second
  have vp : digitsToNat 0 [p1, p2, p3] = d.ms := by rw [← hpE]; exact digitsToNat_pad 3 d.ms
  simp only [vy, vm, vd, vh, vi, vs, vp]
  simp

/-! ## Lemmas: printer/parser round trip -/

theorem ofNat_toNat_char {c : Char} (h : c.toNat < 55296) : Char.ofNat c.toNat = c := by
  have h1 := toNat_ofNat_lt h
  exact Char.ext (UInt32.ext h1)

theorem hexVal_hexChar {n : Nat} (h : n < 16) : hexVal (hexChar n) = some n := by
  by_cases h10 : n < 10
  · have ht : (hexChar n).toNat = 48 + n := by
      rw [hexChar, if_pos h10]
      exact digitChar_toNat h10
    rw [hexVal, if_pos (by rw [ht]; simp; omega)]
    rw [ht]
    simp
  · have ht : (hexChar n).toNat = 87 + n := by
      rw [hexChar, if_neg h10]
      exact toNat_ofNat_lt (by omega)
    rw [hexVal, if_neg (by rw [ht]; simp; omega), if_pos (by rw [ht]; simp; omega)]
    rw [ht]
    simp only [Option.some.injEq]
    omega

theorem parseStrBody_nil : parseStrBody [] = none := rfl

theorem parseStrBody_cons (c : Char) (rest : List Char) :
    parseStrBody (c :: rest) =
      (if c = '"' then some ([], rest)
       else if c = '\\' then
         match rest with
         | [] => none
         | e :: rest2 =>
           if e = 'u' then
             match rest2 with
             | a :: b :: c2 :: d :: rest3 =>
               match hexVal a, hexVal b, hexVal c2, hexVal d with
               | some va, some vb, some vc, some vd =>
                 (parseStrBody rest3).map
                   (fun p => (Char.ofNat (((va * 16 + vb) * 16 + vc) * 16 + vd) :: p.1, p.2))
               | _, _, _, _ => none
             | _ => none
           else
             match escCode e with
             | some ch => (parseStrBody rest2).map (fun p => (ch :: p.1, p.2))
             | none => none
       else (parseStrBody rest).map (fun p => (c :: p.1, p.2))) := by
  rw [parseStrBody.eq_def]

theorem parseStrBody_escStr : ∀ (cs rest : List Char),
    parseStrBody (escStr cs ++ '"' :: rest) = some (cs, rest) := by
  intro cs
  induction cs with
  | nil =>
    intro rest
    show parseStrBody ('"' :: rest) = some ([], rest)
    rw [parseStrBody_cons, if_pos rfl]
  | cons c cs ih =>
    intro rest
    show parseStrBody ((escC c ++ escStr cs) ++ '"' :: rest) = some (c :: cs, rest)
    rw [List.append_assoc]
    by_cases h1 : c = '"'
    · subst h1
      simp [show escC '"' = ['\\', '"'] from rfl, parseStrBody_cons, escCode, ih rest]
    · by_cases h2 : c = '\\'
      · subst h2
        simp [show escC '\\' = ['\\', '\\'] from rfl, parseStrBody_cons, escCode, ih rest]
      · by_cases h3 : c = Char.ofNat 8
        · subst h3
          simp [show escC (Char.ofNat 8) = ['\\', 'b'] from rfl, parseStrBody_cons,
            escCode, ih rest]
        · by_cases h4 : c = Char.ofNat 9
          · subst h4
            simp [show escC (Char.ofNat 9) = ['\\', 't'] from rfl, parseStrBody_cons,
              escCode, ih rest]
          · by_cases h5 : c = Char.ofNat 10
            · subst h5
              simp [show escC (Char.ofNat 10) = ['\\', 'n'] from rfl, parseStrBody_cons,
                escCode, ih rest]
            · by_cases h6 : c = Char.ofNat 12
              · subst h6
                simp [show escC (Char.ofNat 12) = ['\\', 'f'] from rfl, parseStrBody_cons,
                  escCode, ih rest]
              · by_cases h7 : c = Char.ofNat 13
                · subst h7
                  simp [show escC (Char.ofNat 13) = ['\\', 'r'] from rfl, parseStrBody_cons,
                    escCode, ih rest]
                · by_cases h8 : c.toNat < 32
                  · have he : escC c =
                        ['\\', 'u', '0', '0', hexChar (c.toNat / 16), hexChar (c.toNat % 16)] := by
                      rw [escC, if_neg h1, if_neg h2, if_neg h3, if_neg h4, if_neg h5,
                        if_neg h6, if_neg h7, if_pos h8]
                    have hva : hexVal (hexChar (c.toNat / 16)) = some (c.toNat / 16) :=
                      hexVal_hexChar (by omega)
                    have hvb : hexVal (hexChar (c.toNat % 16)) = some (c.toNat % 16) :=
                      hexVal_hexChar (by omega)
                    simp [he, parseStrBody_cons, show hexVal '0' = some 0 from rfl,
                      hva, hvb, ih rest]
                    have harith : c.toNat / 16 * 16 + c.toNat % 16 = c.toNat := by omega
                    rw [harith, ofNat_toNat_char (by omega)]
                  · have he : escC c = [c] := by
                      rw [escC, if_neg h1, if_neg h2, if_neg h3, if_neg h4, if_neg h5,
                        if_neg h6, if_neg h7, if_neg h8]
                    simp [he, parseStrBody_cons, h1, h2, ih rest]

theorem parseDigits_nil : parseDigits [] = ([], []) := rfl

theorem parseDigits_cons (c : Char) (rest : List Char) :
    parseDigits (c :: rest) =
      (if isDigitC c then ((c :: (parseDigits rest).1, (parseDigits rest).2))
       else ([], c :: rest)) := rfl

theorem parseDigits_stop {l : List Char} (h : delimOk l) : parseDigits l = ([], l) := by
  cases l with
  | nil => rfl
  | cons c rest =>
    rw [parseDigits_cons, if_neg]
    simp only [Bool.not_eq_true]
    exact h c rfl

theorem parseDigits_run : ∀ (ds rest : List Char), (∀ c ∈ ds, isDigitC c = true) →
    delimOk rest → parseDigits (ds ++ rest) = (ds, rest) := by
  intro ds
  induction ds with
  | nil =>
    intro rest _ hr
    simpa using parseDigits_stop hr
  | cons c cs ih =>
    intro rest hds hr
    rw [List.cons_append, parseDigits_cons, if_pos (hds c (by simp)), ih rest (fun x hx => hds x (by simp [hx])) hr]

theorem parseNat_natChars (n : Nat) {rest : List Char} (h : delimOk rest) :
    parseNat (natChars n ++ rest) = some (n, rest) := by
  rw [parseNat, parseDigits_run (natChars n) rest (natChars_digits n) h]
  have hne := natChars_ne_nil n
  cases he : natChars n with
  | nil => exact absurd he hne
  | cons c cs =>
    rw [← he]
    simp only [he]
    rw [← he, digitsToNat_natChars n]

theorem emit_vstr (s : String) : emitVal (Val.vstr s) = '"' :: (escStr s.data ++ ['"']) := rfl

theorem emit_vint (i : Int) : emitVal (Val.vint i) = intChars i := rfl

theorem emit_vbool (b : Bool) :
    emitVal (Val.vbool b) = if b then ['t', 'r', 'u', 'e'] else ['f', 'a', 'l', 's', 'e'] := rfl

theorem emit_vnull : emitVal Val.vnull = ['n', 'u', 'l', 'l'] := rfl

theorem emit_vdate (d : JSDate) :
    emitVal (Val.vdate d) = '"' :: (escStr (toDateISOChars d) ++ ['"']) := rfl

theorem emit_varr (xs : List Val) : emitVal (Val.varr xs) = '[' :: (emitElems xs ++ [']']) := rfl

theorem emit_vobj (fs : List (String × Val)) :
    emitVal (Val.vobj fs) = lbraceC :: (emitFields fs ++ [rbraceC]) := rfl

theorem emitElems_one (x : Val) : emitElems [x] = emitVal x := rfl

theorem emitElems_cons (x y : Val) (xs : List Val) :
    emitElems (x :: y :: xs) = emitVal x ++ ',' :: emitElems (y :: xs) := rfl

theorem emitFields_one (k : String) (v : Val) :
    emitFields [(k, v)] = '"' :: (escStr k.data ++ '"' :: ':' :: emitVal v) := rfl

theorem emitFields_cons (k : String) (v : Val) (g : String × Val) (fs : List (String × Val)) :
    emitFields ((k, v) :: g :: fs) =
      ('"' :: (escStr k.data ++ '"' :: ':' :: emitVal v)) ++ ',' :: emitFields (g :: fs) := rfl

theorem raw_vstr (s : String) : rawVal (Val.vstr s) = Val.vstr s := rfl

theorem raw_vint (i : Int) : rawVal (Val.vint i) = Val.vint i := rfl

theorem raw_vbool (b : Bool) : rawVal (Val.vbool b) = Val.vbool b := rfl

theorem raw_vnull : rawVal Val.vnull = Val.vnull := rfl

theorem raw_vdate (d : JSDate) : rawVal (Val.vdate d) = Val.vstr (toDateISO d) := rfl

theorem raw_varr (xs : List Val) : rawVal (Val.varr xs) = Val.varr (rawList xs) := rfl

theorem raw_vobj (fs : List (String × Val)) :
    rawVal (Val.vobj fs) = Val.vobj (rawFields fs) := rfl

theorem rawList_nil : rawList [] = [] := rfl

theorem rawList_cons (x : Val) (xs : List Val) : rawList (x :: xs) = rawVal x :: rawList xs := rfl

theorem rawFields_nil : rawFields [] = [] := rfl

theorem rawFields_cons (k : String) (v : Val) (fs : List (String × Val)) :
    rawFields ((k, v) :: fs) = (k, rawVal v) :: rawFields fs := rfl

theorem size_varr (xs : List Val) : sizeVal (Val.varr xs) = sizeList xs + 1 := rfl

theorem size_vobj (fs : List (String × Val)) : sizeVal (Val.vobj fs) = sizeFields fs + 1 := rfl

theorem sizeList_cons (x : Val) (xs : List Val) :
    sizeList (x :: xs) = sizeVal x + sizeList xs + 1 := rfl

theorem sizeFields_cons (k : String) (v : Val) (fs : List (String × Val)) :
    sizeFields ((k, v) :: fs) = sizeVal v + sizeFields fs + 1 := rfl

theorem sizeList_pos {xs : List Val} (h : xs ≠ []) : 1 ≤ sizeList xs := by
  cases xs with
  | nil => exact absurd rfl h
  | cons x xs => rw [sizeList_cons]; omega

theorem sizeFields_pos {fs : List (String × Val)} (h : fs ≠ []) : 1 ≤ sizeFields fs := by
  cases fs with
  | nil => exact absurd rfl h
  | cons g fs =>
    obtain ⟨k, v⟩ := g
    rw [sizeFields_cons]
    omega

theorem delimOk_nil : delimOk [] := by
  intro c h
  simp at h

theorem delimOk_cons {c : Char} (h : isDigitC c = false) (l : List Char) : delimOk (c :: l) := by
  intro x hx
  simp at hx
  rw [hx] at h
  exact h

theorem emitVal_head (v : Val) : ∃ c t, emitVal v = c :: t ∧ c ≠ ']' ∧ c ≠ rbraceC := by
  cases v with
  | vstr s => exact ⟨'"', _, emit_vstr s, by decide, by decide⟩
  | vint i =>
    rw [emit_vint, intChars]
    by_cases h : i < 0
    · rw [if_pos h]
      exact ⟨'-', _, rfl, by decide, by decide⟩
    · rw [if_neg h]
      cases he : natChars i.natAbs with
      | nil => exact absurd he (natChars_ne_nil _)
      | cons c t =>
        have hd : isDigitC c = true := natChars_digits _ c (by rw [he]; simp)
        refine ⟨c, t, rfl, ?_, ?_⟩
        · intro hc; rw [hc] at hd; exact absurd hd (by decide)
        · intro hc; rw [hc] at hd; exact absurd hd (by decide)
  | vbool b =>
    cases b
    · exact ⟨'f', _, rfl, by decide, by decide⟩
    · exact ⟨'t', _, rfl, by decide, by decide⟩
  | vnull => exact ⟨'n', _, rfl, by decide, by decide⟩
  | vdate d => exact ⟨'"', _, emit_vdate d, by decide, by decide⟩
  | varr xs => exact ⟨'[', _, emit_varr xs, by decide, by decide⟩
  | vobj fs => exact ⟨lbraceC, _, emit_vobj fs, by decide, by decide⟩

theorem parseVal_succ (fuel : Nat) (c : Char) (rest : List Char) :
    parseVal (fuel + 1) (c :: rest) =
      (if c = '"' then
        (parseStrBody rest).map (fun p => (Val.vstr (String.mk p.1), p.2))
      else if c = '[' then
        match rest with
        | ']' :: r => some (Val.varr [], r)
        | _ => (parseElems fuel rest).map (fun p => (Val.varr p.1, p.2))
      else if c = lbraceC then
        match rest with
        | [] => none
        | r0 :: r =>
          if r0 = rbraceC then some (Val.vobj [], r)
          else (parseFields fuel (r0 :: r)).map (fun p => (Val.vobj p.1, p.2))
      else if c = 't' then
        match rest with
        | 'r' :: 'u' :: 'e' :: r => some (Val.vbool true, r)
        | _ => none
      else if c = 'f' then
        match rest with
        | 'a' :: 'l' :: 's' :: 'e' :: r => some (Val.vbool false, r)
        | _ => none
      else if c = 'n' then
        match rest with
        | 'u' :: 'l' :: 'l' :: r => some (Val.vnull, r)
        | _ => none
      else if c = '-' then
        (parseNat rest).map (fun p => (Val.vint (-(p.1 : Int)), p.2))
      else if isDigitC c then
        (parseNat (c :: rest)).map (fun p => (Val.vint (p.1 : Int), p.2))
      else none) := rfl

theorem parseElems_succ (fuel : Nat) (l : List Char) :
    parseElems (fuel + 1) l =
      (match parseVal fuel l with
      | none => none
      | some (v, rest) =>
        match rest with
        | ',' :: r => (parseElems fuel r).map (fun p => (v :: p.1, p.2))
        | ']' :: r => some ([v], r)
        | _ => none) := rfl

theorem parseFields_succ (fuel : Nat) (l : List Char) :
    parseFields (fuel + 1) l =
      (match l with
      | '"' :: r =>
        match parseStrBody r with
        | none => none
        | some (k, rest) =>
          match rest with
          | ':' :: r2 =>
            match parseVal fuel r2 with
            | none => none
            | some (v, rest2) =>
              match rest2 with
              | [] => none
              | c3 :: r3 =>
                if c3 = ',' then
                  (parseFields fuel r3).map (fun p => ((String.mk k, v) :: p.1, p.2))
                else if c3 = rbraceC then some ([(String.mk k, v)], r3)
                else none
          | _ => none
      | _ => none) := rfl

theorem emitElems_nil : emitElems [] = [] := rfl

theorem emitElems_head {x : Val} {c : Char} {t : List Char} (h : emitVal x = c :: t) :
    ∀ xs2 : List Val, ∃ s, emitElems (x :: xs2) = c :: s := by
  intro xs2
  cases xs2 with
  | nil => exact ⟨t, by rw [emitElems_one, h]⟩
  | cons y ys => exact ⟨t ++ ',' :: emitElems (y :: ys), by rw [emitElems_cons, h]; rfl⟩

theorem emitFields_head (g : String × Val) (gs : List (String × Val)) :
    ∃ s, emitFields (g :: gs) = '"' :: s := by
  obtain ⟨k, v⟩ := g
  cases gs with
  | nil => exact ⟨_, emitFields_one k v⟩
  | cons g2 gs2 =>
    refine ⟨(escStr k.data ++ '"' :: ':' :: emitVal v) ++ ',' :: emitFields (g2 :: gs2), ?_⟩
    rw [emitFields_cons]
    rfl

theorem parse_emit : ∀ fuel : Nat,
    (∀ v rest, sizeVal v ≤ fuel → delimOk rest →
      parseVal fuel (emitVal v ++ rest) = some (rawVal v, rest)) ∧
    (∀ xs rest, xs ≠ [] → sizeList xs ≤ fuel → delimOk rest →
      parseElems fuel (emitElems xs ++ ']' :: rest) = some (rawList xs, rest)) ∧
    (∀ fs rest, fs ≠ [] → sizeFields fs ≤ fuel → delimOk rest →
      parseFields fuel (emitFields fs ++ rbraceC :: rest) = some (rawFields fs, rest)) := by
  intro fuel
  induction fuel with
  | zero =>
    refine ⟨?_, ?_, ?_⟩
    · intro v rest hs _
      have := sizeVal_pos v
      omega
    · intro xs rest hne hs _
      have := sizeList_pos hne
      omega
    · intro fs rest hne hs _
      have := sizeFields_pos hne
      omega
  | succ f ih =>
    obtain ⟨ihV, ihE, ihF⟩ := ih
    refine ⟨?_, ?_, ?_⟩
    · intro v rest hs hr
      cases v with
      | vstr s =>
        rw [emit_vstr, raw_vstr, List.cons_append, List.append_assoc, List.singleton_append,
          parseVal_succ, if_pos rfl, parseStrBody_escStr]
        rfl
      | vdate d =>
        rw [emit_vdate, raw_vdate, List.cons_append, List.append_assoc, List.singleton_append,
          parseVal_succ, if_pos rfl, parseStrBody_escStr]
        rfl
      | vint i =>
        rw [emit_vint, raw_vint, intChars]
        by_cases hneg : i < 0
        · rw [if_pos hneg, List.cons_append, parseVal_succ,
            if_neg (by decide), if_neg (by decide), if_neg (by decide), if_neg (by decide),
            if_neg (by decide), if_neg (by decide), if_pos rfl, parseNat_natChars _ hr]
          have hiv : (-(i.natAbs : Int)) = i := by omega
          show some (Val.vint (-(i.natAbs : Int)), rest) = some (Val.vint i, rest)
          rw [hiv]
        · rw [if_neg hneg]
          cases he : natChars i.natAbs with
          | nil => exact absurd he (natChars_ne_nil _)
          | cons c t =>
            have hd : isDigitC c = true := natChars_digits _ c (by rw [he]; simp)
            have h1 : ¬c = '"' := fun hc => by rw [hc] at hd; exact absurd hd (by decide)
            have h2 : ¬c = '[' := fun hc => by rw [hc] at hd; exact absurd hd (by decide)
            have h3 : ¬c = lbraceC := fun hc => by rw [hc] at hd; exact absurd hd (by decide)
            have h4 : ¬c = 't' := fun hc => by rw [hc] at hd; exact absurd hd (by decide)
            have h5 : ¬c = 'f' := fun hc => by rw [hc] at hd; exact absurd hd (by decide)
            have h6 : ¬c = 'n' := fun hc => by rw [hc] at hd; exact absurd hd (by decide)
            have h7 : ¬c = '-' := fun hc => by rw [hc] at hd; exact absurd hd (by decide)
            rw [List.cons_append, parseVal_succ, if_neg h1, if_neg h2, if_neg h3,
              if_neg h4, if_neg h5, if_neg h6, if_neg h7, if_pos hd,
              show c :: (t ++ rest) = natChars i.natAbs ++ rest by rw [he]; rfl,
              parseNat_natChars _ hr]
            have hiv : ((i.natAbs : Nat) : Int) = i := by omega
            show some (Val.vint ((i.natAbs : Nat) : Int), rest) = some (Val.vint i, rest)
            rw [hiv]
      | vbool b =>
        cases b
        · rw [emit_vbool, raw_vbool]
          show parseVal (f + 1) ('f' :: 'a' :: 'l' :: 's' :: 'e' :: rest) =
            some (Val.vbool false, rest)
          rw [parseVal_succ, if_neg (by decide), if_neg (by decide), if_neg (by decide),
            if_neg (by decide), if_pos rfl]
          rfl
        · rw [emit_vbool, raw_vbool]
          show parseVal (f + 1) ('t' :: 'r' :: 'u' :: 'e' :: rest) =
            some (Val.vbool true, rest)
          rw [parseVal_succ, if_neg (by decide), if_neg (by decide), if_neg (by decide),
            if_pos rfl]
          rfl
      | vnull =>
        rw [emit_vnull, raw_vnull]
        show parseVal (f + 1) ('n' :: 'u' :: 'l' :: 'l' :: rest) = some (Val.vnull, rest)
        rw [parseVal_succ, if_neg (by decide), if_neg (by decide), if_neg (by decide),
          if_neg (by decide), if_neg (by decide), if_pos rfl]
        rfl
      | varr xs =>
        rw [emit_varr, raw_varr]
        cases xs with
        | nil =>
          rw [emitElems_nil, rawList_nil]
          simp [parseVal_succ]
        | cons x xs2 =>
          obtain ⟨c, t, hct, hne1, _⟩ := emitVal_head x
          obtain ⟨s, hsE⟩ := emitElems_head hct xs2
          rw [List.cons_append, List.append_assoc, List.singleton_append, parseVal_succ,
            if_neg (by decide), if_pos rfl, hsE, List.cons_append]
          have hred : (match c :: (s ++ ']' :: rest) with
              | ']' :: r => some (Val.varr [], r)
              | _ => (parseElems f (c :: (s ++ ']' :: rest))).map
                  (fun p => (Val.varr p.1, p.2))) =
              (parseElems f (c :: (s ++ ']' :: rest))).map (fun p => (Val.varr p.1, p.2)) := by
            cases hc : c <;> first
              | rfl
              | (split
                 · rename_i heq
                   rw [← hc] at heq
                   cases heq
                   exact absurd rfl hne1
                 · rfl)
          rw [hred, ← List.cons_append, ← hsE,
            ihE (x :: xs2) rest (by simp) (by rw [size_varr] at hs; omega) hr]
          rfl
      | vobj fs =>
        rw [emit_vobj, raw_vobj]
        cases fs with
        | nil =>
          rw [rawFields_nil]
          show parseVal (f + 1) (lbraceC :: (([] ++ [rbraceC]) ++ rest)) = _
          rw [List.nil_append, List.singleton_append, parseVal_succ,
            if_neg (by decide), if_neg (by decide), if_pos rfl]
          simp
        | cons g gs =>
          obtain ⟨s, hsE⟩ := emitFields_head g gs
          rw [List.cons_append, List.append_assoc, List.singleton_append, parseVal_succ,
            if_neg (by decide), if_neg (by decide), if_pos rfl, hsE, List.cons_append]
          have hred : (match ('"' :: (s ++ rbraceC :: rest) : List Char) with
              | [] => none
              | r0 :: r =>
                if r0 = rbraceC then some (Val.vobj [], r)
                else (parseFields f (r0 :: r)).map (fun p => (Val.vobj p.1, p.2))) =
              (parseFields f ('"' :: (s ++ rbraceC :: rest))).map
                (fun p => (Val.vobj p.1, p.2)) := by
            have hne : ¬('"' : Char) = rbraceC := by decide
            simp [hne]
          rw [hred, ← List.cons_append, ← hsE,
            ihF (g :: gs) rest (by simp) (by rw [size_vobj] at hs; omega) hr]
          rfl

    · intro xs rest hne hs hr
      cases xs with
      | nil => exact absurd rfl hne
      | cons x xs2 =>
        cases xs2 with
        | nil =>
          rw [emitElems_one, rawList_cons, rawList_nil, parseElems_succ,
            ihV x (']' :: rest) (by rw [sizeList_cons] at hs; have := sizeVal_pos x; omega)
              (delimOk_cons (by decide) rest)]
          rfl
        | cons y ys =>
          rw [emitElems_cons, rawList_cons, List.append_assoc, List.cons_append,
            parseElems_succ,
            ihV x (',' :: (emitElems (y :: ys) ++ ']' :: rest))
              (by rw [sizeList_cons] at hs; omega)
              (delimOk_cons (by decide) _)]
          show (parseElems f (emitElems (y :: ys) ++ ']' :: rest)).map
              (fun p => (rawVal x :: p.1, p.2)) = _
          rw [ihE (y :: ys) rest (by simp)
            (by rw [sizeList_cons] at hs; have := sizeVal_pos x; omega) hr]
          rfl
    · intro fs rest hne hs hr
      cases fs with
      | nil => exact absurd rfl hne
      | cons g gs =>
        obtain ⟨k, v⟩ := g
        cases gs with
        | nil =>
          rw [emitFields_one, rawFields_cons, rawFields_nil, List.cons_append,
            List.append_assoc, parseFields_succ]
          show (match parseStrBody (escStr k.data ++ ('"' :: ':' :: emitVal v ++ rbraceC :: rest)) with
            | none => none
            | some (kk, rest1) =>
              match rest1 with
              | ':' :: r2 =>
                match parseVal f r2 with
                | none => none
                | some (vv, rest2) =>
                  match rest2 with
                  | [] => none
                  | c3 :: r3 =>
                    if c3 = ',' then
                      (parseFields f r3).map
                        (fun (p : List (String × Val) × List Char) =>
                          ((String.mk kk, vv) :: p.1, p.2))
                    else if c3 = rbraceC then some ([(String.mk kk, vv)], r3)
                    else none
              | _ => none) = _
          rw [show escStr k.data ++ ('"' :: ':' :: emitVal v ++ rbraceC :: rest) =
            escStr k.data ++ '"' :: (':' :: (emitVal v ++ rbraceC :: rest)) by simp,
            parseStrBody_escStr]
          show (match parseVal f (emitVal v ++ rbraceC :: rest) with
            | none => none
            | some (vv, rest2) =>
              match rest2 with
              | [] => none
              | c3 :: r3 =>
                if c3 = ',' then
                  (parseFields f r3).map
                    (fun (p : List (String × Val) × List Char) =>
                      ((String.mk k.data, vv) :: p.1, p.2))
                else if c3 = rbraceC then some ([(String.mk k.data, vv)], r3)
                else none) = _
          rw [ihV v (rbraceC :: rest) (by rw [sizeFields_cons] at hs; omega)
            (delimOk_cons (by decide) _)]
          show (if rbraceC = ',' then _ else if rbraceC = rbraceC then
              some ([(String.mk k.data, rawVal v)], rest) else none) = _
          rw [if_neg (by decide), if_pos rfl]
        | cons g2 gs2 =>
          rw [emitFields_cons, rawFields_cons, List.append_assoc, List.cons_append,
            List.append_assoc, parseFields_succ]
          show (match parseStrBody (escStr k.data ++ ('"' :: ':' :: emitVal v ++
              (',' :: (emitFields (g2 :: gs2) ++ rbraceC :: rest)))) with
            | none => none
            | some (kk, rest1) =>
              match rest1 with
              | ':' :: r2 =>
                match parseVal f r2 with
                | none => none
                | some (vv, rest2) =>
                  match rest2 with
                  | [] => none
                  | c3 :: r3 =>
                    if c3 = ',' then
                      (parseFields f r3).map
                        (fun (p : List (String × Val) × List Char) =>
                          ((String.mk kk, vv) :: p.1, p.2))
                    else if c3 = rbraceC then some ([(String.mk kk, vv)], r3)
                    else none
              | _ => none) = _
          rw [show escStr k.data ++ ('"' :: ':' :: emitVal v ++
              (',' :: (emitFields (g2 :: gs2) ++ rbraceC :: rest))) =
            escStr k.data ++ '"' :: (':' :: (emitVal v ++
              (',' :: (emitFields (g2 :: gs2) ++ rbraceC :: rest)))) by simp,
            parseStrBody_escStr]
          show (match parseVal f (emitVal v ++ (',' :: (emitFields (g2 :: gs2) ++
              rbraceC :: rest))) with
            | none => none
            | some (vv, rest2) =>
              match rest2 with
              | [] => none
              | c3 :: r3 =>
                if c3 = ',' then
                  (parseFields f r3).map
                    (fun (p : List (String × Val) × List Char) =>
                      ((String.mk k.data, vv) :: p.1, p.2))
                else if c3 = rbraceC then some ([(String.mk k.data, vv)], r3)
                else none) = _
          rw [ihV v (',' :: (emitFields (g2 :: gs2) ++ rbraceC :: rest))
            (by rw [sizeFields_cons] at hs; omega) (delimOk_cons (by decide) _)]
          show (if (',' : Char) = ',' then
              (parseFields f (emitFields (g2 :: gs2) ++ rbraceC :: rest)).map
                (fun p => ((String.mk k.data, rawVal v) :: p.1, p.2))
            else _) = _
          rw [if_pos rfl,
            ihF (g2 :: gs2) rest (by simp) (by rw [sizeFields_cons] at hs; omega) hr]
          rfl

theorem one_le_escC_len (c : Char) : 1 ≤ (escC c).length := by
  unfold escC
  split_ifs <;> simp

theorem le_escStr_len (cs : List Char) : cs.length ≤ (escStr cs).length := by
  induction cs with
  | nil => simp [escStr]
  | cons c cs ih =>
    show (c :: cs).length ≤ (escC c ++ escStr cs).length
    have := one_le_escC_len c
    simp only [List.length_cons, List.length_append]
    omega

theorem sizeList_nil : sizeList [] = 0 := rfl

theorem sizeFields_nil : sizeFields [] = 0 := rfl

theorem natChars_len_pos (n : Nat) : 1 ≤ (natChars n).length := by
  cases he : natChars n with
  | nil => exact absurd he (natChars_ne_nil n)
  | cons c t => simp

theorem sizeVal_le_emitLen : ∀ v : Val, sizeVal v ≤ (emitVal v).length := by
  refine valInd ?_ ?_ ?_ ?_ ?_ ?_ ?_
  · intro s
    rw [emit_vstr]
    show 1 ≤ _
    simp
  · intro i
    rw [emit_vint, intChars]
    have := natChars_len_pos i.natAbs
    show 1 ≤ _
    split_ifs
    · simp
    · omega
  · intro b
    cases b <;> simp [emit_vbool, sizeVal]
  · simp [emit_vnull, sizeVal]
  · intro d
    rw [emit_vdate]
    show 1 ≤ _
    simp
  · intro xs ihx
    rw [size_varr, emit_varr]
    have key : ∀ ys : List Val, (∀ x ∈ ys, sizeVal x ≤ (emitVal x).length) →
        sizeList ys ≤ (emitElems ys).length + 1 := by
      intro ys
      induction ys with
      | nil => intro _; rw [sizeList_nil, emitElems_nil]; simp
      | cons x xs2 ih2 =>
        intro hall
        cases xs2 with
        | nil =>
          rw [sizeList_cons, emitElems_one, sizeList_nil]
          have := hall x (by simp)
          omega
        | cons y ys2 =>
          rw [sizeList_cons, emitElems_cons]
          have h1 := hall x (by simp)
          have h2 := ih2 (fun z hz => hall z (by simp [hz]))
          simp only [List.length_append, List.length_cons]
          omega
    have := key xs ihx
    simp only [List.length_cons, List.length_append, List.length_singleton]
    omega
  · intro fs ihf
    rw [size_vobj, emit_vobj]
    have key : ∀ gs : List (String × Val), (∀ kv ∈ gs, sizeVal kv.2 ≤ (emitVal kv.2).length) →
        sizeFields gs ≤ (emitFields gs).length + 1 := by
      intro gs
      induction gs with
      | nil => intro _; rw [sizeFields_nil]; simp
      | cons g gs2 ih2 =>
        intro hall
        obtain ⟨k, v⟩ := g
        cases gs2 with
        | nil =>
          rw [sizeFields_cons, emitFields_one, sizeFields_nil]
          have := hall (k, v) (by simp)
          simp only [List.length_cons, List.length_append] at this ⊢
          omega
        | cons g2 gs3 =>
          rw [sizeFields_cons, emitFields_cons]
          have h1 := hall (k, v) (by simp)
          have h2 := ih2 (fun z hz => hall z (by simp [hz]))
          simp only [List.length_cons, List.length_append] at h1 h2 ⊢
          omega
    have := key fs ihf
    simp only [List.length_cons, List.length_append, List.length_singleton]
    omega

theorem good_vstr (s : String) : goodB (Val.vstr s) = plainB s := rfl

theorem good_vdate (d : JSDate) : goodB (Val.vdate d) = validDateB d := rfl

theorem good_varr (xs : List Val) : goodB (Val.varr xs) = goodListB xs := rfl

theorem good_vobj (fs : List (String × Val)) : goodB (Val.vobj fs) = goodFieldsB fs := rfl

theorem goodList_cons (x : Val) (xs : List Val) :
    goodListB (x :: xs) = (goodB x && goodListB xs) := rfl

theorem goodFields_cons (k : String) (v : Val) (fs : List (String × Val)) :
    goodFieldsB ((k, v) :: fs) = (goodB v && goodFieldsB fs) := rfl

theorem revive_raw : ∀ v : Val, goodB v = true → revive (rawVal v) = v := by
  refine valInd ?_ ?_ ?_ ?_ ?_ ?_ ?_
  · intro s h
    rw [good_vstr] at h
    show reviveStr s = Val.vstr s
    rw [reviveStr, Option.isNone_iff_eq_none.mp h]
  · intro i _
    rfl
  · intro b _
    rfl
  · intro _
    rfl
  · intro d h
    rw [good_vdate] at h
    show reviveStr (toDateISO d) = Val.vdate d
    rw [reviveStr]
    have : isoParts (toDateISO d).data = some d := isoParts_toDateISOChars h
    rw [this]
  · intro xs ihx h
    rw [good_varr] at h
    show Val.varr (reviveList (rawList xs)) = Val.varr xs
    congr 1
    induction xs with
    | nil => rfl
    | cons x xs2 ih2 =>
      rw [goodList_cons, Bool.and_eq_true] at h
      rw [rawList_cons]
      show revive (rawVal x) :: reviveList (rawList xs2) = x :: xs2
      rw [ihx x (by simp) h.1, ih2 (fun z hz => ihx z (by simp [hz])) h.2]
  · intro fs ihf h
    rw [good_vobj] at h
    show Val.vobj (reviveFields (rawFields fs)) = Val.vobj fs
    congr 1
    induction fs with
    | nil => rfl
    | cons g gs ih2 =>
      obtain ⟨k, v⟩ := g
      rw [goodFields_cons, Bool.and_eq_true] at h
      rw [rawFields_cons]
      show (k, revive (rawVal v)) :: reviveFields (rawFields gs) = (k, v) :: gs
      rw [ihf (k, v) (by simp) h.1, ih2 (fun z hz => ihf z (by simp [hz])) h.2]

/-- The encode/decode round trip of cast.ts, for values whose strings do
not look like ISO dates and whose dates are valid four-digit-year dates. -/
theorem fromJson_toJson {v : Val} (h : goodB v = true) : fromJson (toJson v) = some v := by
  have hlen : sizeVal v ≤ (emitVal v).length + 1 :=
    le_trans (sizeVal_le_emitLen v) (by omega)
  have hp := (parse_emit ((emitVal v).length + 1)).1 v [] hlen delimOk_nil
  rw [List.append_nil] at hp
  show (match parseVal ((emitVal v).length + 1) (emitVal v) with
    | some (w, []) => some (revive w)
    | _ => none) = some v
  rw [hp]
  show some (revive (rawVal v)) = some v
  rw [revive_raw v h]

/-! ## Lemmas: the row store -/

theorem dbGet_nil (k : String) : dbGet [] k = none := rfl

theorem dbGet_cons (r : Row) (st : Store) (k : String) :
    dbGet (r :: st) k = if r.key = k then some r else dbGet st k := by
  unfold dbGet
  by_cases h : r.key = k
  · have hb : (r.key == k) = true := by simp [h]
    rw [List.find?_cons, hb, if_pos h]
  · have hb : (r.key == k) = false := by simp [h]
    rw [List.find?_cons, hb, if_neg h]

theorem find?_filter_of {α : Type} (l : List α) (p q : α → Bool)
    (h : ∀ x, p x = true → q x = true) : (l.filter q).find? p = l.find? p := by
  induction l with
  | nil => rfl
  | cons a l ih =>
    by_cases hq : q a = true
    · rw [List.filter_cons_of_pos hq, List.find?_cons, List.find?_cons]
      cases hp : p a
      · exact ih
      · rfl
    · rw [List.filter_cons_of_neg (by simpa using hq), List.find?_cons]
      cases hp : p a
      · exact ih
      · exact absurd (h a hp) hq

theorem dbGet_dbPut_self (st : Store) (r : Row) : dbGet (dbPut st r) r.key = some r := by
  unfold dbGet dbPut
  rw [List.find?_append]
  have h1 : (st.filter (fun x => !(x.key == r.key))).find?
      (fun x => x.key == r.key) = none := by
    rw [List.find?_eq_none]
    intro x hx
    simp only [List.mem_filter, Bool.not_eq_true] at hx
    simpa using hx.2
  rw [h1]
  simp

theorem dbGet_dbPut_ne (st : Store) (r : Row) (k : String) (h : k ≠ r.key) :
    dbGet (dbPut st r) k = dbGet st k := by
  unfold dbGet dbPut
  rw [List.find?_append]
  have h2 : List.find? (fun x => x.key == k) [r] = none := by
    simp [Ne.symm h]
  rw [h2, find?_filter_of _ _ _ ?_]
  · simp
  · intro x hx
    simp only [beq_iff_eq] at hx
    simp [hx, h]

theorem dbGet_deleteKey_self (st : Store) (k : String) : dbGet (dbDeleteKey st k) k = none := by
  unfold dbGet dbDeleteKey
  rw [List.find?_eq_none]
  intro x hx
  simp only [List.mem_filter, Bool.not_eq_true] at hx
  simpa using hx.2

theorem dbGet_deleteKey_ne (st : Store) (k k2 : String) (h : k ≠ k2) :
    dbGet (dbDeleteKey st k2) k = dbGet st k := by
  unfold dbGet dbDeleteKey
  rw [find?_filter_of _ _ _ ?_]
  intro x hx
  simp only [beq_iff_eq] at hx
  simp [hx, h]

theorem WF_nil : WF [] := List.nodup_nil

theorem WF_filter {st : Store} (p : Row → Bool) (h : WF st) : WF (st.filter p) := by
  unfold WF at h ⊢
  exact (List.Sublist.map Row.key (List.filter_sublist st)).nodup h

theorem WF_dbPut {st : Store} (r : Row) (h : WF st) : WF (dbPut st r) := by
  unfold WF dbPut
  rw [List.map_append]
  apply List.Nodup.append
  · exact WF_filter _ h
  · simp
  · intro x hx hx2
    simp only [List.map_cons, List.map_nil, List.mem_singleton] at hx2
    subst hx2
    simp only [List.mem_map, List.mem_filter] at hx
    obtain ⟨row, ⟨_, hkey⟩, hkeq⟩ := hx
    rw [hkeq] at hkey
    simp at hkey

theorem WF_deleteKey {st : Store} (k : String) (h : WF st) : WF (dbDeleteKey st k) :=
  WF_filter _ h

theorem WF_removeByValue {st : Store} (v : String) (h : WF st) :
    WF (SimpleKV.removeMappingByValue st v) :=
  WF_filter _ h

theorem dbGet_filter {st : Store} (hWF : WF st) (p : Row → Bool) (k : String) :
    dbGet (st.filter p) k =
      (dbGet st k).bind (fun r => if p r then some r else none) := by
  induction st with
  | nil => rfl
  | cons a st ih =>
    have hWF2 : WF st := (List.nodup_cons.mp hWF).2
    have hamem : a.key ∉ st.map Row.key := (List.nodup_cons.mp hWF).1
    by_cases hk : a.key = k
    · subst hk
      have hnone : dbGet st a.key = none := by
        unfold dbGet
        rw [List.find?_eq_none]
        intro x hx hxk
        simp only [beq_iff_eq] at hxk
        exact hamem (by rw [← hxk]; exact List.mem_map_of_mem Row.key hx)
      have hrhs : dbGet (a :: st) a.key = some a := by rw [dbGet_cons, if_pos rfl]
      cases hp : p a
      · have hlhs : dbGet ((a :: st).filter p) a.key = none := by
          rw [List.filter_cons_of_neg (by simp [hp]), ih hWF2, hnone]
          rfl
        rw [hlhs, hrhs]
        simp [hp]
      · have hlhs : dbGet ((a :: st).filter p) a.key = some a := by
          rw [List.filter_cons_of_pos hp, dbGet_cons, if_pos rfl]
        rw [hlhs, hrhs]
        simp [hp]
    · have hrhs : dbGet (a :: st) k = dbGet st k := by rw [dbGet_cons, if_neg hk]
      cases hp : p a
      · rw [List.filter_cons_of_neg (by simp [hp]), ih hWF2, hrhs]
      · rw [List.filter_cons_of_pos hp, dbGet_cons, if_neg hk, ih hWF2, hrhs]

theorem dbGet_removeByValue {st : Store} (hWF : WF st) (v k : String) :
    dbGet (SimpleKV.removeMappingByValue st v) k =
      (dbGet st k).bind (fun r =>
        cond (r.value == v && likeMatch ("mapping_%".data) r.type.data) none (some r)) := by
  unfold SimpleKV.removeMappingByValue
  rw [dbGet_filter hWF]
  cases dbGet st k with
  | none => rfl
  | some r =>
    rw [Option.some_bind]
    show (if (!(r.value == v && likeMatch ("mapping_%".data) r.type.data)) = true
      then some r else none) =
      cond (r.value == v && likeMatch ("mapping_%".data) r.type.data) none (some r)
    cases hb : (r.value == v && likeMatch ("mapping_%".data) r.type.data)
    · rfl
    · rfl

/-! ## Lemmas: keys, patterns, decoding -/

theorem colonSplit_inj : ∀ (l1 l2 a b : List Char), ':' ∉ l1 → ':' ∉ l2 →
    (l1 ++ ':' :: a = l2 ++ ':' :: b ↔ l1 = l2 ∧ a = b) := by
  intro l1
  induction l1 with
  | nil =>
    intro l2 a b _ h2
    cases l2 with
    | nil => simp
    | cons c l2 =>
      simp only [List.nil_append, List.cons_append, List.cons.injEq]
      constructor
      · rintro ⟨rfl, _⟩
        exact absurd (List.mem_cons_self _ _) h2
      · rintro ⟨h, _⟩
        exact absurd h (by simp)
  | cons c l1 ih =>
    intro l2 a b h1 h2
    cases l2 with
    | nil =>
      simp only [List.nil_append, List.cons_append, List.cons.injEq]
      constructor
      · rintro ⟨rfl, _⟩
        exact absurd (List.mem_cons_self _ _) h1
      · rintro ⟨h, _⟩
        exact absurd h.symm (by simp)
    | cons d l2 =>
      simp only [List.cons_append, List.cons.injEq]
      rw [ih l2 a b (fun h => h1 (List.mem_cons_of_mem _ h))
        (fun h => h2 (List.mem_cons_of_mem _ h))]
      constructor
      · rintro ⟨rfl, rfl, rfl⟩
        exact ⟨⟨rfl, rfl⟩, rfl⟩
      · rintro ⟨⟨rfl, rfl⟩, rfl⟩
        exact ⟨rfl, rfl, rfl⟩

theorem string_eq_iff_data {a b : String} : a = b ↔ a.data = b.data := by
  constructor
  · intro h
    rw [h]
  · intro h
    cases a
    cases b
    exact congrArg String.mk (by simpa using h)

theorem relKey_inj {r1 r2 : String} (a b : String)
    (h1 : ':' ∉ r1.data) (h2 : ':' ∉ r2.data) :
    (r1 ++ ":" ++ a = r2 ++ ":" ++ b) ↔ (r1 = r2 ∧ a = b) := by
  rw [string_eq_iff_data]
  simp only [String.data_append]
  simp only [List.append_assoc, List.singleton_append]
  rw [colonSplit_inj r1.data r2.data a.data b.data h1 h2]
  rw [← string_eq_iff_data (a := r1) (b := r2), ← string_eq_iff_data (a := a) (b := b)]

theorem relKey_ne {r1 r2 : String} (a b : String)
    (h1 : ':' ∉ r1.data) (h2 : ':' ∉ r2.data) (hne : r1 ≠ r2) :
    r1 ++ ":" ++ a ≠ r2 ++ ":" ++ b := fun h =>
  hne ((relKey_inj a b h1 h2).mp h).1

theorem relKey_ne_arg {r : String} (a b : String) (h1 : ':' ∉ r.data) (hne : a ≠ b) :
    r ++ ":" ++ a ≠ r ++ ":" ++ b := fun h =>
  hne ((relKey_inj a b h1 h1).mp h).2

theorem bare_ne_relKey {s r : String} (a : String) (hs : ':' ∉ s.data) :
    s ≠ r ++ ":" ++ a := by
  intro h
  apply hs
  rw [h]
  simp only [String.data_append]
  simp


theorem kvKey_eq (tp k : String) : kvKey tp k = tp ++ ":" ++ k := rfl

theorem mapKeyOf_some (rel k : String) : mapKeyOf rel (some k) = rel ++ ":" ++ k := rfl

theorem goodB_strListVal {l : List String} (h : ∀ s ∈ l, plainB s = true) :
    goodB (strListVal l) = true := by
  rw [strListVal, good_varr]
  induction l with
  | nil => rfl
  | cons s l ih =>
    rw [List.map_cons, goodList_cons, Bool.and_eq_true]
    exact ⟨h s (by simp), ih (fun x hx => h x (by simp [hx]))⟩

theorem decodeStrList_toJson {l : List String} (h : ∀ s ∈ l, plainB s = true) :
    decodeStrList (toJson (strListVal l)) = some l := by
  unfold decodeStrList
  rw [fromJson_toJson (goodB_strListVal h)]
  show (l.map Val.vstr).mapM asStr = some l
  induction l with
  | nil => rfl
  | cons s l ih =>
    rw [List.map_cons, List.mapM_cons, ih (fun x hx => h x (by simp [hx]))]
    rfl

theorem toJson_strListVal_head (l : List String) :
    (toJson (strListVal l)).data.head? = some '[' := rfl

theorem value_ne_of_head {a b : String} (h : a.data.head? ≠ b.data.head?) : a ≠ b := by
  intro he
  rw [he] at h
  exact h rfl

theorem relKey_head (r : String) (a : String) (c : Char) (t : List Char)
    (h : r.data = c :: t) : (r ++ ":" ++ a).data.head? = some c := by
  simp [String.data_append, h]

/-- A type that literally starts with `mapping_` matches the SQL pattern
`mapping_%` (each literal character matches itself, `_` as a pattern
wildcard matches the literal underscore, `%` matches the remainder). -/
theorem likeMatchGo_percent : ∀ (fuel : Nat) (s : List Char), s.length + 1 < fuel →
    likeMatchGo fuel ['%'] s = true := by
  intro fuel
  induction fuel with
  | zero =>
    intro s h
    omega
  | succ f ih =>
    intro s h
    show likeMatchGo (f + 1) ['%'] s = true
    cases s with
    | nil =>
      have hf : 1 ≤ f := by simpa using h
      match f, hf with
      | g + 1, _ =>
        simp [likeMatchGo]
    | cons c s2 =>
      simp only [likeMatchGo, if_pos rfl]
      rw [ih s2 (by simp at h ⊢; omega)]
      simp

theorem likeMatchGo_lit : ∀ (p : List Char) (rest : List Char) (fuel : Nat), '%' ∉ p →
    p.length + rest.length + 1 < fuel →
    likeMatchGo fuel (p ++ ['%']) (p ++ rest) = true := by
  intro p
  induction p with
  | nil =>
    intro rest fuel _ h
    exact likeMatchGo_percent fuel rest (by simpa using h)
  | cons c p ih =>
    intro rest fuel hpc h
    match fuel, (show 1 ≤ fuel by omega) with
    | f + 1, _ =>
      have hc : ¬c = '%' := fun hc => hpc (by simp [hc])
      show likeMatchGo (f + 1) (c :: (p ++ ['%'])) (c :: (p ++ rest)) = true
      by_cases hu : c = '_'
      · simp only [likeMatchGo, if_neg hc, if_pos hu]
        exact ih rest f (fun hm => hpc (by simp [hm])) (by simp at h ⊢; omega)
      · simp only [likeMatchGo, if_neg hc, if_neg hu]
        rw [ih rest f (fun hm => hpc (by simp [hm])) (by simp at h ⊢; omega)]
        simp

/-- A type string literally starting with `mapping_` matches `mapping_%`. -/
theorem likeMatch_mapping {t : String} (rest : List Char)
    (h : t.data = "mapping_".data ++ rest) :
    likeMatch ("mapping_%".data) t.data = true := by
  rw [likeMatch, h]
  rw [show ("mapping_%".data) = "mapping_".data ++ ['%'] from rfl]
  apply likeMatchGo_lit
  · decide
  · simp
    omega

/-! ## Lemmas: key splitting -/

theorem afterColon_append (l rest : List Char) (h : ':' ∉ l) :
    afterColon (l ++ ':' :: rest) = some rest := by
  induction l with
  | nil =>
    show afterColon (':' :: rest) = some rest
    rw [afterColon, if_pos rfl]
  | cons c l ih =>
    have hc : ¬c = ':' := fun hc => h (by simp [hc])
    show afterColon (c :: (l ++ ':' :: rest)) = some rest
    rw [afterColon, if_neg hc, ih (fun hm => h (by simp [hm]))]

theorem upToColon_prefix : ∀ l : List Char, upToColon l <+: l := by
  intro l
  induction l with
  | nil => exact List.prefix_rfl
  | cons c l ih =>
    rw [upToColon]
    by_cases hc : c = ':'
    · rw [if_pos hc]
      exact List.nil_prefix
    · rw [if_neg hc]
      obtain ⟨t, ht⟩ := ih
      exact ⟨t, by rw [List.cons_append, ht]⟩

theorem upToColon_length {l : List Char} (h : ':' ∈ l) :
    (upToColon l).length < l.length := by
  induction l with
  | nil => cases h
  | cons c l ih =>
    rw [upToColon]
    by_cases hc : c = ':'
    · rw [if_pos hc]
      simp
    · rw [if_neg hc]
      have hm : ':' ∈ l := by
        rcases List.mem_cons.mp h with h1 | h1
        · exact absurd h1.symm hc
        · exact h1
      have := ih hm
      simp only [List.length_cons]
      omega

theorem data_kvKey (tp k : String) : (kvKey tp k).data = tp.data ++ ':' :: k.data := by
  rw [kvKey_eq]
  simp [String.data_append]

theorem jsSplit2nd_kvKey (tp localId : String) (hcf : ':' ∉ tp.data) :
    jsSplit2nd (kvKey tp localId) = String.mk (upToColon localId.data) := by
  rw [jsSplit2nd, data_kvKey, afterColon_append tp.data localId.data hcf]

/-- C10: the record returned by `get` (and `remove`) carries a key field
truncated at the second colon of the stored key: after `put(localId, v)`,
`get(localId)` returns a record whose key is the part of `localId` before
its first colon, hence a strict prefix of `localId` whenever `localId`
itself contains a colon (for example a `did:web:` DID). -/
theorem rowToRecord_key_truncation (st : Store) (tp localId : String) (v : Val)
    (e : Option JSDate) (hcf : ':' ∉ tp.data) :
    ∃ st1 rec, SimpleKV.putInternal st tp localId v e = some ((), st1) ∧
      SimpleKV.get tp localId false st1 = some (some rec, st1) ∧
      rec.key = String.mk (upToColon localId.data) ∧
      (':' ∈ localId.data → rec.key.data <+: localId.data ∧ rec.key ≠ localId) := by
  have hk : (rowToRecord (Row.mk (kvKey tp localId) tp (toJson v)
      (e.map toDateISO))).key = String.mk (upToColon localId.data) :=
    jsSplit2nd_kvKey tp localId hcf
  refine ⟨dbPut st (Row.mk (kvKey tp localId) tp (toJson v) (e.map toDateISO)),
    rowToRecord (Row.mk (kvKey tp localId) tp (toJson v) (e.map toDateISO)),
    rfl, ?_, hk, ?_⟩
  · show SimpleKV.getInternal _ (kvKey tp localId) = _
    unfold SimpleKV.getInternal
    rw [dbGet_dbPut_self st (Row.mk (kvKey tp localId) tp (toJson v) (e.map toDateISO))]
    rfl
  · intro hmem
    rw [hk]
    constructor
    · exact upToColon_prefix localId.data
    · intro he
      have hlen := upToColon_length hmem
      have hdata : (String.mk (upToColon localId.data)).data = localId.data := by rw [he]
      have : (upToColon localId.data).length = localId.data.length :=
        congrArg List.length hdata
      omega

theorem rowToRecord_key_truncation_witness :
    ∃ st1 rec, SimpleKV.putInternal [] "tokens" "did:web:example" Val.vnull none =
        some ((), st1) ∧
      SimpleKV.get "tokens" "did:web:example" false st1 = some (some rec, st1) ∧
      rec.key = "did" ∧ rec.key ≠ "did:web:example" := by
  obtain ⟨st1, rec, h1, h2, h3, h4⟩ :=
    rowToRecord_key_truncation [] "tokens" "did:web:example" Val.vnull none (by decide)
  refine ⟨st1, rec, h1, h2, ?_, (h4 (by decide)).2⟩
  rw [h3]
  rfl

/-- C3: removing a present row by key returns the prior record and erases,
from the resulting state, every row whose type begins with `mapping_` and
whose stored value equals the full deleted key; removing an absent key
returns null and changes nothing. -/
theorem remove_cascade (st : Store) (tp k : String) :
    (∀ row, dbGet st (kvKey tp k) = some row →
      ∃ st1, SimpleKV.removeInternal st tp k true = some (some (rowToRecord row), st1) ∧
        ∀ r ∈ st1, ¬("mapping_".data <+: r.type.data ∧ r.value = kvKey tp k)) ∧
    (dbGet st (kvKey tp k) = none →
      SimpleKV.removeInternal st tp k true = some (none, st)) := by
  constructor
  · intro row hrow
    refine ⟨SimpleKV.removeMappingByValue (dbDeleteKey st (kvKey tp k)) (kvKey tp k),
      ?_, ?_⟩
    · show (match dbGet st (kvKey tp k) with
        | none => some (none, st)
        | some r => some (some (rowToRecord r),
            SimpleKV.removeMappingByValue (dbDeleteKey st (kvKey tp k)) (kvKey tp k))) = _
      rw [hrow]
    · intro r hr hcontra
      obtain ⟨hpre, hval⟩ := hcontra
      obtain ⟨rest, hrest⟩ := hpre
      have hlike : likeMatch ("mapping_%".data) r.type.data = true :=
        likeMatch_mapping rest hrest.symm
      unfold SimpleKV.removeMappingByValue at hr
      have := (List.mem_filter.mp hr).2
      rw [show (r.value == kvKey tp k) = true by simp [hval], hlike] at this
      simp at this
  · intro hnone
    show (match dbGet st (kvKey tp k) with
      | none => some (none, st)
      | some r => some (some (rowToRecord r),
          SimpleKV.removeMappingByValue (dbDeleteKey st (kvKey tp k)) (kvKey tp k))) = _
    rw [hnone]

theorem remove_cascade_witness :
    (∃ st1, SimpleKV.removeInternal
        [Row.mk "tokens:x" "tokens" "v" none,
         Row.mk "refresh_token:r" "mapping_refresh_token_to_tokens" "tokens:x" none]
        "tokens" "x" true =
        some (some (rowToRecord (Row.mk "tokens:x" "tokens" "v" none)), st1) ∧
      ∀ r ∈ st1, ¬("mapping_".data <+: r.type.data ∧ r.value = kvKey "tokens" "x")) ∧
    SimpleKV.removeInternal [] "tokens" "x" true = some (none, []) :=
  ⟨(remove_cascade
      [Row.mk "tokens:x" "tokens" "v" none,
       Row.mk "refresh_token:r" "mapping_refresh_token_to_tokens" "tokens:x" none]
      "tokens" "x").1 (Row.mk "tokens:x" "tokens" "v" none) rfl,
   (remove_cascade [] "tokens" "x").2 rfl⟩

/-- C8: rotating a token whose row does not exist is a silent no-op: the
call succeeds and returns the store completely unchanged, installing no
new token row and no new mappings. -/
theorem rotateToken_missing_noop (st : Store) (oldId newId rt : String) (patch : Val)
    (h : dbGet st (kvKey "tokens" oldId) = none) :
    rotateToken oldId newId rt patch st = some ((), st) := by
  have h1 : SimpleKV.removeInternal st "tokens" oldId true = some (none, st) := by
    show (match dbGet st (kvKey "tokens" oldId) with
      | none => some (none, st)
      | some r => some (some (rowToRecord r),
          SimpleKV.removeMappingByValue (dbDeleteKey st (kvKey "tokens" oldId))
            (kvKey "tokens" oldId))) = _
    rw [h]
  unfold rotateToken
  rw [h1]
  rfl

theorem rotateToken_missing_noop_witness :
    rotateToken "absent" "n1" "r1" (Val.vobj [])
      [Row.mk "tokens:other" "tokens" "v" none] =
      some ((), [Row.mk "tokens:other" "tokens" "v" none]) :=
  rotateToken_missing_noop [Row.mk "tokens:other" "tokens" "v" none]
    "absent" "n1" "r1" (Val.vobj []) rfl

/-! ## Lemmas: operation unfoldings -/

theorem obind_some {α β : Type} (a : α) (st : Store)
    (f : α → Store → Option (β × Store)) : obind (some (a, st)) f = f a st := rfl

theorem removeMappingInternal_eq (st : Store) (rel : String) (key : Option String) :
    SimpleKV.removeMappingInternal st rel key =
      match dbGet st (mapKeyOf rel key) with
      | none => some (none, st)
      | some r => some (some r.value, dbDeleteKey st (mapKeyOf rel key)) := rfl

theorem removeInternal_eq (st : Store) (tp key : String) :
    SimpleKV.removeInternal st tp key true =
      match dbGet st (kvKey tp key) with
      | none => some (none, st)
      | some r => some (some (rowToRecord r),
          SimpleKV.removeMappingByValue (dbDeleteKey st (kvKey tp key)) (kvKey tp key)) := rfl

theorem getMultiMappingInternal_eq (st : Store) (rel : String) (key : Option String) :
    SimpleKV.getMultiMappingInternal st rel key =
      match dbGet st (mapKeyOf rel key) with
      | none => some (none, st)
      | some r =>
        match decodeStrList r.value with
        | none => none
        | some l => some (some l, st) := rfl

theorem putMappingInternal_eq (st : Store) (tp rel key : String) (target : MapTarget) :
    SimpleKV.putMappingInternal st tp rel key target =
      some ((), dbPut st (Row.mk (rel ++ ":" ++ key) (mappingType tp rel)
        (targetValue target) none)) := rfl

theorem putInternal_eq (st : Store) (tp key : String) (v : Val) (e : Option JSDate) :
    SimpleKV.putInternal st tp key v e =
      some ((), dbPut st (Row.mk (kvKey tp key) tp (toJson v) (e.map toDateISO))) := rfl

theorem dbGet_none_filter {st : Store} {k : String} (p : Row → Bool)
    (h : dbGet st k = none) : dbGet (st.filter p) k = none := by
  unfold dbGet at h ⊢
  rw [List.find?_eq_none] at h ⊢
  intro x hx
  exact h x (List.mem_filter.mp hx).1

theorem jsTruthyS_some {s : String} (h : s ≠ "") : jsTruthyS (some s) = true := by
  simp [jsTruthyS, h]

/-- The mapping key consumed by `consumeRequestCode`. -/
def codeKey (code : String) : String := mapKeyOf "authorization_code_requests" (some code)

theorem consume_absent {st : Store} {code : String} (h : dbGet st (codeKey code) = none) :
    consumeRequestCode code st = some (none, st) := by
  unfold consumeRequestCode
  rw [removeMappingInternal_eq]
  rw [show mapKeyOf "authorization_code_requests" (some code) = codeKey code from rfl, h]
  rfl

theorem consume_found (st : Store) (code : String) (m : Row)
    (hg : dbGet st (codeKey code) = some m) :
    consumeRequestCode code st =
      if m.value = "" then some (none, dbDeleteKey st (codeKey code))
      else
        obind (SimpleKV.removeInternal (dbDeleteKey st (codeKey code))
            "authorization_request" m.value true) (fun req? st =>
          match req? with
          | none => some (none, st)
          | some rec =>
            match fromJson rec.value with
            | none => none
            | some v => some (some (m.value, v), st)) := by
  unfold consumeRequestCode
  rw [removeMappingInternal_eq,
    show mapKeyOf "authorization_code_requests" (some code) = codeKey code from rfl, hg]
  show (if jsTruthyS (some m.value) = true then
      obind (SimpleKV.removeInternal (dbDeleteKey st (codeKey code))
          "authorization_request" m.value true) (fun req? st =>
        match req? with
        | none => some (none, st)
        | some rec =>
          match fromJson rec.value with
          | none => none
          | some v => some (some (m.value, v), st))
    else some (none, dbDeleteKey st (codeKey code))) = _
  have hts : jsTruthyS (some m.value) = !(m.value == "") := rfl
  rw [hts]
  by_cases hemp : m.value = ""
  · rw [if_pos hemp, show (m.value == "") = true from beq_iff_eq.mpr hemp]
    rw [if_neg (by decide)]
  · have hb : (m.value == "") = false := by simp [hemp]
    rw [hb, if_neg hemp, if_pos (by decide : (!false) = true)]

/-- C2: authorization-code consumption is one-shot. With no mapping for the
code the call returns null and changes nothing; with a mapping it removes
the mapping and returns null (request row gone) or the decoded request
(row present); and after any successful call, calling again with the same
code returns null, because the mapping row has been removed. -/
theorem consumeRequestCode_exactly_once (st : Store) (code : String) :
    (dbGet st (codeKey code) = none → consumeRequestCode code st = some (none, st)) ∧
    (∀ m, dbGet st (codeKey code) = some m → m.value ≠ "" →
      ((dbGet st (kvKey "authorization_request" m.value) = none →
        ∃ st1, consumeRequestCode code st = some (none, st1) ∧
          dbGet st1 (codeKey code) = none) ∧
      (∀ r v, dbGet st (kvKey "authorization_request" m.value) = some r →
        r.value = toJson v → goodB v = true →
        ∃ st1, consumeRequestCode code st = some (some (m.value, v), st1) ∧
          dbGet st1 (codeKey code) = none))) ∧
    (∀ res st1, consumeRequestCode code st = some (res, st1) →
      consumeRequestCode code st1 = some (none, st1)) := by
  have hkne : ∀ a b : String, kvKey "authorization_request" a ≠
      mapKeyOf "authorization_code_requests" (some b) := by
    intro a b
    rw [kvKey_eq, mapKeyOf_some]
    exact relKey_ne a b (by decide) (by decide) (by decide)
  refine ⟨fun h => consume_absent h, ?_, ?_⟩
  · intro m hm hne
    have hstep : consumeRequestCode code st =
        obind (SimpleKV.removeInternal (dbDeleteKey st (codeKey code))
          "authorization_request" m.value true) (fun req? st =>
          match req? with
          | none => some (none, st)
          | some rec =>
            match fromJson rec.value with
            | none => none
            | some v => some (some (m.value, v), st)) := by
      unfold consumeRequestCode
      rw [removeMappingInternal_eq,
        show mapKeyOf "authorization_code_requests" (some code) = codeKey code from rfl,
        hm, obind_some, if_pos (jsTruthyS_some hne)]
      rfl
    constructor
    · intro hreq
      refine ⟨dbDeleteKey st (codeKey code), ?_, dbGet_deleteKey_self st (codeKey code)⟩
      rw [hstep, removeInternal_eq]
      rw [dbGet_deleteKey_ne st _ (codeKey code) (hkne m.value code), hreq]
      rfl
    · intro r v hr hv hgood
      refine ⟨SimpleKV.removeMappingByValue
        (dbDeleteKey (dbDeleteKey st (codeKey code))
          (kvKey "authorization_request" m.value))
        (kvKey "authorization_request" m.value), ?_, ?_⟩
      · rw [hstep, removeInternal_eq]
        rw [dbGet_deleteKey_ne st _ (codeKey code) (hkne m.value code), hr, obind_some]
        show (match fromJson r.value with
          | none => none
          | some v => some (some (m.value, v), _)) = _
        rw [hv, fromJson_toJson hgood]
      · apply dbGet_none_filter
        apply dbGet_none_filter
        exact dbGet_deleteKey_self st (codeKey code)
  · intro res st1 hrun
    cases hg : dbGet st (codeKey code) with
    | none =>
      rw [consume_absent hg] at hrun
      injection hrun with h2
      have hst : st = st1 := congrArg Prod.snd h2
      rw [← hst]
      exact consume_absent hg
    | some m =>
      rw [consume_found st code m hg] at hrun
      by_cases hemp : m.value = ""
      · rw [if_pos hemp] at hrun
        injection hrun with h2
        have hst : dbDeleteKey st (codeKey code) = st1 := congrArg Prod.snd h2
        rw [← hst]
        exact consume_absent (dbGet_deleteKey_self st (codeKey code))
      · rw [if_neg hemp, removeInternal_eq,
          dbGet_deleteKey_ne st (kvKey "authorization_request" m.value) (codeKey code)
            (hkne m.value code)] at hrun
        cases hreq : dbGet st (kvKey "authorization_request" m.value) with
        | none =>
          rw [hreq] at hrun
          have hrun2 : (some ((none : Option (String × Val)),
              dbDeleteKey st (codeKey code)) :
              Option (Option (String × Val) × Store)) = some (res, st1) := hrun
          injection hrun2 with h2
          have hst : dbDeleteKey st (codeKey code) = st1 := congrArg Prod.snd h2
          rw [← hst]
          exact consume_absent (dbGet_deleteKey_self st (codeKey code))
        | some r =>
          rw [hreq] at hrun
          have hrun2 : (match fromJson (rowToRecord r).value with
              | none => (none : Option (Option (String × Val) × Store))
              | some v => some (some (m.value, v),
                  SimpleKV.removeMappingByValue
                    (dbDeleteKey (dbDeleteKey st (codeKey code))
                      (kvKey "authorization_request" m.value))
                    (kvKey "authorization_request" m.value))) = some (res, st1) := hrun
          cases hj : fromJson (rowToRecord r).value with
          | none =>
            rw [hj] at hrun2
            exact absurd hrun2 (by simp)
          | some v =>
            rw [hj] at hrun2
            injection hrun2 with h2
            have hst : SimpleKV.removeMappingByValue
                (dbDeleteKey (dbDeleteKey st (codeKey code))
                  (kvKey "authorization_request" m.value))
                (kvKey "authorization_request" m.value) = st1 := congrArg Prod.snd h2
            rw [← hst]
            apply consume_absent
            apply dbGet_none_filter
            apply dbGet_none_filter
            exact dbGet_deleteKey_self st (codeKey code)

theorem consumeRequestCode_exactly_once_witness :
    ∃ st1, consumeRequestCode "c"
        [Row.mk "authorization_code_requests:c"
           "mapping_authorization_code_requests_to_authorization_request" "req1" none,
         Row.mk "authorization_request:req1" "authorization_request"
           (toJson (Val.vobj [])) none] =
      some (some ("req1", Val.vobj []), st1) ∧ dbGet st1 (codeKey "c") = none :=
  ((consumeRequestCode_exactly_once
      [Row.mk "authorization_code_requests:c"
         "mapping_authorization_code_requests_to_authorization_request" "req1" none,
       Row.mk "authorization_request:req1" "authorization_request"
         (toJson (Val.vobj [])) none] "c").2.1
    (Row.mk "authorization_code_requests:c"
      "mapping_authorization_code_requests_to_authorization_request" "req1" none)
    rfl (by decide)).2
    (Row.mk "authorization_request:req1" "authorization_request"
      (toJson (Val.vobj [])) none) (Val.vobj []) rfl rfl rfl

theorem fromJson_toJson_iso_string_counterexample :
    fromJson (toJson (Val.vstr "2024-01-02T03:04:05.678Z")) =
      some (Val.vdate (JSDate.mk 2024 1 2 3 4 5 678)) ∧
    fromJson (toJson (Val.vstr "2024-01-02T03:04:05.678Z")) ≠
      some (Val.vstr "2024-01-02T03:04:05.678Z") := by
  have h1 : fromJson (toJson (Val.vstr "2024-01-02T03:04:05.678Z")) =
      some (Val.vdate (JSDate.mk 2024 1 2 3 4 5 678)) := rfl
  refine ⟨h1, fun h => ?_⟩
  rw [h1] at h
  injection h with h2
  exact Val.noConfusion h2

/-- C9: encode/decode round trip, amended. For every value v in which no
string component has the exact ISO-8601 shape the reviver recognizes, and
every date component is calendar-valid with a 4-digit year,
fromJson (toJson v) returns v itself. Unrestricted, the claim is false: a
plain string that happens to look like an ISO date is revived as a Date,
so the round trip changes its constructor. -/
theorem encode_decode_roundtrip (v : Val) (h : goodB v = true) :
    fromJson (toJson v) = some v := fromJson_toJson h

theorem encode_decode_roundtrip_witness :
    goodB (Val.vobj [("name", Val.vstr "alice"), ("count", Val.vint 42),
      ("ok", Val.vbool true), ("note", Val.vnull),
      ("tags", Val.varr [Val.vstr "a", Val.vstr "b"]),
      ("createdAt", Val.vdate (JSDate.mk 2024 5 6 7 8 9 123))]) = true ∧
    fromJson (toJson (Val.vobj [("name", Val.vstr "alice"),
      ("count", Val.vint 42), ("ok", Val.vbool true), ("note", Val.vnull),
      ("tags", Val.varr [Val.vstr "a", Val.vstr "b"]),
      ("createdAt", Val.vdate (JSDate.mk 2024 5 6 7 8 9 123))])) =
      some (Val.vobj [("name", Val.vstr "alice"), ("count", Val.vint 42),
      ("ok", Val.vbool true), ("note", Val.vnull),
      ("tags", Val.varr [Val.vstr "a", Val.vstr "b"]),
      ("createdAt", Val.vdate (JSDate.mk 2024 5 6 7 8 9 123))]) :=
  ⟨rfl, encode_decode_roundtrip (Val.vobj [("name", Val.vstr "alice"),
    ("count", Val.vint 42), ("ok", Val.vbool true), ("note", Val.vnull),
    ("tags", Val.varr [Val.vstr "a", Val.vstr "b"]),
    ("createdAt", Val.vdate (JSDate.mk 2024 5 6 7 8 9 123))]) rfl⟩

/-- C4: refuted (code bug). `deleteToken` looks the device token set up
under the `account_tokens` relation keyed by the deviceId instead of
under `device_tokens`; the lookup misses, so the deleted id is never
pruned from the device set. On a state holding token t1 (sub "s",
device "d") with account_tokens:s = ["t1"], device_tokens:d = ["t1"],
a refresh_token mapping and token_device:t1, deleteToken "t1" removes
the token row, the refresh_token mapping, account_tokens:s and
token_device:t1, yet device_tokens:d still decodes to ["t1"] — the set
still contains the deleted id, contradicting the claim. -/
theorem deleteToken_device_tokens_bug :
    (deleteToken "t1"
      [Row.mk "tokens:t1" "tokens"
         (toJson (Val.vobj [("sub", Val.vstr "s"), ("deviceId", Val.vstr "d")]))
         none,
       Row.mk "account_tokens:s" "mapping_account_tokens_to_tokens"
         (toJson (strListVal ["t1"])) none,
       Row.mk "device_tokens:d" "mapping_device_tokens_to_tokens"
         (toJson (strListVal ["t1"])) none,
       Row.mk "refresh_token:r1" "mapping_refresh_token_to_tokens"
         "tokens:t1" none,
       Row.mk "token_device:t1" "mapping_token_device_to_account_devices"
         "d" none]).map (fun p =>
      ((dbGet p.2 (mapKeyOf "device_tokens" (some "d"))).map
          (fun r => decodeStrList r.value),
       dbGet p.2 (kvKey "tokens" "t1"),
       dbGet p.2 (mapKeyOf "account_tokens" (some "s")),
       dbGet p.2 (mapKeyOf "refresh_token" (some "r1")),
       dbGet p.2 (mapKeyOf "token_device" (some "t1")))) =
    some (some (some ["t1"]), none, none, none, none) := rfl

/-! ## C6: listAccountTokens -/

theorem get_eq (tp key : String) (st : Store) :
    SimpleKV.get tp key false st =
      some ((dbGet st (kvKey tp key)).map rowToRecord, st) := rfl

theorem readToken_row_none (ctx : Ctx) (t : String) (st : Store)
    (hd : dbGet st (kvKey "tokens" t) = none) :
    readToken ctx t st = some (none, st) := by
  unfold readToken
  rw [get_eq, hd]
  rfl

theorem readToken_row_some (ctx : Ctx) (t : String) (st : Store) (rec : Row)
    (token : Val) (hd : dbGet st (kvKey "tokens" t) = some rec)
    (hj : fromJson rec.value = some token) :
    readToken ctx t st =
      obind (getAccountM ctx (jsStrField token "sub") st) (fun acc st =>
        some (some (TokenInfo.mk t token acc.1 none), st)) := by
  unfold readToken
  rw [get_eq, hd, obind_some]
  show (match fromJson rec.value with
    | none => none
    | some token =>
      obind (getAccountM ctx (jsStrField token "sub") st) (fun acc st =>
        some (some (TokenInfo.mk t token acc.1 none), st))) = _
  rw [hj]

theorem readTokensGo_ok (ctx : Ctx) (st : Store) : ∀ ids : List String,
    (∀ t ∈ ids, dbGet st (kvKey "tokens" t) = none ∨
      (∃ rec tok acc, dbGet st (kvKey "tokens" t) = some rec ∧
        fromJson rec.value = some tok ∧
        getAccountM ctx (jsStrField tok "sub") st = some (acc, st))) →
    ∃ results : List (Option TokenInfo),
      readTokensGo ctx ids st = some (results, st) ∧
      (results.filterMap id).map TokenInfo.id =
        ids.filter (fun t => (dbGet st (kvKey "tokens" t)).isSome)
  | [], _ => ⟨[], rfl, rfl⟩
  | t :: rest, h => by
    obtain ⟨results, hgo, hmap⟩ :=
      readTokensGo_ok ctx st rest (fun x hx => h x (List.mem_cons_of_mem t hx))
    rcases h t (List.mem_cons_self t rest) with hnone | ⟨rec, tok, acc, hd, hj, hacc⟩
    · refine ⟨none :: results, ?_, ?_⟩
      · have h1 : readTokensGo ctx (t :: rest) st =
            obind (readTokensGo ctx rest st) (fun l st => some (none :: l, st)) := by
          show obind (readToken ctx t st) (fun info st =>
              obind (readTokensGo ctx rest st) fun l st => some (info :: l, st)) = _
          rw [readToken_row_none ctx t st hnone]
          rfl
        rw [h1, hgo]
        rfl
      · simp [hnone, hmap]
    · refine ⟨some (TokenInfo.mk t tok acc.1 none) :: results, ?_, ?_⟩
      · have h1 : readTokensGo ctx (t :: rest) st =
            obind (readTokensGo ctx rest st) (fun l st =>
              some (some (TokenInfo.mk t tok acc.1 none) :: l, st)) := by
          show obind (readToken ctx t st) (fun info st =>
              obind (readTokensGo ctx rest st) fun l st => some (info :: l, st)) = _
          rw [readToken_row_some ctx t st rec tok hd hj, hacc]
          rfl
        rw [h1, hgo]
        rfl
      · simp [hd, hmap]

/-- C6: amended. As written the claim is false: `readToken` calls
`getAccount`, which asserts the account exists, so one listed token whose
owning account no longer resolves makes the whole `listAccountTokens` call
raise (counterexample theorem). What the code does filter out is tokens
whose row is gone: when every id in the account_tokens set either has no
token row or has a row whose token decodes and whose account (with its
authorized clients) resolves, the call succeeds without changing the
store and returns exactly the tokens whose rows exist, in order. -/
theorem listAccountTokens_filters_missing_rows (ctx : Ctx) (sub : String)
    (st : Store) (m : Row) (ids : List String)
    (hm : dbGet st (mapKeyOf "account_tokens" (some sub)) = some m)
    (hids : decodeStrList m.value = some ids)
    (h : ∀ t ∈ ids, dbGet st (kvKey "tokens" t) = none ∨
      (∃ rec tok acc, dbGet st (kvKey "tokens" t) = some rec ∧
        fromJson rec.value = some tok ∧
        getAccountM ctx (jsStrField tok "sub") st = some (acc, st))) :
    ∃ infos, listAccountTokens ctx sub st = some (infos, st) ∧
      infos.map TokenInfo.id =
        ids.filter (fun t => (dbGet st (kvKey "tokens" t)).isSome) := by
  obtain ⟨results, hgo, hmap⟩ := readTokensGo_ok ctx st ids h
  have hmm2 : SimpleKV.getMultiMappingInternal st "account_tokens" (some sub) =
      some (some ids, st) := by
    rw [getMultiMappingInternal_eq, hm]
    show (match decodeStrList m.value with
      | none => none
      | some l => some (some l, st)) = _
    rw [hids]
  refine ⟨results.filterMap id, ?_, hmap⟩
  unfold listAccountTokens
  rw [hmm2, obind_some]
  show obind (readTokensGo ctx ids st)
    (fun infos st => some (infos.filterMap id, st)) = _
  rw [hgo]
  rfl

theorem listAccountTokens_filters_missing_rows_witness :
    ∃ infos, listAccountTokens ctxW6 "s" stW6 = some (infos, stW6) ∧
      infos.map TokenInfo.id =
        ["t1", "gone"].filter (fun t => (dbGet stW6 (kvKey "tokens" t)).isSome) := by
  apply listAccountTokens_filters_missing_rows ctxW6 "s" stW6
    (Row.mk "account_tokens:s" "mapping_account_tokens_to_tokens"
      (toJson (strListVal ["t1", "gone"])) none) ["t1", "gone"] rfl rfl
  intro t ht
  fin_cases ht
  · exact Or.inr ⟨Row.mk "tokens:t1" "tokens"
      (toJson (Val.vobj [("sub", Val.vstr "s")])) none,
      Val.vobj [("sub", Val.vstr "s")],
      (toAccount ctxW6 (AccountRow.mk "s" none false), []), rfl, rfl, rfl⟩
  · exact Or.inl rfl

theorem listAccountTokens_missing_account_raises :
    listAccountTokens (Ctx.mk (fun _ => none) "https://pds.example") "s"
      [Row.mk "account_tokens:s" "mapping_account_tokens_to_tokens"
         (toJson (strListVal ["t1"])) none,
       Row.mk "tokens:t1" "tokens"
         (toJson (Val.vobj [("sub", Val.vstr "s")])) none] = none := rfl

/-! ## C7: upsertDeviceAccount -/

theorem jsDedupGo_nil (seen : List String) : jsDedupGo seen [] = [] := rfl

theorem jsDedupGo_cons (seen : List String) (a : String) (l : List String) :
    jsDedupGo seen (a :: l) =
      if a ∈ seen then jsDedupGo seen l else a :: jsDedupGo (a :: seen) l := rfl

theorem jsDedupGo_sub : ∀ (seen l : List String) (x : String),
    x ∈ jsDedupGo seen l → x ∈ l
  | _, [], x, h => absurd h (by simp [jsDedupGo_nil])
  | seen, a :: l, x, h => by
    rw [jsDedupGo_cons] at h
    by_cases ha : a ∈ seen
    · rw [if_pos ha] at h
      exact List.mem_cons_of_mem a (jsDedupGo_sub seen l x h)
    · rw [if_neg ha] at h
      rcases List.mem_cons.mp h with h1 | h2
      · exact h1 ▸ List.mem_cons_self a l
      · exact List.mem_cons_of_mem a (jsDedupGo_sub (a :: seen) l x h2)

theorem jsDedup_sub {l : List String} {x : String} (h : x ∈ jsDedup l) : x ∈ l :=
  jsDedupGo_sub [] l x h

theorem jsSetAdd_eq (l : List String) (s : String) :
    jsSetAdd l s = if s ∈ jsDedup l then jsDedup l else jsDedup l ++ [s] := rfl

theorem jsSetAdd_mem {l : List String} {s x : String} (hx : x ∈ jsSetAdd l s) :
    x ∈ l ∨ x = s := by
  rw [jsSetAdd_eq] at hx
  by_cases hs : s ∈ jsDedup l
  · rw [if_pos hs] at hx
    exact Or.inl (jsDedup_sub hx)
  · rw [if_neg hs] at hx
    rcases List.mem_append.mp hx with h1 | h2
    · exact Or.inl (jsDedup_sub h1)
    · exact Or.inr (List.mem_singleton.mp h2)

theorem jsSetAdd_self_mem (l : List String) (s : String) : s ∈ jsSetAdd l s := by
  rw [jsSetAdd_eq]
  by_cases hs : s ∈ jsDedup l
  · rw [if_pos hs]
    exact hs
  · rw [if_neg hs]
    exact List.mem_append_right _ (List.mem_singleton.mpr rfl)

theorem upsert_eq_found (deviceId sub : String) (st : Store) (ex : Row)
    (accs : List String)
    (hex : dbGet st (kvKey "account_devices" deviceId) = some ex)
    (haccs : decodeStrList ex.value = some accs) :
    upsertDeviceAccount deviceId sub st =
      (obind (SimpleKV.putInternal st "account_devices" deviceId
        (strListVal (jsSetAdd accs sub)) none) fun _ st =>
      obind (SimpleKV.getMultiMappingInternal st "sub_devices" none) fun devs? st =>
      match devs? with
      | some devs =>
        SimpleKV.putMappingInternal st "account_devices" "sub_devices" sub
          (MapTarget.many (devs ++ [deviceId]))
      | none =>
        SimpleKV.putMappingInternal st "account_devices" "sub_devices" sub
          (MapTarget.many [deviceId])) := by
  unfold upsertDeviceAccount
  rw [get_eq, hex, obind_some]
  show (match decodeStrList ex.value with
    | none => none
    | some accs =>
      obind (SimpleKV.putInternal st "account_devices" deviceId
        (strListVal (jsSetAdd accs sub)) none) fun _ st =>
      obind (SimpleKV.getMultiMappingInternal st "sub_devices" none) fun devs? st =>
      match devs? with
      | some devs =>
        SimpleKV.putMappingInternal st "account_devices" "sub_devices" sub
          (MapTarget.many (devs ++ [deviceId]))
      | none =>
        SimpleKV.putMappingInternal st "account_devices" "sub_devices" sub
          (MapTarget.many [deviceId])) = _
  rw [haccs]

/-- C7: amended. The claim is false for a fresh device: the else branch
writes only the device row, so no sub_devices mapping is installed at all
(counterexample theorem). What holds: when the device row is absent, the
call writes the device account set [sub] and leaves the sub_devices
mapping for sub exactly as it was; when the device row is present and
decodes, the call writes the union set (which contains sub) and — because
the code reads the multi-mapping under the bare key "sub_devices" rather
than "sub_devices:sub", which in a store of well-formed keys is absent —
overwrites the reverse mapping with just [deviceId]. -/
theorem upsertDeviceAccount_post (deviceId sub : String) (st : Store)
    (hsubp : plainB sub = true) :
    (dbGet st (kvKey "account_devices" deviceId) = none →
      ∃ st1, upsertDeviceAccount deviceId sub st = some ((), st1) ∧
        (∃ r, dbGet st1 (kvKey "account_devices" deviceId) = some r ∧
          decodeStrList r.value = some [sub]) ∧
        dbGet st1 (mapKeyOf "sub_devices" (some sub)) =
          dbGet st (mapKeyOf "sub_devices" (some sub))) ∧
    (∀ ex accs, dbGet st (kvKey "account_devices" deviceId) = some ex →
      decodeStrList ex.value = some accs →
      (∀ a ∈ accs, plainB a = true) → plainB deviceId = true →
      dbGet st (mapKeyOf "sub_devices" none) = none →
      ∃ st1, upsertDeviceAccount deviceId sub st = some ((), st1) ∧
        (∃ r, dbGet st1 (kvKey "account_devices" deviceId) = some r ∧
          decodeStrList r.value = some (jsSetAdd accs sub) ∧
          sub ∈ jsSetAdd accs sub) ∧
        (∃ r2, dbGet st1 (mapKeyOf "sub_devices" (some sub)) = some r2 ∧
          decodeStrList r2.value = some [deviceId])) := by
  constructor
  · intro hex
    refine ⟨dbPut st (Row.mk (kvKey "account_devices" deviceId) "account_devices"
        (toJson (strListVal [sub])) none), ?_, ?_, ?_⟩
    · unfold upsertDeviceAccount
      rw [get_eq, hex, obind_some]
      show SimpleKV.putInternal st "account_devices" deviceId (strListVal [sub]) none = _
      rw [putInternal_eq]
      rfl
    · refine ⟨Row.mk (kvKey "account_devices" deviceId) "account_devices"
        (toJson (strListVal [sub])) none, dbGet_dbPut_self st _, ?_⟩
      exact decodeStrList_toJson (fun x hx => by
        rw [List.mem_singleton] at hx
        rw [hx]
        exact hsubp)
    · exact dbGet_dbPut_ne st _ _ (relKey_ne sub deviceId (by decide) (by decide) (by decide))
  · intro ex accs hex haccs haccsp hdevp hbare
    refine ⟨dbPut (dbPut st (Row.mk (kvKey "account_devices" deviceId) "account_devices"
        (toJson (strListVal (jsSetAdd accs sub))) none))
      (Row.mk ("sub_devices" ++ ":" ++ sub) (mappingType "account_devices" "sub_devices")
        (targetValue (MapTarget.many [deviceId])) none), ?_, ?_, ?_⟩
    · rw [upsert_eq_found deviceId sub st ex accs hex haccs, putInternal_eq, obind_some]
      show (obind (SimpleKV.getMultiMappingInternal
          (dbPut st (Row.mk (kvKey "account_devices" deviceId) "account_devices"
            (toJson (strListVal (jsSetAdd accs sub))) none)) "sub_devices" none)
        (fun devs? st =>
          match devs? with
          | some devs =>
            SimpleKV.putMappingInternal st "account_devices" "sub_devices" sub
              (MapTarget.many (devs ++ [deviceId]))
          | none =>
            SimpleKV.putMappingInternal st "account_devices" "sub_devices" sub
              (MapTarget.many [deviceId]))) = _
      rw [getMultiMappingInternal_eq,
        dbGet_dbPut_ne st _ _ (bare_ne_relKey deviceId (by decide)), hbare]
      rfl
    · refine ⟨Row.mk (kvKey "account_devices" deviceId) "account_devices"
        (toJson (strListVal (jsSetAdd accs sub))) none, ?_, ?_, jsSetAdd_self_mem accs sub⟩
      · rw [dbGet_dbPut_ne _ _ _
          (relKey_ne deviceId sub (by decide) (by decide) (by decide))]
        exact dbGet_dbPut_self st _
      · exact decodeStrList_toJson (fun x hx => by
          rcases jsSetAdd_mem hx with h1 | h2
          · exact haccsp x h1
          · rw [h2]
            exact hsubp)
    · refine ⟨Row.mk ("sub_devices" ++ ":" ++ sub)
        (mappingType "account_devices" "sub_devices")
        (targetValue (MapTarget.many [deviceId])) none, dbGet_dbPut_self _ _, ?_⟩
      exact decodeStrList_toJson (fun x hx => by
        rw [List.mem_singleton] at hx
        rw [hx]
        exact hdevp)

theorem upsertDeviceAccount_fresh_no_reverse :
    (upsertDeviceAccount "d" "s" []).map (fun p =>
      (dbGet p.2 (mapKeyOf "sub_devices" (some "s")),
       (dbGet p.2 (kvKey "account_devices" "d")).map (fun r => decodeStrList r.value))) =
    some (none, some (some ["s"])) := rfl

theorem upsertDeviceAccount_post_witness :
    ∃ st1, upsertDeviceAccount "d" "s"
        [Row.mk "account_devices:d" "account_devices"
          (toJson (strListVal ["s0"])) none] = some ((), st1) ∧
      (∃ r, dbGet st1 (kvKey "account_devices" "d") = some r ∧
        decodeStrList r.value = some (jsSetAdd ["s0"] "s") ∧
        "s" ∈ jsSetAdd ["s0"] "s") ∧
      (∃ r2, dbGet st1 (mapKeyOf "sub_devices" (some "s")) = some r2 ∧
        decodeStrList r2.value = some ["d"]) :=
  (upsertDeviceAccount_post "d" "s"
      [Row.mk "account_devices:d" "account_devices"
        (toJson (strListVal ["s0"])) none] rfl).2
    (Row.mk "account_devices:d" "account_devices" (toJson (strListVal ["s0"])) none)
    ["s0"] rfl rfl (fun a ha => by fin_cases ha; rfl) rfl rfl

/-! ## C5: multi-valued mapping deduplication -/

theorem jsDedupGo_nodup : ∀ (seen l : List String),
    (jsDedupGo seen l).Nodup ∧ ∀ x ∈ jsDedupGo seen l, x ∉ seen
  | _, [] => ⟨List.nodup_nil, by simp [jsDedupGo_nil]⟩
  | seen, a :: l => by
    rw [jsDedupGo_cons]
    by_cases ha : a ∈ seen
    · rw [if_pos ha]
      exact jsDedupGo_nodup seen l
    · rw [if_neg ha]
      obtain ⟨hnd, hns⟩ := jsDedupGo_nodup (a :: seen) l
      refine ⟨List.nodup_cons.mpr ⟨fun hmem => ?_, hnd⟩, ?_⟩
      · exact (hns a hmem) (List.mem_cons_self a seen)
      · intro x hx
        rcases List.mem_cons.mp hx with h1 | h2
        · exact h1 ▸ ha
        · exact fun hxs => (hns x h2) (List.mem_cons_of_mem a hxs)

theorem jsDedup_nodup (l : List String) : (jsDedup l).Nodup := (jsDedupGo_nodup [] l).1

/-- Calling createToken twice with the same id duplicates the id in the
account_tokens set: from the empty store, two createToken "t" calls leave
account_tokens:s decoding to ["t", "t"], which has a duplicate. -/
theorem createToken_duplicate_counterexample :
    (obind (createToken "t" (Val.vobj [("sub", Val.vstr "s")]) none [])
      (fun _ st => createToken "t" (Val.vobj [("sub", Val.vstr "s")]) none st)).map
      (fun p => (dbGet p.2 (mapKeyOf "account_tokens" (some "s"))).map
        (fun r => decodeStrList r.value)) = some (some (some ["t", "t"])) ∧
    ¬ (["t", "t"] : List String).Nodup :=
  ⟨rfl, by decide⟩

/-- C5: amended. The source layer does not deduplicate everywhere the
claim says: createToken concatenates the new id onto the account_tokens
set without a set construction, so a repeated id produces a duplicate
(counterexample theorem). What holds per write: createToken keeps the
account_tokens set duplicate-free exactly under freshness of the new id
(a duplicate-free prior set not containing it), while setAuthorizedClient
goes through a JS Set and therefore always writes a duplicate-free
sub_clients set. -/
theorem multi_mapping_dedup (st : Store) (tokenId sub clientId : String)
    (data cdata : Val) :
    (∀ m l, jsStrField data "sub" = sub → jsField data "deviceId" = none →
      jsField data "code" = none →
      dbGet st (mapKeyOf "account_tokens" (some sub)) = some m →
      decodeStrList m.value = some l → l.Nodup → tokenId ∉ l →
      (∀ x ∈ l, plainB x = true) → plainB tokenId = true →
      ∃ st1, createToken tokenId data none st = some ((), st1) ∧
        ∃ r, dbGet st1 (mapKeyOf "account_tokens" (some sub)) = some r ∧
          decodeStrList r.value = some (l ++ [tokenId]) ∧ (l ++ [tokenId]).Nodup) ∧
    (∀ ex exl, dbGet st (mapKeyOf "sub_clients" (some sub)) = some ex →
      decodeStrList ex.value = some exl →
      (∀ x ∈ exl, plainB x = true) → plainB clientId = true →
      ∃ st1, setAuthorizedClient sub clientId cdata st = some ((), st1) ∧
        ∃ r, dbGet st1 (mapKeyOf "sub_clients" (some sub)) = some r ∧
          decodeStrList r.value = some (jsDedup (exl ++ [clientId])) ∧
          (jsDedup (exl ++ [clientId])).Nodup) := by
  constructor
  · intro m l hsub hdev hcode hm hl hnd hfresh hlp htp
    refine ⟨dbPut (dbPut st (Row.mk (kvKey "tokens" tokenId) "tokens" (toJson data) none))
      (Row.mk ("account_tokens" ++ ":" ++ sub) (mappingType "tokens" "account_tokens")
        (targetValue (MapTarget.many (l ++ [tokenId]))) none), ?_, ?_⟩
    · unfold createToken
      rw [hsub, hdev, hcode, putInternal_eq, obind_some]
      show obind (SimpleKV.getMultiMappingInternal
          (dbPut st (Row.mk (kvKey "tokens" tokenId) "tokens" (toJson data) none))
          "account_tokens" (some sub)) _ = _
      rw [getMultiMappingInternal_eq,
        dbGet_dbPut_ne st _ _ (relKey_ne sub tokenId (by decide) (by decide) (by decide)),
        hm]
      show obind (match decodeStrList m.value with
        | none => none
        | some l2 => some (some l2, dbPut st (Row.mk (kvKey "tokens" tokenId) "tokens"
            (toJson data) none))) _ = _
      rw [hl]
      show obind (some ((some l : Option (List String)),
          dbPut st (Row.mk (kvKey "tokens" tokenId) "tokens" (toJson data) none))) _ = _
      rw [obind_some]
      show obind (SimpleKV.putMappingInternal
          (dbPut st (Row.mk (kvKey "tokens" tokenId) "tokens" (toJson data) none))
          "tokens" "account_tokens" sub (MapTarget.many (l ++ [tokenId]))) _ = _
      rw [putMappingInternal_eq]
      rfl
    · refine ⟨Row.mk ("account_tokens" ++ ":" ++ sub) (mappingType "tokens" "account_tokens")
          (targetValue (MapTarget.many (l ++ [tokenId]))) none,
        dbGet_dbPut_self _ _, ?_, ?_⟩
      · exact decodeStrList_toJson (fun x hx => by
          rcases List.mem_append.mp hx with h1 | h2
          · exact hlp x h1
          · rw [List.mem_singleton.mp h2]
            exact htp)
      · refine List.Nodup.append hnd (List.nodup_singleton _) ?_
        intro x hx hx2
        rw [List.mem_singleton.mp hx2] at hx
        exact hfresh hx
  · intro ex exl hex hexl hexlp hcp
    refine ⟨dbPut (dbPut st (Row.mk (kvKey "authorized_clients" clientId)
        "authorized_clients" (toJson cdata) none))
      (Row.mk ("sub_clients" ++ ":" ++ sub) (mappingType "authorized_clients" "sub_clients")
        (targetValue (MapTarget.many (jsDedup (exl ++ [clientId])))) none), ?_, ?_⟩
    · unfold setAuthorizedClient
      rw [putInternal_eq, obind_some]
      show obind (SimpleKV.getMultiMappingInternal
          (dbPut st (Row.mk (kvKey "authorized_clients" clientId) "authorized_clients"
            (toJson cdata) none)) "sub_clients" (some sub)) _ = _
      rw [getMultiMappingInternal_eq,
        dbGet_dbPut_ne st _ _ (relKey_ne sub clientId (by decide) (by decide) (by decide)),
        hex]
      show obind (match decodeStrList ex.value with
        | none => none
        | some l2 => some (some l2, dbPut st (Row.mk (kvKey "authorized_clients" clientId)
            "authorized_clients" (toJson cdata) none))) _ = _
      rw [hexl]
      show obind (some ((some exl : Option (List String)),
          dbPut st (Row.mk (kvKey "authorized_clients" clientId) "authorized_clients"
            (toJson cdata) none))) _ = _
      rw [obind_some]
      show SimpleKV.putMappingInternal
          (dbPut st (Row.mk (kvKey "authorized_clients" clientId) "authorized_clients"
            (toJson cdata) none))
          "authorized_clients" "sub_clients" sub
          (MapTarget.many (jsDedup (exl ++ [clientId]))) = _
      rw [putMappingInternal_eq]
    · refine ⟨Row.mk ("sub_clients" ++ ":" ++ sub)
          (mappingType "authorized_clients" "sub_clients")
          (targetValue (MapTarget.many (jsDedup (exl ++ [clientId])))) none,
        dbGet_dbPut_self _ _, ?_, jsDedup_nodup _⟩
      exact decodeStrList_toJson (fun x hx => by
        rcases List.mem_append.mp (jsDedup_sub hx) with h1 | h2
        · exact hexlp x h1
        · rw [List.mem_singleton.mp h2]
          exact hcp)

theorem multi_mapping_dedup_witness :
    (∃ st1, createToken "t" (Val.vobj [("sub", Val.vstr "s")]) none stW5 =
        some ((), st1) ∧
      ∃ r, dbGet st1 (mapKeyOf "account_tokens" (some "s")) = some r ∧
        decodeStrList r.value = some (["t0"] ++ ["t"]) ∧ (["t0"] ++ ["t"]).Nodup) ∧
    (∃ st1, setAuthorizedClient "s" "c" (Val.vobj []) stW5 = some ((), st1) ∧
      ∃ r, dbGet st1 (mapKeyOf "sub_clients" (some "s")) = some r ∧
        decodeStrList r.value = some (jsDedup (["c0"] ++ ["c"])) ∧
        (jsDedup (["c0"] ++ ["c"])).Nodup) :=
  ⟨(multi_mapping_dedup stW5 "t" "s" "c" (Val.vobj [("sub", Val.vstr "s")])
      (Val.vobj [])).1
    (Row.mk "account_tokens:s" "mapping_account_tokens_to_tokens"
      (toJson (strListVal ["t0"])) none)
    ["t0"] rfl rfl rfl rfl rfl (by decide) (by decide)
    (fun x hx => by fin_cases hx; rfl) rfl,
   (multi_mapping_dedup stW5 "t" "s" "c" (Val.vobj [("sub", Val.vstr "s")])
      (Val.vobj [])).2
    (Row.mk "sub_clients:s" "mapping_sub_clients_to_authorized_clients"
      (toJson (strListVal ["c0"])) none)
    ["c0"] rfl rfl (fun x hx => by fin_cases hx; rfl) rfl⟩

/-! ## C1: rotateToken postcondition -/

theorem rowToRecord_value (r : Row) : (rowToRecord r).value = r.value := rfl

theorem jsTruthyS_none : jsTruthyS none = false := rfl

theorem if_jsTruthyS_none {β : Type} (a b : β) :
    (if jsTruthyS none = true then a else b) = b := rfl

theorem toJson_strListVal_ne_tokensKey (l : List String) (k : String) :
    toJson (strListVal l) ≠ kvKey "tokens" k := by
  intro h
  have hd : ('[' :: (emitElems (l.map Val.vstr) ++ [']'])) = "tokens:".data ++ k.data := by
    have h1 : (toJson (strListVal l)).data = (kvKey "tokens" k).data :=
      congrArg String.data h
    rw [show (kvKey "tokens" k).data = "tokens:".data ++ k.data from by
      show (("tokens" ++ ":") ++ k).data = _
      rw [String.data_append]
      rfl] at h1
    exact h1
  have h2 := congrArg List.head? hd
  rw [show ("tokens:".data ++ k.data).head? = some 't' from rfl] at h2
  exact absurd (Option.some.inj h2) (by decide)

theorem dbGet_removeStep {st : Store} (hWF : WF st) (old k : String) (r : Row)
    (hk : k ≠ old) (hr : dbGet st k = some r)
    (hcond : (r.value == old && likeMatch ("mapping_%".data) r.type.data) = false) :
    dbGet (SimpleKV.removeMappingByValue (dbDeleteKey st old) old) k = some r := by
  rw [dbGet_removeByValue (WF_deleteKey old hWF), dbGet_deleteKey_ne st k old hk, hr]
  show cond (r.value == old && likeMatch ("mapping_%".data) r.type.data) none (some r) =
    some r
  rw [hcond]
  rfl

theorem dbGet_removeStep_none {st : Store} (old k : String)
    (hr : dbGet st k = none) :
    dbGet (SimpleKV.removeMappingByValue (dbDeleteKey st old) old) k = none :=
  dbGet_none_filter _ (dbGet_none_filter _ hr)

theorem getAuthorizedClients_absent (sub : String) (st : Store)
    (h : dbGet st (mapKeyOf "sub_clients" (some sub)) = none) :
    getAuthorizedClients sub st = some ([], st) := by
  unfold getAuthorizedClients
  rw [getMultiMappingInternal_eq, h]
  rfl

theorem getAccountM_resolve (ctx : Ctx) (sub : String) (st : Store) (acc : AccountRow)
    (ha : accountManagerGetAccount ctx (subToHandle sub) = some acc)
    (h : dbGet st (mapKeyOf "sub_clients" (some sub)) = none) :
    getAccountM ctx sub st = some ((toAccount ctx acc, []), st) := by
  unfold getAccountM
  rw [ha]
  show obind (getAuthorizedClients sub st)
    (fun cls st => some ((toAccount ctx acc, cls), st)) = _
  rw [getAuthorizedClients_absent sub st h]
  rfl

/-! ## C1 support: values never collide with token keys, client resolution -/

theorem toJson_ne_tokensKey (v : Val) (k : String) : toJson v ≠ kvKey "tokens" k := by
  intro h
  have h1 : emitVal v = 't' :: 'o' :: ("kens:".data ++ k.data) := by
    have h2 : (toJson v).data = (kvKey "tokens" k).data := congrArg String.data h
    rw [show (kvKey "tokens" k).data = 't' :: 'o' :: ("kens:".data ++ k.data) from by
      show (("tokens" ++ ":") ++ k).data = _
      rw [String.data_append]
      rfl] at h2
    exact h2
  cases v with
  | vstr s =>
    rw [emit_vstr] at h1
    injection h1 with hc _
    exact absurd hc (by decide)
  | vint i =>
    rw [emit_vint, intChars] at h1
    by_cases hneg : i < 0
    · rw [if_pos hneg] at h1
      injection h1 with hc _
      exact absurd hc (by decide)
    · rw [if_neg hneg] at h1
      have hd : isDigitC 't' = true :=
        natChars_digits i.natAbs 't' (by rw [h1]; exact List.mem_cons_self _ _)
      exact absurd hd (by decide)
  | vbool b =>
    cases b with
    | false =>
      have h2 : (['f', 'a', 'l', 's', 'e'] : List Char) =
          't' :: 'o' :: ("kens:".data ++ k.data) := h1
      injection h2 with hc _
      exact absurd hc (by decide)
    | true =>
      have h2 : (['t', 'r', 'u', 'e'] : List Char) =
          't' :: 'o' :: ("kens:".data ++ k.data) := h1
      injection h2 with _ h3
      injection h3 with hc2 _
      exact absurd hc2 (by decide)
  | vnull =>
    rw [emit_vnull] at h1
    injection h1 with _ h3
    injection h3 with hc2 _
    exact absurd hc2 (by decide)
  | vdate d =>
    rw [emit_vdate] at h1
    injection h1 with hc _
    exact absurd hc (by decide)
  | varr xs =>
    rw [emit_varr] at h1
    injection h1 with hc _
    exact absurd hc (by decide)
  | vobj fs =>
    rw [emit_vobj] at h1
    injection h1 with hc _
    exact absurd hc (by decide)

theorem getAuthorizedClientsGo_cons (st : Store) (c : String) (rest : List String) :
    getAuthorizedClientsGo st (c :: rest) =
      match dbGet st (kvKey "authorized_clients" c) with
      | none => getAuthorizedClientsGo st rest
      | some row =>
        match fromJson row.value with
        | none => none
        | some d => (getAuthorizedClientsGo st rest).map (fun l => (c, d) :: l) := rfl

theorem getAuthorizedClientsGo_ok (st : Store) : ∀ cids : List String,
    (∀ c ∈ cids, dbGet st (kvKey "authorized_clients" c) = none ∨
      ∃ r d, dbGet st (kvKey "authorized_clients" c) = some r ∧
        fromJson r.value = some d) →
    ∃ pairs, getAuthorizedClientsGo st cids = some pairs
  | [], _ => ⟨[], rfl⟩
  | c :: rest, h => by
    obtain ⟨pairs, hp⟩ :=
      getAuthorizedClientsGo_ok st rest (fun x hx => h x (List.mem_cons_of_mem c hx))
    rcases h c (List.mem_cons_self c rest) with hnone | ⟨r, d, hr, hd⟩
    · refine ⟨pairs, ?_⟩
      rw [getAuthorizedClientsGo_cons, hnone]
      exact hp
    · refine ⟨(c, d) :: pairs, ?_⟩
      rw [getAuthorizedClientsGo_cons, hr]
      show (match fromJson r.value with
        | none => none
        | some d => (getAuthorizedClientsGo st rest).map (fun l => (c, d) :: l)) = _
      rw [hd, hp]
      rfl

theorem getAuthorizedClients_ok (subX : String) (st : Store)
    (h : ClientsResolvable st subX) :
    ∃ cls, getAuthorizedClients subX st = some (cls, st) := by
  rcases h with hnone | ⟨scr, cids, hscr, hval, hplain, hcl⟩
  · exact ⟨[], getAuthorizedClients_absent subX st hnone⟩
  · have hdec : decodeStrList scr.value = some cids := by
      rw [hval]
      exact decodeStrList_toJson hplain
    obtain ⟨pairs, hp⟩ := getAuthorizedClientsGo_ok st cids (fun c hc => by
      rcases hcl c hc with h1 | ⟨r, d, hr, hv, hg⟩
      · exact Or.inl h1
      · exact Or.inr ⟨r, d, hr, by rw [hv]; exact fromJson_toJson hg⟩)
    refine ⟨pairs, ?_⟩
    unfold getAuthorizedClients
    rw [getMultiMappingInternal_eq, hscr]
    show obind (match decodeStrList scr.value with
      | none => none
      | some l2 => some (some l2, st)) _ = _
    rw [hdec]
    show (match getAuthorizedClientsGo st cids with
      | none => none
      | some l => some (l, st)) = _
    rw [hp]

theorem getAccountM_ok (ctx : Ctx) (subX : String) (st : Store) (a : AccountRow)
    (ha : accountManagerGetAccount ctx (subToHandle subX) = some a)
    (hc : ClientsResolvable st subX) :
    ∃ cls, getAccountM ctx subX st = some ((toAccount ctx a, cls), st) := by
  obtain ⟨cls, hcl⟩ := getAuthorizedClients_ok subX st hc
  refine ⟨cls, ?_⟩
  unfold getAccountM
  rw [ha]
  show obind (getAuthorizedClients subX st)
    (fun cls st => some ((toAccount ctx a, cls), st)) = _
  rw [hcl]
  rfl

theorem device_block_ok {γ : Type} (F : Store → Option (γ × Store))
    (stB : Store) (oldId newId : String)
    (hdevB : dbGet stB (mapKeyOf "token_device" (some oldId)) = none ∨
      ∃ dm, dbGet stB (mapKeyOf "token_device" (some oldId)) = some dm ∧
        (dm.value = "" ∨
         dbGet (dbDeleteKey stB (mapKeyOf "token_device" (some oldId)))
            (mapKeyOf "device_tokens" (some dm.value)) = none ∨
         ∃ dr dts, dbGet (dbDeleteKey stB (mapKeyOf "token_device" (some oldId)))
            (mapKeyOf "device_tokens" (some dm.value)) = some dr ∧
           decodeStrList dr.value = some dts)) :
    ∃ stC,
      (obind (SimpleKV.removeMappingInternal stB "token_device" (some oldId))
        fun dev? st =>
        obind (if jsTruthyS dev? then
            obind (SimpleKV.getMultiMappingInternal st "device_tokens"
              (some (dev?.getD ""))) fun dts? st =>
            match dts? with
            | some dts =>
              SimpleKV.putMappingInternal st "tokens" "device_tokens" (dev?.getD "")
                (MapTarget.many (dts ++ [newId]))
            | none =>
              SimpleKV.putMappingInternal st "tokens" "device_tokens" (dev?.getD "")
                (MapTarget.many [newId])
          else some ((), st)) fun _ st => F st) = F stC ∧
      ∀ k, k ≠ mapKeyOf "token_device" (some oldId) →
        (∀ d, k ≠ "device_tokens" ++ ":" ++ d) → dbGet stC k = dbGet stB k := by
  rcases hdevB with hnone | ⟨dm, hdm, hrest⟩
  · refine ⟨stB, ?_, fun k _ _ => rfl⟩
    rw [removeMappingInternal_eq, hnone]
    rfl
  · by_cases hv : dm.value = ""
    · refine ⟨dbDeleteKey stB (mapKeyOf "token_device" (some oldId)), ?_,
        fun k hk _ => dbGet_deleteKey_ne stB k _ hk⟩
      rw [removeMappingInternal_eq, hdm]
      show obind (some ((some dm.value : Option String),
        dbDeleteKey stB (mapKeyOf "token_device" (some oldId)))) _ = _
      rw [obind_some]
      show obind (if jsTruthyS (some dm.value) = true then
          obind (SimpleKV.getMultiMappingInternal
            (dbDeleteKey stB (mapKeyOf "token_device" (some oldId)))
            "device_tokens" (some dm.value)) fun dts? st =>
          match dts? with
          | some dts =>
            SimpleKV.putMappingInternal st "tokens" "device_tokens" dm.value
              (MapTarget.many (dts ++ [newId]))
          | none =>
            SimpleKV.putMappingInternal st "tokens" "device_tokens" dm.value
              (MapTarget.many [newId])
        else some ((), dbDeleteKey stB (mapKeyOf "token_device" (some oldId)))) _ = _
      rw [show jsTruthyS (some dm.value) = false from by rw [hv]; decide]
      rfl
    · rcases hrest with hempty | hdtnone | ⟨dr, dts, hdr, hdts⟩
      · exact absurd hempty hv
      · refine ⟨dbPut (dbDeleteKey stB (mapKeyOf "token_device" (some oldId)))
          (Row.mk ("device_tokens" ++ ":" ++ dm.value)
            (mappingType "tokens" "device_tokens")
            (targetValue (MapTarget.many [newId])) none), ?_, ?_⟩
        · rw [removeMappingInternal_eq, hdm]
          show obind (some ((some dm.value : Option String),
            dbDeleteKey stB (mapKeyOf "token_device" (some oldId)))) _ = _
          rw [obind_some]
          show obind (if jsTruthyS (some dm.value) = true then
              obind (SimpleKV.getMultiMappingInternal
                (dbDeleteKey stB (mapKeyOf "token_device" (some oldId)))
                "device_tokens" (some dm.value)) fun dts? st =>
              match dts? with
              | some dts =>
                SimpleKV.putMappingInternal st "tokens" "device_tokens" dm.value
                  (MapTarget.many (dts ++ [newId]))
              | none =>
                SimpleKV.putMappingInternal st "tokens" "device_tokens" dm.value
                  (MapTarget.many [newId])
            else some ((), dbDeleteKey stB (mapKeyOf "token_device" (some oldId)))) _ = _
          rw [if_pos (jsTruthyS_some hv)]
          rw [getMultiMappingInternal_eq, hdtnone]
          show obind (obind (some ((none : Option (List String)),
            dbDeleteKey stB (mapKeyOf "token_device" (some oldId)))) _) _ = _
          rw [obind_some]
          show obind (SimpleKV.putMappingInternal
            (dbDeleteKey stB (mapKeyOf "token_device" (some oldId)))
            "tokens" "device_tokens" dm.value (MapTarget.many [newId])) _ = _
          rw [putMappingInternal_eq]
          rfl
        · intro k hk hdk
          rw [dbGet_dbPut_ne _ _ _ (hdk dm.value)]
          exact dbGet_deleteKey_ne stB k _ hk
      · refine ⟨dbPut (dbDeleteKey stB (mapKeyOf "token_device" (some oldId)))
          (Row.mk ("device_tokens" ++ ":" ++ dm.value)
            (mappingType "tokens" "device_tokens")
            (targetValue (MapTarget.many (dts ++ [newId]))) none), ?_, ?_⟩
        · rw [removeMappingInternal_eq, hdm]
          show obind (some ((some dm.value : Option String),
            dbDeleteKey stB (mapKeyOf "token_device" (some oldId)))) _ = _
          rw [obind_some]
          show obind (if jsTruthyS (some dm.value) = true then
              obind (SimpleKV.getMultiMappingInternal
                (dbDeleteKey stB (mapKeyOf "token_device" (some oldId)))
                "device_tokens" (some dm.value)) fun dts? st =>
              match dts? with
              | some dts =>
                SimpleKV.putMappingInternal st "tokens" "device_tokens" dm.value
                  (MapTarget.many (dts ++ [newId]))
              | none =>
                SimpleKV.putMappingInternal st "tokens" "device_tokens" dm.value
                  (MapTarget.many [newId])
            else some ((), dbDeleteKey stB (mapKeyOf "token_device" (some oldId)))) _ = _
          rw [if_pos (jsTruthyS_some hv)]
          rw [getMultiMappingInternal_eq, hdr]
          show obind (obind (match decodeStrList dr.value with
            | none => none
            | some l2 => some (some l2,
                dbDeleteKey stB (mapKeyOf "token_device" (some oldId)))) _) _ = _
          rw [hdts]
          show obind (obind (some ((some dts : Option (List String)),
            dbDeleteKey stB (mapKeyOf "token_device" (some oldId)))) _) _ = _
          rw [obind_some]
          show obind (SimpleKV.putMappingInternal
            (dbDeleteKey stB (mapKeyOf "token_device" (some oldId)))
            "tokens" "device_tokens" dm.value (MapTarget.many (dts ++ [newId]))) _ = _
          rw [putMappingInternal_eq]
          rfl
        · intro k hk hdk
          rw [dbGet_dbPut_ne _ _ _ (hdk dm.value)]
          exact dbGet_deleteKey_ne stB k _ hk

theorem rotate_run2 (st : Store) (oldId newId rt0 sub : String)
    (patch tok : Val) (rec : Row) (newList : List String)
    (hWF : WF st)
    (hrow : dbGet st (kvKey "tokens" oldId) = some rec)
    (hj : fromJson rec.value = some tok)
    (hsub : jsStrField tok "sub" = sub)
    (hdev : dbGet st (mapKeyOf "token_device" (some oldId)) = none ∨
      ∃ dm, dbGet st (mapKeyOf "token_device" (some oldId)) = some dm ∧
        ((dm.value == kvKey "tokens" oldId &&
          likeMatch ("mapping_%".data) dm.type.data) = true ∨
         ((dm.value == kvKey "tokens" oldId &&
           likeMatch ("mapping_%".data) dm.type.data) = false ∧
          (dm.value = "" ∨ DeviceTokensReadable st dm.value))))
    (hat : (dbGet st (mapKeyOf "account_tokens" (some sub)) = none ∧
        newList = [newId]) ∨
      ∃ mrow l, dbGet st (mapKeyOf "account_tokens" (some sub)) = some mrow ∧
        mrow.value = toJson (strListVal l) ∧ (∀ t ∈ l, plainB t = true) ∧
        newList = l.filter (fun t => !(t == oldId)) ++ [newId]) :
    ∃ stC, rotateToken oldId newId rt0 patch st = some ((),
        dbPut (dbPut stC
          (Row.mk ("account_tokens" ++ ":" ++ sub)
            (mappingType "tokens" "account_tokens")
            (targetValue (MapTarget.many newList)) none))
          (Row.mk ("refresh_token" ++ ":" ++ rt0)
            (mappingType "tokens" "refresh_token")
            (targetValue (MapTarget.one newId)) none)) ∧
      ∀ k, k ≠ mapKeyOf "token_device" (some oldId) →
        (∀ d, k ≠ "device_tokens" ++ ":" ++ d) →
        dbGet stC k =
          dbGet (dbPut
            (SimpleKV.removeMappingByValue (dbDeleteKey st (kvKey "tokens" oldId))
              (kvKey "tokens" oldId))
            (Row.mk (kvKey "tokens" newId) "tokens" (toJson (mergeVal tok patch))
              (Option.map toDateISO (jsDateField patch "expiresAt")))) k := by
  have hdevB : dbGet (dbPut
        (SimpleKV.removeMappingByValue (dbDeleteKey st (kvKey "tokens" oldId))
          (kvKey "tokens" oldId))
        (Row.mk (kvKey "tokens" newId) "tokens" (toJson (mergeVal tok patch))
          (Option.map toDateISO (jsDateField patch "expiresAt"))))
      (mapKeyOf "token_device" (some oldId)) = none ∨
      ∃ dm, dbGet (dbPut
          (SimpleKV.removeMappingByValue (dbDeleteKey st (kvKey "tokens" oldId))
            (kvKey "tokens" oldId))
          (Row.mk (kvKey "tokens" newId) "tokens" (toJson (mergeVal tok patch))
            (Option.map toDateISO (jsDateField patch "expiresAt"))))
        (mapKeyOf "token_device" (some oldId)) = some dm ∧
        (dm.value = "" ∨
         dbGet (dbDeleteKey (dbPut
            (SimpleKV.removeMappingByValue (dbDeleteKey st (kvKey "tokens" oldId))
              (kvKey "tokens" oldId))
            (Row.mk (kvKey "tokens" newId) "tokens" (toJson (mergeVal tok patch))
              (Option.map toDateISO (jsDateField patch "expiresAt"))))
            (mapKeyOf "token_device" (some oldId)))
            (mapKeyOf "device_tokens" (some dm.value)) = none ∨
         ∃ dr dts, dbGet (dbDeleteKey (dbPut
            (SimpleKV.removeMappingByValue (dbDeleteKey st (kvKey "tokens" oldId))
              (kvKey "tokens" oldId))
            (Row.mk (kvKey "tokens" newId) "tokens" (toJson (mergeVal tok patch))
              (Option.map toDateISO (jsDateField patch "expiresAt"))))
            (mapKeyOf "token_device" (some oldId)))
            (mapKeyOf "device_tokens" (some dm.value)) = some dr ∧
           decodeStrList dr.value = some dts) := by
    rcases hdev with h1 | ⟨dm, hdm, hcasc | ⟨hsurv, hrest⟩⟩
    · left
      rw [dbGet_dbPut_ne _ _ _ (relKey_ne oldId newId (by decide) (by decide) (by decide))]
      exact dbGet_removeStep_none _ _ h1
    · left
      rw [dbGet_dbPut_ne _ _ _ (relKey_ne oldId newId (by decide) (by decide) (by decide)),
        dbGet_removeByValue (WF_deleteKey _ hWF),
        dbGet_deleteKey_ne st (mapKeyOf "token_device" (some oldId))
          (kvKey "tokens" oldId)
          (relKey_ne oldId oldId (by decide) (by decide) (by decide)),
        hdm]
      show cond (dm.value == kvKey "tokens" oldId &&
        likeMatch ("mapping_%".data) dm.type.data) none (some dm) = none
      rw [hcasc]
      rfl
    · right
      refine ⟨dm, ?_, ?_⟩
      · rw [dbGet_dbPut_ne _ _ _ (relKey_ne oldId newId (by decide) (by decide) (by decide))]
        exact dbGet_removeStep hWF _ _ dm
          (relKey_ne oldId oldId (by decide) (by decide) (by decide)) hdm hsurv
      · rcases hrest with hempty | hdt
        · exact Or.inl hempty
        · right
          rcases hdt with hdtnone | ⟨dr, dts, hdr, hdrv, hdrp⟩
          · left
            rw [dbGet_deleteKey_ne _ (mapKeyOf "device_tokens" (some dm.value))
                (mapKeyOf "token_device" (some oldId))
                (relKey_ne dm.value oldId (by decide) (by decide) (by decide)),
              dbGet_dbPut_ne _ (Row.mk (kvKey "tokens" newId) "tokens"
                  (toJson (mergeVal tok patch))
                  (Option.map toDateISO (jsDateField patch "expiresAt")))
                (mapKeyOf "device_tokens" (some dm.value))
                (relKey_ne dm.value newId (by decide) (by decide) (by decide))]
            exact dbGet_removeStep_none _ _ hdtnone
          · right
            refine ⟨dr, dts, ?_, ?_⟩
            · rw [dbGet_deleteKey_ne _ (mapKeyOf "device_tokens" (some dm.value))
                  (mapKeyOf "token_device" (some oldId))
                  (relKey_ne dm.value oldId (by decide) (by decide) (by decide)),
                dbGet_dbPut_ne _ (Row.mk (kvKey "tokens" newId) "tokens"
                    (toJson (mergeVal tok patch))
                    (Option.map toDateISO (jsDateField patch "expiresAt")))
                  (mapKeyOf "device_tokens" (some dm.value))
                  (relKey_ne dm.value newId (by decide) (by decide) (by decide))]
              refine dbGet_removeStep hWF _ _ dr
                (relKey_ne dm.value oldId (by decide) (by decide) (by decide)) hdr ?_
              rw [show (dr.value == kvKey "tokens" oldId) = false from by
                rw [hdrv]; simp [toJson_ne_tokensKey], Bool.false_and]
            · rw [hdrv]
              exact decodeStrList_toJson hdrp
  obtain ⟨stC, hdevrun, hframe⟩ := device_block_ok
    (fun st => obind (SimpleKV.getMultiMappingInternal st "account_tokens"
        (some sub)) fun toks? st =>
      obind (match toks? with
        | some toks =>
          let newTokens := toks.filter (fun t => !(t == oldId)) ++ [newId]
          if newTokens.length ≠ 0 then
            SimpleKV.putMappingInternal st "tokens" "account_tokens"
              sub (MapTarget.many newTokens)
          else
            obind (SimpleKV.removeMappingInternal st "account_tokens"
              (some sub)) fun _ st => some ((), st)
        | none =>
          SimpleKV.putMappingInternal st "tokens" "account_tokens"
            sub (MapTarget.many [newId])) fun _ st =>
      obind (SimpleKV.putMappingInternal st "tokens" "refresh_token" rt0
        (MapTarget.one newId)) fun _ st =>
      some ((), st))
    (dbPut (SimpleKV.removeMappingByValue (dbDeleteKey st (kvKey "tokens" oldId))
        (kvKey "tokens" oldId))
      (Row.mk (kvKey "tokens" newId) "tokens" (toJson (mergeVal tok patch))
        (Option.map toDateISO (jsDateField patch "expiresAt"))))
    oldId newId hdevB
  refine ⟨stC, ?_, hframe⟩
  unfold rotateToken
  simp only [removeInternal_eq, hrow, obind_some, rowToRecord_value, hj, putInternal_eq,
    hsub]
  rw [hdevrun]
  rcases hat with ⟨hatnone, hnl⟩ | ⟨mrow, l, hat2, hatv, hlp, hnl⟩
  · subst hnl
    have haccC : dbGet stC (mapKeyOf "account_tokens" (some sub)) = none := by
      rw [hframe (mapKeyOf "account_tokens" (some sub))
          (relKey_ne sub oldId (by decide) (by decide) (by decide))
          (fun d => relKey_ne sub d (by decide) (by decide) (by decide)),
        dbGet_dbPut_ne _ (Row.mk (kvKey "tokens" newId) "tokens"
            (toJson (mergeVal tok patch))
            (Option.map toDateISO (jsDateField patch "expiresAt")))
          (mapKeyOf "account_tokens" (some sub))
          (relKey_ne sub newId (by decide) (by decide) (by decide))]
      exact dbGet_removeStep_none _ _ hatnone
    simp only [getMultiMappingInternal_eq, haccC, obind_some, putMappingInternal_eq]
  · subst hnl
    have haccC : dbGet stC (mapKeyOf "account_tokens" (some sub)) = some mrow := by
      rw [hframe (mapKeyOf "account_tokens" (some sub))
          (relKey_ne sub oldId (by decide) (by decide) (by decide))
          (fun d => relKey_ne sub d (by decide) (by decide) (by decide)),
        dbGet_dbPut_ne _ (Row.mk (kvKey "tokens" newId) "tokens"
            (toJson (mergeVal tok patch))
            (Option.map toDateISO (jsDateField patch "expiresAt")))
          (mapKeyOf "account_tokens" (some sub))
          (relKey_ne sub newId (by decide) (by decide) (by decide))]
      refine dbGet_removeStep hWF _ _ mrow
        (relKey_ne sub oldId (by decide) (by decide) (by decide)) hat2 ?_
      rw [show (mrow.value == kvKey "tokens" oldId) = false from by
        rw [hatv]; simp [toJson_strListVal_ne_tokensKey], Bool.false_and]
    have hdecC : decodeStrList mrow.value = some l := by
      rw [hatv]
      exact decodeStrList_toJson hlp
    have hlen : (l.filter (fun t => !(t == oldId)) ++ [newId]).length ≠ 0 := by simp
    simp only [getMultiMappingInternal_eq, haccC, hdecC, obind_some, if_pos hlen,
      putMappingInternal_eq]

/-- C1: rotateToken postcondition, over every store state holding a
decodable token row for oldId owned by sub. The token may or may not be
device-bound (any token_device mapping, with the device set decodable
when it will be read); the account_tokens mapping may exist (a decodable
id set) or not; the subject may have authorized clients (decodable
sub_clients and authorized_clients data); retained tokens in the set must
resolve, since readToken raises otherwise. Afterwards readToken(oldId)
returns null, readToken(newId) returns the old data deep-merged with the
patch, and listAccountTokens(sub) contains an entry with id newId and
none with id oldId. -/
theorem rotateToken_postcondition (ctx : Ctx) (st : Store)
    (oldId newId rt0 sub : String) (patch tok : Val) (rec : Row)
    (newList : List String) (at0 : AccountRow)
    (hWF : WF st) (hne : oldId ≠ newId)
    (hrow : dbGet st (kvKey "tokens" oldId) = some rec)
    (hj : fromJson rec.value = some tok)
    (hsub : jsStrField tok "sub" = sub)
    (hgoodm : goodB (mergeVal tok patch) = true)
    (hmsub : jsStrField (mergeVal tok patch) "sub" = sub)
    (hdev : dbGet st (mapKeyOf "token_device" (some oldId)) = none ∨
      ∃ dm, dbGet st (mapKeyOf "token_device" (some oldId)) = some dm ∧
        ((dm.value == kvKey "tokens" oldId &&
          likeMatch ("mapping_%".data) dm.type.data) = true ∨
         ((dm.value == kvKey "tokens" oldId &&
           likeMatch ("mapping_%".data) dm.type.data) = false ∧
          (dm.value = "" ∨ DeviceTokensReadable st dm.value))))
    (hat : (dbGet st (mapKeyOf "account_tokens" (some sub)) = none ∧
        newList = [newId]) ∨
      ∃ mrow l, dbGet st (mapKeyOf "account_tokens" (some sub)) = some mrow ∧
        mrow.value = toJson (strListVal l) ∧ (∀ t ∈ l, plainB t = true) ∧
        newList = l.filter (fun t => !(t == oldId)) ++ [newId])
    (hnp : plainB newId = true)
    (hacct : accountManagerGetAccount ctx (subToHandle sub) = some at0)
    (hclsub : ClientsResolvable st sub)
    (hres : ∀ t ∈ newList, t ≠ newId →
      ∃ rt rtok, dbGet st (kvKey "tokens" t) = some rt ∧ rt.type = "tokens" ∧
        fromJson rt.value = some rtok ∧
        (∃ att, accountManagerGetAccount ctx (subToHandle (jsStrField rtok "sub")) =
          some att) ∧
        ClientsResolvable st (jsStrField rtok "sub")) :
    ∃ st1, rotateToken oldId newId rt0 patch st = some ((), st1) ∧
      readToken ctx oldId st1 = some (none, st1) ∧
      readToken ctx newId st1 = some (some (TokenInfo.mk newId (mergeVal tok patch)
        (toAccount ctx at0) none), st1) ∧
      ∃ infos, listAccountTokens ctx sub st1 = some (infos, st1) ∧
        (∃ i ∈ infos, i.id = newId) ∧ (∀ i ∈ infos, i.id ≠ oldId) := by
  obtain ⟨stC, hrun, hframe⟩ :=
    rotate_run2 st oldId newId rt0 sub patch tok rec newList hWF hrow hj hsub hdev hat
  have hstD_none2 : ∀ (rel x : String), ':' ∉ rel.data → rel ≠ "refresh_token" →
      rel ≠ "account_tokens" → rel ≠ "token_device" → rel ≠ "device_tokens" →
      rel ≠ "tokens" → dbGet st (rel ++ ":" ++ x) = none →
      dbGet (dbPut (dbPut stC
      (Row.mk ("account_tokens" ++ ":" ++ sub)
        (mappingType "tokens" "account_tokens")
        (targetValue (MapTarget.many newList)) none))
      (Row.mk ("refresh_token" ++ ":" ++ rt0)
        (mappingType "tokens" "refresh_token")
        (targetValue (MapTarget.one newId)) none)) (rel ++ ":" ++ x) = none := by
    intro rel x hc h1 h2 h3 h4 h5 h6
    rw [dbGet_dbPut_ne _ _ _ (relKey_ne x rt0 hc (by decide) h1),
      dbGet_dbPut_ne _ _ _ (relKey_ne x sub hc (by decide) h2),
      hframe (rel ++ ":" ++ x) (relKey_ne x oldId hc (by decide) h3)
        (fun d => relKey_ne x d hc (by decide) h4),
      dbGet_dbPut_ne _ _ _ (relKey_ne x newId hc (by decide) h5)]
    exact dbGet_removeStep_none _ _ h6
  have hstD_some2 : ∀ (rel x : String) (r : Row), ':' ∉ rel.data →
      rel ≠ "refresh_token" → rel ≠ "account_tokens" → rel ≠ "token_device" →
      rel ≠ "device_tokens" → rel ≠ "tokens" →
      dbGet st (rel ++ ":" ++ x) = some r →
      (r.value == kvKey "tokens" oldId &&
        likeMatch ("mapping_%".data) r.type.data) = false →
      dbGet (dbPut (dbPut stC
      (Row.mk ("account_tokens" ++ ":" ++ sub)
        (mappingType "tokens" "account_tokens")
        (targetValue (MapTarget.many newList)) none))
      (Row.mk ("refresh_token" ++ ":" ++ rt0)
        (mappingType "tokens" "refresh_token")
        (targetValue (MapTarget.one newId)) none)) (rel ++ ":" ++ x) = some r := by
    intro rel x r hc h1 h2 h3 h4 h5 hr hcond
    rw [dbGet_dbPut_ne _ _ _ (relKey_ne x rt0 hc (by decide) h1),
      dbGet_dbPut_ne _ _ _ (relKey_ne x sub hc (by decide) h2),
      hframe (rel ++ ":" ++ x) (relKey_ne x oldId hc (by decide) h3)
        (fun d => relKey_ne x d hc (by decide) h4),
      dbGet_dbPut_ne _ _ _ (relKey_ne x newId hc (by decide) h5)]
    exact dbGet_removeStep hWF _ _ r (relKey_ne x oldId hc (by decide) h5) hr hcond
  have hKeepTok : ∀ (t : String) (rt : Row), t ≠ oldId → t ≠ newId →
      dbGet st (kvKey "tokens" t) = some rt → rt.type = "tokens" →
      dbGet (dbPut (dbPut stC
      (Row.mk ("account_tokens" ++ ":" ++ sub)
        (mappingType "tokens" "account_tokens")
        (targetValue (MapTarget.many newList)) none))
      (Row.mk ("refresh_token" ++ ":" ++ rt0)
        (mappingType "tokens" "refresh_token")
        (targetValue (MapTarget.one newId)) none)) (kvKey "tokens" t) = some rt := by
    intro t rt ht1 ht2 hrt htype
    rw [dbGet_dbPut_ne _ _ _ (relKey_ne t rt0 (by decide) (by decide) (by decide)),
      dbGet_dbPut_ne _ _ _ (relKey_ne t sub (by decide) (by decide) (by decide)),
      hframe (kvKey "tokens" t)
        (relKey_ne t oldId (by decide) (by decide) (by decide))
        (fun d => relKey_ne t d (by decide) (by decide) (by decide)),
      dbGet_dbPut_ne _ _ _ (relKey_ne_arg t newId (by decide) ht2)]
    refine dbGet_removeStep hWF _ _ rt (relKey_ne_arg t oldId (by decide) ht1) hrt ?_
    rw [htype, show likeMatch ("mapping_%".data) ("tokens" : String).data = false from rfl,
      Bool.and_false]
  have hOldGone : dbGet (dbPut (dbPut stC
      (Row.mk ("account_tokens" ++ ":" ++ sub)
        (mappingType "tokens" "account_tokens")
        (targetValue (MapTarget.many newList)) none))
      (Row.mk ("refresh_token" ++ ":" ++ rt0)
        (mappingType "tokens" "refresh_token")
        (targetValue (MapTarget.one newId)) none)) (kvKey "tokens" oldId) = none := by
    rw [dbGet_dbPut_ne _ _ _ (relKey_ne oldId rt0 (by decide) (by decide) (by decide)),
      dbGet_dbPut_ne _ _ _ (relKey_ne oldId sub (by decide) (by decide) (by decide)),
      hframe (kvKey "tokens" oldId)
        (relKey_ne oldId oldId (by decide) (by decide) (by decide))
        (fun d => relKey_ne oldId d (by decide) (by decide) (by decide)),
      dbGet_dbPut_ne _ _ _ (relKey_ne_arg oldId newId (by decide) hne)]
    exact dbGet_none_filter _ (dbGet_deleteKey_self st _)
  have hNewRow : dbGet (dbPut (dbPut stC
      (Row.mk ("account_tokens" ++ ":" ++ sub)
        (mappingType "tokens" "account_tokens")
        (targetValue (MapTarget.many newList)) none))
      (Row.mk ("refresh_token" ++ ":" ++ rt0)
        (mappingType "tokens" "refresh_token")
        (targetValue (MapTarget.one newId)) none)) (kvKey "tokens" newId) = some (Row.mk (kvKey "tokens" newId) "tokens" (toJson (mergeVal tok patch))
      (Option.map toDateISO (jsDateField patch "expiresAt"))) := by
    rw [dbGet_dbPut_ne _ _ _ (relKey_ne newId rt0 (by decide) (by decide) (by decide)),
      dbGet_dbPut_ne _ _ _ (relKey_ne newId sub (by decide) (by decide) (by decide)),
      hframe (kvKey "tokens" newId)
        (relKey_ne newId oldId (by decide) (by decide) (by decide))
        (fun d => relKey_ne newId d (by decide) (by decide) (by decide))]
    exact dbGet_dbPut_self _ _
  have hClTrans : ∀ subX, ClientsResolvable st subX →
      ClientsResolvable (dbPut (dbPut stC
      (Row.mk ("account_tokens" ++ ":" ++ sub)
        (mappingType "tokens" "account_tokens")
        (targetValue (MapTarget.many newList)) none))
      (Row.mk ("refresh_token" ++ ":" ++ rt0)
        (mappingType "tokens" "refresh_token")
        (targetValue (MapTarget.one newId)) none)) subX := by
    intro subX h
    rcases h with h1 | ⟨scr, cids, hscr, hval, hplain, hcl⟩
    · exact Or.inl (hstD_none2 "sub_clients" subX (by decide) (by decide) (by decide)
        (by decide) (by decide) (by decide) h1)
    · refine Or.inr ⟨scr, cids, ?_, hval, hplain, ?_⟩
      · exact hstD_some2 "sub_clients" subX scr (by decide) (by decide) (by decide)
          (by decide) (by decide) (by decide) hscr
          (by rw [show (scr.value == kvKey "tokens" oldId) = false from by
              rw [hval]; simp [toJson_strListVal_ne_tokensKey], Bool.false_and])
      · intro c hc
        rcases hcl c hc with hc1 | ⟨r, d, hr2, hv2, hg2⟩
        · exact Or.inl (hstD_none2 "authorized_clients" c (by decide) (by decide)
            (by decide) (by decide) (by decide) (by decide) hc1)
        · refine Or.inr ⟨r, d, ?_, hv2, hg2⟩
          exact hstD_some2 "authorized_clients" c r (by decide) (by decide) (by decide)
            (by decide) (by decide) (by decide) hr2
            (by rw [show (r.value == kvKey "tokens" oldId) = false from by
                rw [hv2]; simp [toJson_ne_tokensKey], Bool.false_and])
  have hReadOld : readToken ctx oldId (dbPut (dbPut stC
      (Row.mk ("account_tokens" ++ ":" ++ sub)
        (mappingType "tokens" "account_tokens")
        (targetValue (MapTarget.many newList)) none))
      (Row.mk ("refresh_token" ++ ":" ++ rt0)
        (mappingType "tokens" "refresh_token")
        (targetValue (MapTarget.one newId)) none)) = some (none, (dbPut (dbPut stC
      (Row.mk ("account_tokens" ++ ":" ++ sub)
        (mappingType "tokens" "account_tokens")
        (targetValue (MapTarget.many newList)) none))
      (Row.mk ("refresh_token" ++ ":" ++ rt0)
        (mappingType "tokens" "refresh_token")
        (targetValue (MapTarget.one newId)) none))) :=
    readToken_row_none ctx oldId _ hOldGone
  obtain ⟨cls0, hga0⟩ := getAccountM_ok ctx sub (dbPut (dbPut stC
      (Row.mk ("account_tokens" ++ ":" ++ sub)
        (mappingType "tokens" "account_tokens")
        (targetValue (MapTarget.many newList)) none))
      (Row.mk ("refresh_token" ++ ":" ++ rt0)
        (mappingType "tokens" "refresh_token")
        (targetValue (MapTarget.one newId)) none)) at0 hacct (hClTrans sub hclsub)
  have hReadNew : readToken ctx newId (dbPut (dbPut stC
      (Row.mk ("account_tokens" ++ ":" ++ sub)
        (mappingType "tokens" "account_tokens")
        (targetValue (MapTarget.many newList)) none))
      (Row.mk ("refresh_token" ++ ":" ++ rt0)
        (mappingType "tokens" "refresh_token")
        (targetValue (MapTarget.one newId)) none)) = some (some (TokenInfo.mk newId
      (mergeVal tok patch) (toAccount ctx at0) none), (dbPut (dbPut stC
      (Row.mk ("account_tokens" ++ ":" ++ sub)
        (mappingType "tokens" "account_tokens")
        (targetValue (MapTarget.many newList)) none))
      (Row.mk ("refresh_token" ++ ":" ++ rt0)
        (mappingType "tokens" "refresh_token")
        (targetValue (MapTarget.one newId)) none))) := by
    rw [readToken_row_some ctx newId _ (Row.mk (kvKey "tokens" newId) "tokens" (toJson (mergeVal tok patch))
      (Option.map toDateISO (jsDateField patch "expiresAt"))) (mergeVal tok patch) hNewRow
      (fromJson_toJson hgoodm), hmsub, hga0, obind_some]
  have htold : ∀ t ∈ newList, t ≠ newId → t ≠ oldId := by
    rcases hat with ⟨h1, hnl⟩ | ⟨mrow, l, h1, h2, h3, hnl⟩
    · intro t ht hne2
      rw [hnl] at ht
      exact absurd (List.mem_singleton.mp ht) hne2
    · intro t ht hne2
      rw [hnl] at ht
      rcases List.mem_append.mp ht with hf | hs
      · have htf := (List.mem_filter.mp hf).2
        intro he
        rw [he] at htf
        simp at htf
      · exact absurd (List.mem_singleton.mp hs) hne2
  have hTok : ∀ t ∈ newList, ∃ rt rtok acc2,
      dbGet (dbPut (dbPut stC
      (Row.mk ("account_tokens" ++ ":" ++ sub)
        (mappingType "tokens" "account_tokens")
        (targetValue (MapTarget.many newList)) none))
      (Row.mk ("refresh_token" ++ ":" ++ rt0)
        (mappingType "tokens" "refresh_token")
        (targetValue (MapTarget.one newId)) none)) (kvKey "tokens" t) = some rt ∧
      fromJson rt.value = some rtok ∧
      getAccountM ctx (jsStrField rtok "sub") (dbPut (dbPut stC
      (Row.mk ("account_tokens" ++ ":" ++ sub)
        (mappingType "tokens" "account_tokens")
        (targetValue (MapTarget.many newList)) none))
      (Row.mk ("refresh_token" ++ ":" ++ rt0)
        (mappingType "tokens" "refresh_token")
        (targetValue (MapTarget.one newId)) none)) = some (acc2, (dbPut (dbPut stC
      (Row.mk ("account_tokens" ++ ":" ++ sub)
        (mappingType "tokens" "account_tokens")
        (targetValue (MapTarget.many newList)) none))
      (Row.mk ("refresh_token" ++ ":" ++ rt0)
        (mappingType "tokens" "refresh_token")
        (targetValue (MapTarget.one newId)) none))) := by
    intro t ht
    by_cases hteq : t = newId
    · rw [hteq]
      exact ⟨(Row.mk (kvKey "tokens" newId) "tokens" (toJson (mergeVal tok patch))
      (Option.map toDateISO (jsDateField patch "expiresAt"))), mergeVal tok patch, (toAccount ctx at0, cls0), hNewRow,
        fromJson_toJson hgoodm, by rw [hmsub]; exact hga0⟩
    · obtain ⟨rt, rtok, hrt, htype, hrtj, ⟨att, hrta⟩, hrtc⟩ := hres t ht hteq
      obtain ⟨cls2, hga2⟩ := getAccountM_ok ctx (jsStrField rtok "sub") _ att hrta
        (hClTrans _ hrtc)
      exact ⟨rt, rtok, (toAccount ctx att, cls2),
        hKeepTok t rt (htold t ht hteq) hteq hrt htype, hrtj, hga2⟩
  obtain ⟨results, hgo, hmapids⟩ := readTokensGo_ok ctx (dbPut (dbPut stC
      (Row.mk ("account_tokens" ++ ":" ++ sub)
        (mappingType "tokens" "account_tokens")
        (targetValue (MapTarget.many newList)) none))
      (Row.mk ("refresh_token" ++ ":" ++ rt0)
        (mappingType "tokens" "refresh_token")
        (targetValue (MapTarget.one newId)) none)) newList (fun t ht => by
    obtain ⟨rt, rtok, acc2, h1, h2, h3⟩ := hTok t ht
    exact Or.inr ⟨rt, rtok, acc2, h1, h2, h3⟩)
  have hatD : dbGet (dbPut (dbPut stC
      (Row.mk ("account_tokens" ++ ":" ++ sub)
        (mappingType "tokens" "account_tokens")
        (targetValue (MapTarget.many newList)) none))
      (Row.mk ("refresh_token" ++ ":" ++ rt0)
        (mappingType "tokens" "refresh_token")
        (targetValue (MapTarget.one newId)) none)) (mapKeyOf "account_tokens" (some sub)) =
      some (Row.mk ("account_tokens" ++ ":" ++ sub)
        (mappingType "tokens" "account_tokens")
        (targetValue (MapTarget.many newList)) none) := by
    rw [dbGet_dbPut_ne _ _ _ (relKey_ne sub rt0 (by decide) (by decide) (by decide))]
    exact dbGet_dbPut_self _ _
  have hplainNew : ∀ x ∈ newList, plainB x = true := by
    rcases hat with ⟨h1, hnl⟩ | ⟨mrow, l, h1, h2, h3, hnl⟩
    · intro x hx
      rw [hnl] at hx
      rw [List.mem_singleton.mp hx]
      exact hnp
    · intro x hx
      rw [hnl] at hx
      rcases List.mem_append.mp hx with hf | hs
      · exact h3 x (List.mem_filter.mp hf).1
      · rw [List.mem_singleton.mp hs]
        exact hnp
  have hdecD : decodeStrList (targetValue (MapTarget.many newList)) = some newList :=
    decodeStrList_toJson hplainNew
  have hlist : listAccountTokens ctx sub (dbPut (dbPut stC
      (Row.mk ("account_tokens" ++ ":" ++ sub)
        (mappingType "tokens" "account_tokens")
        (targetValue (MapTarget.many newList)) none))
      (Row.mk ("refresh_token" ++ ":" ++ rt0)
        (mappingType "tokens" "refresh_token")
        (targetValue (MapTarget.one newId)) none)) =
      some (results.filterMap id, (dbPut (dbPut stC
      (Row.mk ("account_tokens" ++ ":" ++ sub)
        (mappingType "tokens" "account_tokens")
        (targetValue (MapTarget.many newList)) none))
      (Row.mk ("refresh_token" ++ ":" ++ rt0)
        (mappingType "tokens" "refresh_token")
        (targetValue (MapTarget.one newId)) none))) := by
    unfold listAccountTokens
    rw [show SimpleKV.getMultiMappingInternal (dbPut (dbPut stC
      (Row.mk ("account_tokens" ++ ":" ++ sub)
        (mappingType "tokens" "account_tokens")
        (targetValue (MapTarget.many newList)) none))
      (Row.mk ("refresh_token" ++ ":" ++ rt0)
        (mappingType "tokens" "refresh_token")
        (targetValue (MapTarget.one newId)) none))
        "account_tokens" (some sub) = some (some newList, (dbPut (dbPut stC
      (Row.mk ("account_tokens" ++ ":" ++ sub)
        (mappingType "tokens" "account_tokens")
        (targetValue (MapTarget.many newList)) none))
      (Row.mk ("refresh_token" ++ ":" ++ rt0)
        (mappingType "tokens" "refresh_token")
        (targetValue (MapTarget.one newId)) none))) from by
      rw [getMultiMappingInternal_eq, hatD]
      show (match decodeStrList (targetValue (MapTarget.many newList)) with
        | none => none
        | some l2 => some (some l2, (dbPut (dbPut stC
      (Row.mk ("account_tokens" ++ ":" ++ sub)
        (mappingType "tokens" "account_tokens")
        (targetValue (MapTarget.many newList)) none))
      (Row.mk ("refresh_token" ++ ":" ++ rt0)
        (mappingType "tokens" "refresh_token")
        (targetValue (MapTarget.one newId)) none)))) = _
      rw [hdecD], obind_some]
    show obind (readTokensGo ctx newList (dbPut (dbPut stC
      (Row.mk ("account_tokens" ++ ":" ++ sub)
        (mappingType "tokens" "account_tokens")
        (targetValue (MapTarget.many newList)) none))
      (Row.mk ("refresh_token" ++ ":" ++ rt0)
        (mappingType "tokens" "refresh_token")
        (targetValue (MapTarget.one newId)) none)))
      (fun infos st => some (infos.filterMap id, st)) = _
    rw [hgo]
    rfl
  have hids : (results.filterMap id).map TokenInfo.id = newList := by
    rw [hmapids]
    apply List.filter_eq_self.mpr
    intro t ht
    obtain ⟨rt, _, _, h1, _⟩ := hTok t ht
    rw [h1]
    rfl
  refine ⟨(dbPut (dbPut stC
      (Row.mk ("account_tokens" ++ ":" ++ sub)
        (mappingType "tokens" "account_tokens")
        (targetValue (MapTarget.many newList)) none))
      (Row.mk ("refresh_token" ++ ":" ++ rt0)
        (mappingType "tokens" "refresh_token")
        (targetValue (MapTarget.one newId)) none)), hrun, hReadOld, hReadNew,
    results.filterMap id, hlist, ?_, ?_⟩
  · have hmm : newId ∈ (results.filterMap id).map TokenInfo.id := by
      rw [hids]
      rcases hat with ⟨h1, hnl⟩ | ⟨mrow, l, h1, h2, h3, hnl⟩
      · rw [hnl]
        exact List.mem_singleton.mpr rfl
      · rw [hnl]
        exact List.mem_append_right _ (List.mem_singleton.mpr rfl)
    obtain ⟨i, hi, hieq⟩ := List.mem_map.mp hmm
    exact ⟨i, hi, hieq⟩
  · intro i hi
    have hmm : i.id ∈ (results.filterMap id).map TokenInfo.id :=
      List.mem_map_of_mem _ hi
    rw [hids] at hmm
    by_cases hin : i.id = newId
    · rw [hin]
      exact Ne.symm hne
    · exact htold i.id hmm hin

theorem rotateToken_postcondition_witness :
    ∃ st1, rotateToken "old" "new" "r2" (Val.vobj []) stW1 = some ((), st1) ∧
      readToken ctxW6 "old" st1 = some (none, st1) ∧
      readToken ctxW6 "new" st1 = some (some (TokenInfo.mk "new"
        (mergeVal (Val.vobj [("sub", Val.vstr "s")]) (Val.vobj []))
        (toAccount ctxW6 (AccountRow.mk "s" none false)) none), st1) ∧
      ∃ infos, listAccountTokens ctxW6 "s" st1 = some (infos, st1) ∧
        (∃ i ∈ infos, i.id = "new") ∧ (∀ i ∈ infos, i.id ≠ "old") :=
  rotateToken_postcondition ctxW6 stW1 "old" "new" "r2" "s" (Val.vobj [])
    (Val.vobj [("sub", Val.vstr "s")])
    (Row.mk "tokens:old" "tokens" (toJson (Val.vobj [("sub", Val.vstr "s")])) none)
    ["new"] (AccountRow.mk "s" none false)
    (by decide : (List.map Row.key stW1).Nodup)
    (by decide)
    rfl rfl rfl rfl rfl
    (Or.inr ⟨Row.mk "token_device:old" "mapping_token_device_to_account_devices"
        "d" none,
      rfl, Or.inr ⟨by decide, Or.inr (Or.inr ⟨Row.mk "device_tokens:d"
        "mapping_device_tokens_to_tokens" (toJson (strListVal ["old"])) none, ["old"],
        rfl, rfl, fun x hx => by fin_cases hx; rfl⟩)⟩⟩)
    (Or.inr ⟨Row.mk "account_tokens:s" "mapping_account_tokens_to_tokens"
        (toJson (strListVal ["old"])) none, ["old"], rfl, rfl,
      fun t ht => by fin_cases ht; rfl, rfl⟩)
    rfl
    rfl
    (Or.inr ⟨Row.mk "sub_clients:s" "mapping_sub_clients_to_authorized_clients"
        (toJson (strListVal ["c1"])) none, ["c1"], rfl, rfl,
      fun c hc => by fin_cases hc; rfl,
      fun c hc => by fin_cases hc; exact Or.inr ⟨Row.mk "authorized_clients:c1"
        "authorized_clients" (toJson (Val.vobj [])) none, Val.vobj [], rfl, rfl, rfl⟩⟩)
    (fun t ht hne2 => by fin_cases ht; exact absurd rfl hne2)

end ActivityPDS
